import Mathlib

/-!
DatadogAgent reconcile pipeline (v2).

A shallow embedding of `controllers/datadogagent/controller_reconcile_v2.go`.

The reconciler talks to the cluster, to the per-pass dependency store and to
collaborators that live in other packages.  Everything outside the file is an
abstract world `W` together with an environment `Env W` of operations on it;
every operation is a total function `W → result × W`.  Each call of interest
is appended to a trace of `Event`s, so that "is invoked", "is not invoked" and
"precedes" are statements about that trace.

Conventions:
* a Go `error` is `Option Err` (`none` is `nil`); a Go `[]error` is a
  `List Err` of non-nil errors;
* `time.Duration` is an `Int` number of nanoseconds;
* a Go map that is only ranged over is the list of its keys in the order the
  runtime yields them;
* pointers that are written through (`newStatus`, the profile handed to
  `ProfileToApply`) are passed in and returned; every other argument is taken
  to be read only by the callee.
-/

namespace DatadogOperator

/-! ## Errors -/

/-- Error values: the API status errors the code distinguishes
(`apierrors.IsNotFound`, `apierrors.IsConflict`), any other error, and the
aggregate built by `errors.NewAggregate`. -/
inductive Err where
  | notFound (msg : String)
  | conflict (msg : String)
  | other (msg : String)
  | aggregate (errs : List Err)
deriving Repr

mutual
/-- Decidable equality of errors. -/
def Err.decEq : (a b : Err) → Decidable (a = b)
  | .notFound m, .notFound n =>
    if h : m = n then isTrue (by rw [h]) else isFalse (by intro e; cases e; exact h rfl)
  | .conflict m, .conflict n =>
    if h : m = n then isTrue (by rw [h]) else isFalse (by intro e; cases e; exact h rfl)
  | .other m, .other n =>
    if h : m = n then isTrue (by rw [h]) else isFalse (by intro e; cases e; exact h rfl)
  | .aggregate xs, .aggregate ys =>
    match Err.decEqList xs ys with
    | isTrue h => isTrue (by rw [h])
    | isFalse h => isFalse (by intro e; cases e; exact h rfl)
  | .notFound _, .conflict _ => isFalse (by intro e; cases e)
  | .notFound _, .other _ => isFalse (by intro e; cases e)
  | .notFound _, .aggregate _ => isFalse (by intro e; cases e)
  | .conflict _, .notFound _ => isFalse (by intro e; cases e)
  | .conflict _, .other _ => isFalse (by intro e; cases e)
  | .conflict _, .aggregate _ => isFalse (by intro e; cases e)
  | .other _, .notFound _ => isFalse (by intro e; cases e)
  | .other _, .conflict _ => isFalse (by intro e; cases e)
  | .other _, .aggregate _ => isFalse (by intro e; cases e)
  | .aggregate _, .notFound _ => isFalse (by intro e; cases e)
  | .aggregate _, .conflict _ => isFalse (by intro e; cases e)
  | .aggregate _, .other _ => isFalse (by intro e; cases e)
/-- Decidable equality of error lists. -/
def Err.decEqList : (as bs : List Err) → Decidable (as = bs)
  | [], [] => isTrue rfl
  | [], _ :: _ => isFalse (by intro e; cases e)
  | _ :: _, [] => isFalse (by intro e; cases e)
  | a :: as, b :: bs =>
    match Err.decEq a b with
    | isTrue h =>
      match Err.decEqList as bs with
      | isTrue h2 => isTrue (by rw [h, h2])
      | isFalse h2 => isFalse (by intro e; cases e; exact h2 rfl)
    | isFalse h => isFalse (by intro e; cases e; exact h rfl)
end

instance : DecidableEq Err := Err.decEq

/-- The library predicate `apierrors.IsNotFound`. -/
def IsNotFound : Err → Bool
  | .notFound _ => true
  | _ => false

/-- The library predicate `apierrors.IsConflict`. -/
def IsConflict : Err → Bool
  | .conflict _ => true
  | _ => false

/-- The library function `errors.NewAggregate`: `nil` for an empty list, the
aggregate of the listed errors otherwise. -/
def NewAggregate : List Err → Option Err
  | [] => none
  | e :: es => some (.aggregate (e :: es))

/-- The errors held by an error value: the members of an aggregate, the error
itself otherwise (`Aggregate.Errors`). -/
def Err.Errors : Err → List Err
  | .aggregate es => es
  | e => [e]

/-! ## Data model -/

/-- A point in time (`metav1.Time`). -/
abbrev Time := Nat

/-- The duration `time.Second`, in nanoseconds. -/
def Second : Int := 1000000000

/-- The type `reconcile.Result`. -/
structure Result where
  Requeue : Bool := false
  RequeueAfter : Int := 0
deriving DecidableEq, Repr

/-- The type `types.NamespacedName`. -/
structure NamespacedName where
  Namespace : String := ""
  Name : String := ""
deriving DecidableEq, Repr

/-- The type `metav1.ConditionStatus`. -/
inductive ConditionStatus where
  | ConditionTrue
  | ConditionFalse
  | ConditionUnknown
deriving DecidableEq, Repr

/-- The type `metav1.Condition`. -/
structure Condition where
  CondType : String
  Status : ConditionStatus
  LastTransitionTime : Time
  Reason : String
  Message : String
deriving DecidableEq, Repr

/-- The condition a metrics forwarder reports for an object
(`ConditionCommon`). -/
structure ConditionCommon where
  ConditionType : String
  Status : Bool
  LastUpdateTime : Time
  Reason : String
  Message : String
deriving DecidableEq, Repr

/-- The type `commonv1.DeploymentStatus`. -/
structure DeploymentStatus where
  Replicas : Nat := 0
  ReadyReplicas : Nat := 0
  CurrentHash : String := ""
  GeneratedToken : String := ""
  State : String := ""
  DeploymentName : String := ""
deriving DecidableEq, Repr

/-- The type `commonv1.DaemonSetStatus`. -/
structure DaemonSetStatus where
  Desired : Nat := 0
  Ready : Nat := 0
  CurrentHash : String := ""
  State : String := ""
  DaemonsetName : String := ""
deriving DecidableEq, Repr

/-- The type `v2alpha1.DatadogAgentStatus`. -/
structure DatadogAgentStatus where
  Conditions : List Condition := []
  AgentList : List DaemonSetStatus := []
  Agent : Option DaemonSetStatus := none
  ClusterAgent : Option DeploymentStatus := none
  ClusterChecksRunner : Option DeploymentStatus := none
deriving DecidableEq, Repr

/-- The type `commonv1.SecretConfig`. -/
structure SecretConfig where
  SecretName : String := ""
  KeyName : String := ""
deriving DecidableEq, Repr

/-- The type `v2alpha1.DatadogCredentials`. -/
structure DatadogCredentials where
  APIKey : Option String := none
  AppKey : Option String := none
deriving DecidableEq, Repr

/-- The type `v2alpha1.GlobalConfig`, with the fields the pipeline reads. -/
structure GlobalConfig where
  Credentials : Option DatadogCredentials := none
  ClusterAgentToken : Option String := none
  ClusterAgentTokenSecret : Option SecretConfig := none
  ClusterName : Option String := none
deriving DecidableEq, Repr

/-- The type `v2alpha1.DatadogAgentSpec`: the feature toggles and the global
configuration. -/
structure DatadogAgentSpec where
  Features : List (String × Bool) := []
  Global : Option GlobalConfig := none
deriving DecidableEq, Repr

/-- The type `v2alpha1.DatadogAgent`: object metadata, spec and status. -/
structure DatadogAgent where
  Name : String := ""
  Namespace : String := ""
  DeletionTimestamp : Option Time := none
  Spec : DatadogAgentSpec := {}
  Status : DatadogAgentStatus := {}
deriving DecidableEq, Repr

/-- The type `corev1.Node`, with its name and labels. -/
structure Node where
  Name : String := ""
  Labels : List (String × String) := []
deriving DecidableEq, Repr

/-- The type `corev1.Secret`, with its data. -/
structure Secret where
  Name : String := ""
  Data : List (String × String) := []
deriving DecidableEq, Repr

/-- The type `v1alpha1.DatadogAgentProfile`: metadata, node selector and the
status conditions written back by the resolver.  The zero value is the
"empty" profile. -/
structure DatadogAgentProfile where
  Name : String := ""
  Namespace : String := ""
  CreationTimestamp : Time := 0
  Selector : List (String × String) := []
  Conditions : List Condition := []
deriving DecidableEq, Repr

/-- The map from node name to the profile applied on it
(`map[string]types.NamespacedName`). -/
abbrev NodeProfiles := List (String × NamespacedName)

/-- A feature, identified by its id (`feature.Feature`, method `ID`). -/
structure Feature where
  ID : String
deriving DecidableEq, Repr

/-- The type `feature.RequiredComponents`: which workloads are required. -/
structure RequiredComponents where
  ClusterAgent : Bool := false
  Agent : Bool := false
  ClusterChecksRunner : Bool := false
deriving DecidableEq, Repr

/-- The reconciler options the pipeline reads (`ReconcilerOptions`). -/
structure ReconcilerOptions where
  SupportCilium : Bool := false
  OperatorMetricsEnabled : Bool := false
  DatadogAgentProfileEnabled : Bool := false
  IntrospectionEnabled : Bool := false
deriving DecidableEq, Repr

/-- The finalizer function handed to `handleFinalizer`. -/
inductive FinalizeFunc where
  | finalizeDadV2
deriving DecidableEq, Repr

/-! ## Trace -/

/-- The calls of one pass that the properties speak about, with what each
returned; for a workload reconcile also `newStatus` as the call left it. -/
inductive Event where
  | clientGet (name : NamespacedName)
  | handleFinalizer (finalizer : FinalizeFunc) (result : Result) (err : Option Err)
  | DefaultDatadogAgent
  | BuildFeatures
  | ManageDependencies (featureID : String) (ret : Option Err)
  | overrideDependencies (ret : List Err)
  | reconcileV2ClusterAgent (result : Result) (err : Option Err)
      (newStatus : DatadogAgentStatus)
  | getNodeList (err : Option Err)
  | listProfiles (err : Option Err)
  | updateDAPStatus (profile : DatadogAgentProfile) (ret : Option Err)
  | handleProfiles (err : Option Err)
  | reconcileV2Agent (profile : DatadogAgentProfile) (provider : String)
      (result : Result) (err : Option Err) (newStatus : DatadogAgentStatus)
  | cleanupExtraneousDaemonSets (err : Option Err)
  | reconcileV2ClusterChecksRunner (result : Result) (err : Option Err)
      (newStatus : DatadogAgentStatus)
  | storeApply (ret : List Err)
  | storeCleanup (ret : List Err)
  | updateStatusIfNeededV2 (newStatus : DatadogAgentStatus) (result : Result)
      (currentError : Option Err)
  | statusUpdate (obj : DatadogAgent) (ret : Option Err)
deriving DecidableEq, Repr

/-- The state threaded through a pass: the world and the trace so far. -/
structure St (W : Type) where
  world : W
  trace : List Event

/-- Appends an event to the trace and installs the new world. -/
def St.record {W : Type} (s : St W) (w : W) (e : Event) : St W :=
  { world := w, trace := s.trace ++ [e] }

/-! ## Environment -/

/-- The collaborators of the reconciler that are not part of
`controller_reconcile_v2.go`: the API client, the forwarders, the feature and
dependency packages, the workload reconcilers, the profile package, the
package constants and the reconciler options. -/
structure Env (W : Type) where
  options : ReconcilerOptions
  defaultRequeuePeriod : Int
  DatadogAgentReconcileErrorConditionType : String
  LegacyProvider : String
  SecretsKind : String
  DefaultTokenKey : String
  ShouldReturn : Result → Option Err → Bool
  timeNow : W → Time
  clientGet : NamespacedName → W → Except Err DatadogAgent × W
  statusUpdate : DatadogAgent → W → Option Err × W
  handleFinalizer : DatadogAgent → FinalizeFunc → W → (Result × Option Err) × W
  DefaultDatadogAgent : DatadogAgent → DatadogAgent
  BuildFeatures : DatadogAgent → ReconcilerOptions → List Feature × RequiredComponents
  ManageDependencies : Feature → RequiredComponents → W → Option Err × W
  overrideDependencies : DatadogAgent → W → List Err × W
  StoreGet : String → String → String → W → Option Secret
  GetDefaultDCATokenSecretName : DatadogAgent → String
  reconcileV2ClusterAgent : RequiredComponents → List Feature → DatadogAgent →
    DatadogAgentStatus → W → (Result × Option Err × DatadogAgentStatus) × W
  clientListNodes : W → (List Node × Option Err) × W
  GetProviderListFromNodeList : List Node → List String
  clientListProfiles : W → Except Err (List DatadogAgentProfile) × W
  SortProfiles : List DatadogAgentProfile → List DatadogAgentProfile
  ProfileToApply : DatadogAgentProfile → List Node → NodeProfiles → Time →
    DatadogAgentProfile × NodeProfiles × Option Err
  ApplyDefaultProfile : List DatadogAgentProfile → NodeProfiles → List Node →
    List DatadogAgentProfile × NodeProfiles
  dapStatusUpdate : DatadogAgentProfile → W → Option Err × W
  handleProfiles : NodeProfiles → String → W → Option Err × W
  reconcileV2Agent : RequiredComponents → List Feature → DatadogAgent →
    DatadogAgentStatus → String → List String → DatadogAgentProfile → W →
    (Result × Option Err × DatadogAgentStatus) × W
  cleanupExtraneousDaemonSets : DatadogAgent → DatadogAgentStatus → List String →
    List DatadogAgentProfile → W → (Option Err × DatadogAgentStatus) × W
  reconcileV2ClusterChecksRunner : RequiredComponents → List Feature → DatadogAgent →
    DatadogAgentStatus → W → (Result × Option Err × DatadogAgentStatus) × W
  storeApply : W → List Err × W
  storeCleanup : W → List Err × W
  UpdateDatadogAgentStatusConditions : DatadogAgentStatus → Time → String →
    ConditionStatus → String → String → Bool → DatadogAgentStatus
  MetricsForwarderStatusForObj : DatadogAgent → W → Option ConditionCommon
  GetMetav1ConditionStatus : Bool → ConditionStatus

/-- Modelled from the spec: `utils.ShouldReturn` (package
`pkg/controller/utils`) is not part of the sources at hand.  A stage signals
stop with an error or with an explicit early-return result, that is a result
that asks for a requeue.  The pipeline below takes the predicate from its
environment; this definition instantiates it in concrete environments. -/
def ShouldReturn (result : Result) (err : Option Err) : Bool :=
  err.isSome || result.Requeue || decide (0 < result.RequeueAfter)

/-- The library function `apiequality.Semantic.DeepEqual` on statuses:
structural equality (times are compared as instants, nil and empty slices
coincide, both of which hold of the representation). -/
def SemanticDeepEqual (a b : DatadogAgentStatus) : Bool := decide (a = b)

/-! ## Status publishing -/

variable {W : Type}

/-- The method `setMetricsForwarderStatusV2`: upserts the metrics forwarder
condition when operator metrics are enabled and the forwarder reports one. -/
def setMetricsForwarderStatusV2 (env : Env W) (agentdeployment : DatadogAgent)
    (newStatus : DatadogAgentStatus) (w : W) : DatadogAgentStatus :=
  if env.options.OperatorMetricsEnabled then
    match env.MetricsForwarderStatusForObj agentdeployment w with
    | some forwarderCondition =>
      env.UpdateDatadogAgentStatusConditions newStatus
        forwarderCondition.LastUpdateTime
        forwarderCondition.ConditionType
        (env.GetMetav1ConditionStatus forwarderCondition.Status)
        forwarderCondition.Reason
        forwarderCondition.Message
        true
    | none => newStatus
  else newStatus

/-- The first half of `updateStatusIfNeededV2` (lines 220-227): `newStatus`
after the reconcile-error condition and the optional metrics forwarder
condition have been upserted. -/
def upsertedStatus (env : Env W) (agentdeployment : DatadogAgent)
    (newStatus : DatadogAgentStatus) (currentError : Option Err) (w : W) :
    DatadogAgentStatus :=
  let now := env.timeNow w
  let newStatus :=
    match currentError with
    | none =>
      env.UpdateDatadogAgentStatusConditions newStatus now
        env.DatadogAgentReconcileErrorConditionType ConditionStatus.ConditionFalse
        "DatadogAgent_reconcile_ok" "DatadogAgent reconcile ok" false
    | some _ =>
      env.UpdateDatadogAgentStatusConditions newStatus now
        env.DatadogAgentReconcileErrorConditionType ConditionStatus.ConditionTrue
        "DatadogAgent_reconcile_error" "DatadogAgent reconcile error" false
  setMetricsForwarderStatusV2 env agentdeployment newStatus w

/-- The method `updateStatusIfNeededV2`: upserts the conditions, writes the
status when it differs from the one on the object, and maps the outcome of
the write to the result of the pass. -/
def updateStatusIfNeededV2 (env : Env W) (agentdeployment : DatadogAgent)
    (newStatus : DatadogAgentStatus) (result : Result) (currentError : Option Err)
    (s : St W) : (Result × Option Err) × St W :=
  let s := s.record s.world (Event.updateStatusIfNeededV2 newStatus result currentError)
  let newStatus := upsertedStatus env agentdeployment newStatus currentError s.world
  if !SemanticDeepEqual agentdeployment.Status newStatus then
    let updateAgentDeployment := { agentdeployment with Status := newStatus }
    let r := env.statusUpdate updateAgentDeployment s.world
    let s := s.record r.2 (Event.statusUpdate updateAgentDeployment r.1)
    match r.1 with
    | some err =>
      if IsConflict err then (({ RequeueAfter := Second }, none), s)
      else (({}, some err), s)
    | none => ((result, currentError), s)
  else ((result, currentError), s)

/-- The method `updateDAPStatus`: one status write for the profile; the
outcome is logged and dropped. -/
def updateDAPStatus (env : Env W) (profile : DatadogAgentProfile) (s : St W) : St W :=
  let r := env.dapStatusUpdate profile s.world
  s.record r.2 (Event.updateDAPStatus profile r.1)

/-- The value of a key in a Go map of strings; the zero value when absent. -/
def mapLookup (key : String) : List (String × String) → String
  | [] => ""
  | (k, v) :: rest => if k = key then v else mapLookup key rest

/-- The function `ensureAutoGeneratedTokenInStatus`.  `newStatus` is a pointer:
`none` is the nil pointer, and the returned value is what the caller sees
through its own pointer afterwards (a status allocated for a nil `newStatus`
is bound to the local variable only). -/
def ensureAutoGeneratedTokenInStatus (env : Env W) (inst : DatadogAgent)
    (newStatus : Option DatadogAgentStatus) (w : W) : Option DatadogAgentStatus :=
  if (match inst.Status.ClusterAgent with
      | some ca => ca.GeneratedToken != ""
      | none => false) then newStatus
  else
    match env.StoreGet env.SecretsKind inst.Namespace
        (env.GetDefaultDCATokenSecretName inst) w with
    | none => newStatus
    | some tokenSecret =>
      let generatedToken := mapLookup env.DefaultTokenKey tokenSecret.Data
      match newStatus with
      | none => none
      | some st =>
        some { st with
          ClusterAgent := some { (st.ClusterAgent.getD {}) with GeneratedToken := generatedToken } }

/-! ## Profiles -/

/-- The method `getNodeList`. -/
def getNodeList (env : Env W) (s : St W) : (List Node × Option Err) × St W :=
  let r := env.clientListNodes s.world
  (r.1, s.record r.2 (Event.getNodeList r.1.2))

/-- The loop of `profilesToApply` (lines 328-338) over the sorted profiles:
`acc` is `profilesToApply`, `perNode` is `profileAppliedPerNode`. -/
def profilesToApplyLoop (env : Env W) (nodeList : List Node) (now : Time) :
    List DatadogAgentProfile → List DatadogAgentProfile → NodeProfiles → St W →
    (List DatadogAgentProfile × NodeProfiles) × St W
  | [], acc, perNode, s => ((acc, perNode), s)
  | profile :: rest, acc, perNode, s =>
    let r := env.ProfileToApply profile nodeList perNode now
    let s := updateDAPStatus env r.1 s
    match r.2.2 with
    | some _ => profilesToApplyLoop env nodeList now rest acc r.2.1 s
    | none => profilesToApplyLoop env nodeList now rest (acc ++ [r.1]) r.2.1 s

/-- The method `profilesToApply`. -/
def profilesToApply (env : Env W) (nodeList : List Node) (now : Time) (s : St W) :
    (List DatadogAgentProfile × NodeProfiles × Option Err) × St W :=
  let l := env.clientListProfiles s.world
  match l.1 with
  | .error err => (([], [], some err), s.record l.2 (Event.listProfiles (some err)))
  | .ok items =>
    let s := s.record l.2 (Event.listProfiles none)
    let sortedProfiles := env.SortProfiles items
    let r := profilesToApplyLoop env nodeList now sortedProfiles [] [] s
    let d := env.ApplyDefaultProfile r.1.1 r.1.2 nodeList
    ((d.1, d.2, none), r.2)

/-! ## The pass -/

/-- The outcome of a pass: the returned `(result, error)`, or `none` when the
pass dereferences a nil pointer. -/
abbrev PassOut (W : Type) := Option (Result × Option Err) × St W

/-- The loop of `reconcileInstanceV2` over the features (lines 120-125):
`errs` is the slice of collected errors. -/
def manageDependenciesLoop (env : Env W) (requiredComponents : RequiredComponents) :
    List Feature → List Err → St W → List Err × St W
  | [], errs, s => (errs, s)
  | feat :: rest, errs, s =>
    let r := env.ManageDependencies feat requiredComponents s.world
    let s := s.record r.2 (Event.ManageDependencies feat.ID r.1)
    match r.1 with
    | some featErr => manageDependenciesLoop env requiredComponents rest (errs ++ [featErr]) s
    | none => manageDependenciesLoop env requiredComponents rest errs s

/-- The variables a workload loop of `reconcileInstanceV2` carries: whether
the loop returned from the pass, `result`, `err`, `newStatus` and the
state. -/
structure Progress (W : Type) where
  stopped : Bool
  result : Result
  err : Option Err
  newStatus : DatadogAgentStatus
  st : St W

/-- The inner loop of lines 177-184: one profile, every provider. -/
def reconcileProviders (env : Env W) (requiredComponents : RequiredComponents)
    (features : List Feature) (inst : DatadogAgent) (providerList : List String)
    (profile : DatadogAgentProfile) : List String → Progress W → Progress W
  | [], p => p
  | provider :: rest, p =>
    let r := env.reconcileV2Agent requiredComponents features inst p.newStatus
      provider providerList profile p.st.world
    let s := p.st.record r.2 (Event.reconcileV2Agent profile provider r.1.1 r.1.2.1 r.1.2.2)
    if env.ShouldReturn r.1.1 r.1.2.1 then
      { stopped := true, result := r.1.1, err := r.1.2.1, newStatus := r.1.2.2, st := s }
    else
      reconcileProviders env requiredComponents features inst providerList profile rest
        { stopped := false, result := r.1.1, err := r.1.2.1, newStatus := r.1.2.2, st := s }

/-- The outer loop of lines 177-184: every profile, every provider. -/
def reconcileProfiles (env : Env W) (requiredComponents : RequiredComponents)
    (features : List Feature) (inst : DatadogAgent) (providerList : List String) :
    List DatadogAgentProfile → Progress W → Progress W
  | [], p => p
  | profile :: rest, p =>
    let q := reconcileProviders env requiredComponents features inst providerList profile
      providerList p
    if q.stopped then q
    else reconcileProfiles env requiredComponents features inst providerList rest q

/-- Lines 149-175 of `reconcileInstanceV2`: the provider list and the profiles
to reconcile the node agent with.  `err` is the variable `err` of the pass on
entry, the error of the cluster-agent reconcile; `Except.error` is a return
from the pass.  After `profilesToApply` the source tests `err` (line 166) and
returns `e`, the error of `profilesToApply`. -/
def selectProvidersAndProfiles (env : Env W) (inst : DatadogAgent) (err : Option Err)
    (s : St W) :
    Except (Result × Option Err) (List String × List DatadogAgentProfile) × St W :=
  let providerList := [env.LegacyProvider]
  let profiles := [({} : DatadogAgentProfile)]
  if env.options.DatadogAgentProfileEnabled || env.options.IntrospectionEnabled then
    let n := getNodeList env s
    match n.1.2 with
    | some e => (.error ({}, some e), n.2)
    | none =>
      let nodeList := n.1.1
      let providerList :=
        if env.options.IntrospectionEnabled then env.GetProviderListFromNodeList nodeList
        else providerList
      if env.options.DatadogAgentProfileEnabled then
        let now := env.timeNow n.2.world
        let p := profilesToApply env nodeList now n.2
        match err with
        | some _ => (.error ({}, p.1.2.2), p.2)
        | none =>
          let profiles := p.1.1
          let h := env.handleProfiles p.1.2.1 inst.Namespace p.2.world
          let s := p.2.record h.2 (Event.handleProfiles h.1)
          match h.1 with
          | some e => (.error ({}, some e), s)
          | none => (.ok (providerList, profiles), s)
      else (.ok (providerList, profiles), n.2)
  else (.ok (providerList, profiles), s)

/-- Lines 212-215 of `reconcileInstanceV2` ("Always requeue"): a result that
asks for no requeue gets the default requeue period. -/
def alwaysRequeue (env : Env W) (result : Result) : Result :=
  if !result.Requeue && result.RequeueAfter == 0 then
    { result with RequeueAfter := env.defaultRequeuePeriod }
  else result

/-- Lines 186-216 of `reconcileInstanceV2`: cleanup of extraneous DaemonSets,
the cluster-checks-runner, the dependency store and the final publish.
`errs` holds the feature and override errors. -/
def finishPass (env : Env W) (requiredComponents : RequiredComponents)
    (features : List Feature) (inst : DatadogAgent) (errs : List Err)
    (providerList : List String) (profiles : List DatadogAgentProfile)
    (newStatus : DatadogAgentStatus) (s : St W) : PassOut W :=
  let cl := env.cleanupExtraneousDaemonSets inst newStatus providerList profiles s.world
  let s := s.record cl.2 (Event.cleanupExtraneousDaemonSets cl.1.1)
  let ccr := env.reconcileV2ClusterChecksRunner requiredComponents features inst cl.1.2 s.world
  let s := s.record ccr.2 (Event.reconcileV2ClusterChecksRunner ccr.1.1 ccr.1.2.1 ccr.1.2.2)
  let result := ccr.1.1
  let err := ccr.1.2.1
  let newStatus := ccr.1.2.2
  if env.ShouldReturn result err then
    let u := updateStatusIfNeededV2 env inst newStatus result err s
    (some u.1, u.2)
  else
    let ap := env.storeApply s.world
    let s := s.record ap.2 (Event.storeApply ap.1)
    let errs := errs ++ ap.1
    if 0 < errs.length then (some (result, NewAggregate errs), s)
    else
      let cu := env.storeCleanup s.world
      let s := s.record cu.2 (Event.storeCleanup cu.1)
      if 0 < cu.1.length then (some (result, NewAggregate cu.1), s)
      else
        let result := alwaysRequeue env result
        let u := updateStatusIfNeededV2 env inst newStatus result err s
        (some u.1, u.2)

/-- The method `reconcileInstanceV2`. -/
def reconcileInstanceV2 (env : Env W) (inst : DatadogAgent) (s : St W) : PassOut W :=
  let newStatus := inst.Status
  let bf := env.BuildFeatures inst env.options
  let features := bf.1
  let requiredComponents := bf.2
  let s := s.record s.world Event.BuildFeatures
  let md := manageDependenciesLoop env requiredComponents features [] s
  let ov := env.overrideDependencies inst md.2.world
  let s := md.2.record ov.2 (Event.overrideDependencies ov.1)
  let errs := md.1 ++ ov.1
  match inst.Spec.Global with
  | none => (none, s)
  | some glob =>
    let userSpecifiedClusterAgentToken :=
      glob.ClusterAgentToken.isSome || glob.ClusterAgentTokenSecret.isSome
    let newStatus :=
      if !userSpecifiedClusterAgentToken then
        (ensureAutoGeneratedTokenInStatus env inst (some newStatus) s.world).getD newStatus
      else newStatus
    let ca := env.reconcileV2ClusterAgent requiredComponents features inst newStatus s.world
    let s := s.record ca.2 (Event.reconcileV2ClusterAgent ca.1.1 ca.1.2.1 ca.1.2.2)
    if env.ShouldReturn ca.1.1 ca.1.2.1 then
      let u := updateStatusIfNeededV2 env inst ca.1.2.2 ca.1.1 ca.1.2.1 s
      (some u.1, u.2)
    else
      let sel := selectProvidersAndProfiles env inst ca.1.2.1 s
      match sel.1 with
      | .error out => (some out, sel.2)
      | .ok (providerList, profiles) =>
        let ag := reconcileProfiles env requiredComponents features inst providerList profiles
          { stopped := false, result := ca.1.1, err := ca.1.2.1, newStatus := ca.1.2.2,
            st := sel.2 }
        if ag.stopped then
          let u := updateStatusIfNeededV2 env inst ag.newStatus ag.result ag.err ag.st
          (some u.1, u.2)
        else
          finishPass env requiredComponents features inst errs providerList profiles
            ag.newStatus ag.st

/-- The error returned when the global credentials are missing. -/
def credentialsError : Err :=
  Err.other "credentials not configured in the DatadogAgent, can't reconcile"

/-- The method `internalReconcileV2`. -/
def internalReconcileV2 (env : Env W) (request : NamespacedName) (s : St W) : PassOut W :=
  let result : Result := {}
  let g := env.clientGet request s.world
  let s := s.record g.2 (Event.clientGet request)
  match g.1 with
  | .error err =>
    if IsNotFound err then (some (result, none), s)
    else (some (result, some err), s)
  | .ok inst =>
    if inst.Spec.Global.isNone
        || (inst.Spec.Global.bind GlobalConfig.Credentials).isNone then
      (some (result, some credentialsError), s)
    else
      let f := env.handleFinalizer inst FinalizeFunc.finalizeDadV2 s.world
      let s := s.record f.2 (Event.handleFinalizer FinalizeFunc.finalizeDadV2 f.1.1 f.1.2)
      if env.ShouldReturn f.1.1 f.1.2 then (some f.1, s)
      else
        let instanceCopy := env.DefaultDatadogAgent inst
        let s := s.record s.world Event.DefaultDatadogAgent
        reconcileInstanceV2 env instanceCopy s

/-! ## Trace vocabulary -/

/-- The position of a call in the pipeline, in the order the source issues
the calls. -/
def Event.stage : Event → Nat
  | .clientGet _ => 0
  | .handleFinalizer _ _ _ => 1
  | .DefaultDatadogAgent => 2
  | .BuildFeatures => 3
  | .ManageDependencies _ _ => 4
  | .overrideDependencies _ => 5
  | .reconcileV2ClusterAgent _ _ _ => 6
  | .getNodeList _ => 7
  | .listProfiles _ => 8
  | .updateDAPStatus _ _ => 8
  | .handleProfiles _ => 9
  | .reconcileV2Agent _ _ _ _ _ => 10
  | .cleanupExtraneousDaemonSets _ => 11
  | .reconcileV2ClusterChecksRunner _ _ _ => 12
  | .storeApply _ => 13
  | .storeCleanup _ => 14
  | .updateStatusIfNeededV2 _ _ _ => 15
  | .statusUpdate _ _ => 16

/-- A write of the DatadogAgent status subresource (`Status().Update`). -/
def Event.isStatusUpdate : Event → Bool
  | .statusUpdate _ _ => true
  | _ => false

/-- An invocation of the status publisher `updateStatusIfNeededV2`. -/
def Event.isPublish : Event → Bool
  | .updateStatusIfNeededV2 _ _ _ => true
  | _ => false

/-- A workload reconcile whose outcome signals stop. -/
def Event.workloadStop (env : Env W) : Event → Bool
  | .reconcileV2ClusterAgent r e _ => env.ShouldReturn r e
  | .reconcileV2Agent _ _ r e _ => env.ShouldReturn r e
  | .reconcileV2ClusterChecksRunner r e _ => env.ShouldReturn r e
  | _ => false

/-- The stages that follow a workload reconcile in the pipeline: a workload
reconcile, the cleanup of extraneous DaemonSets, the dependency store's Apply
and Cleanup. -/
def Event.isLaterStage : Event → Bool
  | .reconcileV2ClusterAgent _ _ _ => true
  | .reconcileV2Agent _ _ _ _ _ => true
  | .reconcileV2ClusterChecksRunner _ _ _ => true
  | .cleanupExtraneousDaemonSets _ => true
  | .storeApply _ => true
  | .storeCleanup _ => true
  | _ => false

/-! ## A concrete environment -/

/-- Modelled from the spec: `UpdateDatadogAgentStatusConditions` (package
`apis/datadoghq/v2alpha1`) is not part of the sources at hand.  Conditions
are upserted by type: replaced if the type is present, appended if not. -/
def upsertCondition (c : Condition) : List Condition → List Condition
  | [] => [c]
  | d :: rest => if d.CondType = c.CondType then c :: rest else d :: upsertCondition c rest

/-- The outcomes the collaborators return in a concrete environment. -/
structure Scenario where
  options : ReconcilerOptions := {}
  fetched : Except Err DatadogAgent := .ok {}
  statusWrite : Option Err := none
  finalizer : Result × Option Err := ({}, none)
  features : List Feature := []
  failing : List (String × Err) := []
  overrideErrs : List Err := []
  clusterAgent : Result × Option Err := ({}, none)
  nodes : List Node × Option Err := ([], none)
  profiles : Except Err (List DatadogAgentProfile) := .ok []
  handleProfilesErr : Option Err := none
  agent : Result × Option Err := ({}, none)
  clusterChecksRunner : Result × Option Err := ({}, none)
  applyErrs : List Err := []
  cleanupErrs : List Err := []

/-- A concrete environment for evaluating the pipeline on examples: the world
counts the calls made to the cluster, and every collaborator returns the
outcome the scenario prescribes. -/
def scenarioEnv (sc : Scenario) : Env Nat where
  options := sc.options
  defaultRequeuePeriod := 15 * Second
  DatadogAgentReconcileErrorConditionType := "DatadogAgentReconcileError"
  LegacyProvider := ""
  SecretsKind := "Secret"
  DefaultTokenKey := "token"
  ShouldReturn := ShouldReturn
  timeNow := fun _ => 0
  clientGet := fun _ w => (sc.fetched, w + 1)
  statusUpdate := fun _ w => (sc.statusWrite, w + 1)
  handleFinalizer := fun _ _ w => (sc.finalizer, w + 1)
  DefaultDatadogAgent := fun d => d
  BuildFeatures := fun _ _ => (sc.features, {})
  ManageDependencies := fun f _ w => ((sc.failing.find? (fun p => p.1 == f.ID)).map Prod.snd, w)
  overrideDependencies := fun _ w => (sc.overrideErrs, w)
  StoreGet := fun _ _ _ _ => none
  GetDefaultDCATokenSecretName := fun d => d.Name ++ "-token"
  reconcileV2ClusterAgent := fun _ _ _ st w => ((sc.clusterAgent.1, sc.clusterAgent.2, st), w + 1)
  clientListNodes := fun w => (sc.nodes, w + 1)
  GetProviderListFromNodeList := fun _ => ["default"]
  clientListProfiles := fun w => (sc.profiles, w + 1)
  SortProfiles := fun ps => ps
  ProfileToApply := fun p _ m _ => (p, m, none)
  ApplyDefaultProfile := fun ps m _ => (ps ++ [{ Name := "default" }], m)
  dapStatusUpdate := fun _ w => (none, w + 1)
  handleProfiles := fun _ _ w => (sc.handleProfilesErr, w + 1)
  reconcileV2Agent := fun _ _ _ st _ _ _ w => ((sc.agent.1, sc.agent.2, st), w + 1)
  cleanupExtraneousDaemonSets := fun _ st _ _ w => ((none, st), w + 1)
  reconcileV2ClusterChecksRunner := fun _ _ _ st w =>
    ((sc.clusterChecksRunner.1, sc.clusterChecksRunner.2, st), w + 1)
  storeApply := fun w => (sc.applyErrs, w + 1)
  storeCleanup := fun w => (sc.cleanupErrs, w + 1)
  UpdateDatadogAgentStatusConditions := fun st now t cs reason message _ =>
    let c : Condition :=
      { CondType := t, Status := cs, LastTransitionTime := now, Reason := reason,
        Message := message }
    { st with Conditions := upsertCondition c st.Conditions }
  MetricsForwarderStatusForObj := fun _ _ => none
  GetMetav1ConditionStatus := fun b =>
    if b then ConditionStatus.ConditionTrue else ConditionStatus.ConditionFalse

/-- A DatadogAgent with global credentials. -/
def agentWithCredentials : DatadogAgent :=
  { Name := "datadog", Namespace := "default",
    Spec := { Global := some { Credentials := some { APIKey := some "key" } } } }

/-- A DatadogAgent without global configuration that carries a deletion
marker. -/
def agentDeletingWithoutCredentials : DatadogAgent :=
  { Name := "datadog", Namespace := "default", DeletionTimestamp := some 5 }

/-- The condition the publisher upserts after a pass without error. -/
def reconcileOkCondition : Condition :=
  { CondType := "DatadogAgentReconcileError", Status := ConditionStatus.ConditionFalse,
    LastTransitionTime := 0, Reason := "DatadogAgent_reconcile_ok",
    Message := "DatadogAgent reconcile ok" }

/-- A DatadogAgent whose published status already holds the ok condition. -/
def agentSettled : DatadogAgent :=
  { agentWithCredentials with Status := { Conditions := [reconcileOkCondition] } }

/-- The request for the DatadogAgent of the examples. -/
def demoRequest : NamespacedName := { Namespace := "default", Name := "datadog" }

/-- A DatadogAgent without global configuration and without a deletion
marker. -/
def agentWithoutCredentials : DatadogAgent :=
  { Name := "datadog", Namespace := "default" }

/-- The events of one call of `updateStatusIfNeededV2` in world `w`: the
invocation, and the status write when the upserted status differs from the
status on the object. -/
def publishEvents (env : Env W) (agentdeployment : DatadogAgent)
    (newStatus : DatadogAgentStatus) (result : Result) (currentError : Option Err)
    (w : W) : List Event :=
  Event.updateStatusIfNeededV2 newStatus result currentError ::
    (if SemanticDeepEqual agentdeployment.Status
        (upsertedStatus env agentdeployment newStatus currentError w) then []
     else
      [Event.statusUpdate
        { agentdeployment with
          Status := upsertedStatus env agentdeployment newStatus currentError w }
        (env.statusUpdate
          { agentdeployment with
            Status := upsertedStatus env agentdeployment newStatus currentError w } w).1])

/-! ## Descriptions of traces -/

/-- What a node-agent loop leaves in the trace after `before`: node-agent
reconciles that did not signal stop, followed, when the loop returned from the
pass, by the one that did. -/
def LoopShape (env : Env W) (before : List Event) (q : Progress W) : Prop :=
  ∃ quiet : List Event,
    (∀ e ∈ quiet, e.stage = 10 ∧ e.workloadStop env = false)
    ∧ (q.stopped = false → q.st.trace = before ++ quiet)
    ∧ (q.stopped = true → ∃ prof prov,
        q.st.trace = before ++ quiet ++ [Event.reconcileV2Agent prof prov q.result q.err q.newStatus]
        ∧ env.ShouldReturn q.result q.err = true)

/-- The ways `finishPass` can end, with the events `fin` it appends and the
value `res` it returns: the cluster-checks-runner signals stop and the status
is published; the collected errors with those of Apply are returned; the
errors of Cleanup are returned; every stage completes and the status is
published. -/
def FinishCases (env : Env W) (inst : DatadogAgent) (errs : List Err)
    (fin : List Event) (res : Option (Result × Option Err)) : Prop :=
  ∃ (c : Option Err) (r : Result) (e : Option Err) (ns : DatadogAgentStatus),
    (env.ShouldReturn r e = true ∧ ∃ w,
      fin = [Event.cleanupExtraneousDaemonSets c,
            Event.reconcileV2ClusterChecksRunner r e ns]
        ++ publishEvents env inst ns r e w
      ∧ res = some (updateStatusIfNeededV2 env inst ns r e ⟨w, []⟩).1)
    ∨ (env.ShouldReturn r e = false ∧ ∃ aerrs, errs ++ aerrs ≠ []
      ∧ fin = [Event.cleanupExtraneousDaemonSets c,
            Event.reconcileV2ClusterChecksRunner r e ns, Event.storeApply aerrs]
      ∧ res = some (r, NewAggregate (errs ++ aerrs)))
    ∨ (env.ShouldReturn r e = false ∧ errs = [] ∧ ∃ cerrs, cerrs ≠ []
      ∧ fin = [Event.cleanupExtraneousDaemonSets c,
            Event.reconcileV2ClusterChecksRunner r e ns, Event.storeApply [],
            Event.storeCleanup cerrs]
      ∧ res = some (r, NewAggregate cerrs))
    ∨ (env.ShouldReturn r e = false ∧ errs = [] ∧ ∃ w,
      fin = [Event.cleanupExtraneousDaemonSets c,
            Event.reconcileV2ClusterChecksRunner r e ns, Event.storeApply [],
            Event.storeCleanup []]
        ++ publishEvents env inst ns (alwaysRequeue env r) e w
      ∧ res = some (updateStatusIfNeededV2 env inst ns (alwaysRequeue env r) e ⟨w, []⟩).1)

/-- The events every pass of `reconcileInstanceV2` starts with: the features
are built, every feature manages its dependencies (`rets` are the values
returned), the overrides are applied (`oerrs` are the errors returned). -/
def passPrefix (env : Env W) (inst : DatadogAgent) (rets : List (Option Err))
    (oerrs : List Err) : List Event :=
  Event.BuildFeatures ::
    List.zipWith (fun f r => Event.ManageDependencies f.ID r)
      (env.BuildFeatures inst env.options).1 rets
    ++ [Event.overrideDependencies oerrs]

/-- The ways a pass of `reconcileInstanceV2` can end after its prefix, with
the events `rest` it appends and the value `res` it returns: a nil
dereference of `Spec.Global`; the cluster-agent signals stop; lines 149-175
return; a node-agent signals stop; the pass reaches `finishPass`. -/
def PassCases (env : Env W) (inst : DatadogAgent) (errs : List Err)
    (rest : List Event) (res : Option (Result × Option Err)) : Prop :=
  (inst.Spec.Global = none ∧ res = none ∧ rest = [])
  ∨ ∃ (r : Result) (e : Option Err) (ns : DatadogAgentStatus),
    (env.ShouldReturn r e = true ∧ ∃ w,
      rest = Event.reconcileV2ClusterAgent r e ns :: publishEvents env inst ns r e w
      ∧ res = some (updateStatusIfNeededV2 env inst ns r e ⟨w, []⟩).1)
    ∨ (env.ShouldReturn r e = false ∧ ∃ sel : List Event,
      (∀ x ∈ sel, 7 ≤ x.stage ∧ x.stage ≤ 9)
      ∧ ((∃ ret : Result × Option Err, ret.1 = {} ∧ res = some ret
          ∧ rest = Event.reconcileV2ClusterAgent r e ns :: sel)
        ∨ ∃ quiet : List Event,
          (∀ x ∈ quiet, x.stage = 10 ∧ x.workloadStop env = false)
          ∧ ((∃ prof prov r2 e2 ns2 w, env.ShouldReturn r2 e2 = true
              ∧ rest = Event.reconcileV2ClusterAgent r e ns :: (sel ++ quiet
                ++ Event.reconcileV2Agent prof prov r2 e2 ns2
                  :: publishEvents env inst ns2 r2 e2 w)
              ∧ res = some (updateStatusIfNeededV2 env inst ns2 r2 e2 ⟨w, []⟩).1)
            ∨ ∃ fin, rest = Event.reconcileV2ClusterAgent r e ns :: (sel ++ quiet ++ fin)
              ∧ FinishCases env inst errs fin res)))

/-- A write of the DatadogAgent status subresource that returned an error, a
conflict included. -/
def Event.isFailedStatusUpdate : Event → Bool
  | .statusUpdate _ (some _) => true
  | _ => false

/-- A call of the finalize routine `handleFinalizer`. -/
def Event.isHandleFinalizer : Event → Bool
  | .handleFinalizer _ _ _ => true
  | _ => false

/-- The result and error a workload reconcile returned, and `newStatus` as it
left it. -/
def Event.outcome : Event → Option (Result × Option Err × DatadogAgentStatus)
  | .reconcileV2ClusterAgent r e ns => some (r, e, ns)
  | .reconcileV2Agent _ _ r e ns => some (r, e, ns)
  | .reconcileV2ClusterChecksRunner r e ns => some (r, e, ns)
  | _ => none

/-- The events `evs` of a pass with respect to stop signals of workload
reconciles: a part `quiet` without any, followed either by nothing or by one
workload reconcile that signals stop and the events of the status publisher,
called with the result and error of that reconcile, whose value `res` the pass
returns. -/
def StopShape (env : Env W) (inst : DatadogAgent) (evs : List Event)
    (res : Option (Result × Option Err)) : Prop :=
  ∃ (quiet tail : List Event), evs = quiet ++ tail
    ∧ (∀ x ∈ quiet, x.workloadStop env = false)
    ∧ (tail = []
      ∨ ∃ last ns r err w, tail = last :: publishEvents env inst ns r err w
        ∧ last.outcome = some (r, err, ns) ∧ last.workloadStop env = true
        ∧ res = some (updateStatusIfNeededV2 env inst ns r err ⟨w, []⟩).1)

/-- A pass in which two of three features fail to manage their dependencies
and the cluster-agent reconcile asks for a requeue. -/
def scenarioFeatureErrorsThenStop : Scenario :=
  { features := [{ ID := "apm" }, { ID := "npm" }, { ID := "asm" }],
    failing := [("apm", Err.other "apm rbac"), ("asm", Err.other "asm secret")],
    clusterAgent := ({ Requeue := true }, none) }

/-- A pass in which two of three features fail to manage their dependencies,
the overrides fail and the Apply of the dependency store fails. -/
def scenarioFeatureErrorsThenApply : Scenario :=
  { features := [{ ID := "apm" }, { ID := "npm" }, { ID := "asm" }],
    failing := [("apm", Err.other "apm rbac"), ("asm", Err.other "asm secret")],
    overrideErrs := [Err.other "override"],
    applyErrs := [Err.conflict "apply"] }

/-- A pass with introspection enabled in which listing the nodes fails. -/
def scenarioNodeListFails : Scenario :=
  { options := { IntrospectionEnabled := true },
    nodes := ([], some (Err.other "list nodes failed")) }

/-- A pass in which the Apply of the dependency store fails. -/
def scenarioApplyFails : Scenario :=
  { applyErrs := [Err.conflict "apply"] }

/-- A pass in which the node-agent reconcile returns an error. -/
def scenarioAgentFails : Scenario :=
  { agent := ({}, some (Err.other "daemonset update failed")) }

/-- A pass in which the cluster-checks-runner reconcile asks for a requeue
after five nanoseconds. -/
def scenarioRunnerRequeues : Scenario :=
  { clusterChecksRunner := ({ RequeueAfter := 5 }, none) }

/-- A pass with profiles enabled in which listing the profiles fails. -/
def scenarioProfileListFails : Scenario :=
  { options := { DatadogAgentProfileEnabled := true },
    profiles := .error (Err.other "list profiles failed") }

/-- The part of the pipeline a call belongs to: 0 for the declaration of the
dependencies (and what precedes it), 1 for the workload reconciles and what
lies between them, 2 for the Apply of the dependency store, 3 for its
Cleanup, 4 for the status publish. -/
def Event.phase (e : Event) : Nat :=
  if e.stage ≤ 5 then 0
  else if e.stage ≤ 12 then 1
  else if e.stage = 13 then 2
  else if e.stage = 14 then 3
  else 4

/-- A call of `ManageDependencies` on a feature. -/
def Event.isManageDependencies : Event → Bool
  | .ManageDependencies _ _ => true
  | _ => false

/-- A workload reconcile: cluster-agent, node-agent or cluster-checks-runner. -/
def Event.isWorkload : Event → Bool
  | .reconcileV2ClusterAgent _ _ _ => true
  | .reconcileV2Agent _ _ _ _ _ => true
  | .reconcileV2ClusterChecksRunner _ _ _ => true
  | _ => false

/-- The Apply of the dependency store. -/
def Event.isStoreApply : Event → Bool
  | .storeApply _ => true
  | _ => false

/-- The Cleanup of the dependency store. -/
def Event.isStoreCleanup : Event → Bool
  | .storeCleanup _ => true
  | _ => false

/-- A call that returned a dependency error: `ManageDependencies` with a
non-nil error, the overrides or the Apply of the store with a non-empty list
of errors. -/
def Event.reportsDependencyError : Event → Bool
  | .ManageDependencies _ (some _) => true
  | .overrideDependencies (_ :: _) => true
  | .storeApply (_ :: _) => true
  | _ => false

/-- A complete pass with one feature. -/
def scenarioOneFeature : Scenario :=
  { features := [{ ID := "apm" }] }

/-- A node-agent reconcile. -/
def Event.isNodeAgent : Event → Bool
  | .reconcileV2Agent _ _ _ _ _ => true
  | _ => false

/-- A fetch of the node list. -/
def Event.isGetNodeList : Event → Bool
  | .getNodeList _ => true
  | _ => false

/-- The resolution of the profiles as a function: every profile of the list,
in turn, is handed to `resolve` (the function `ProfileToApply`) with the node
map left by the profiles before it; the result holds, for each profile, the
profile as `resolve` left it and the error it returned, and the final node
map. -/
def resolveAll
    (resolve : DatadogAgentProfile → List Node → NodeProfiles → Time →
      DatadogAgentProfile × NodeProfiles × Option Err)
    (nodeList : List Node) (now : Time) :
    List DatadogAgentProfile → NodeProfiles →
    List (DatadogAgentProfile × Option Err) × NodeProfiles
  | [], perNode => ([], perNode)
  | profile :: rest, perNode =>
    let r := resolve profile nodeList perNode now
    let t := resolveAll resolve nodeList now rest r.2.1
    ((r.1, r.2.2) :: t.1, t.2)

/-- The resolved profiles for which no error was returned, in order. -/
def acceptedProfiles (resolved : List (DatadogAgentProfile × Option Err)) :
    List DatadogAgentProfile :=
  (resolved.filter (fun pr => pr.2.isNone)).map Prod.fst

/-- Two profiles, listed youngest first. -/
def demoProfiles : List DatadogAgentProfile :=
  [{ Name := "gpu", Namespace := "default", CreationTimestamp := 20,
     Selector := [("pool", "gpu")] },
   { Name := "arm", Namespace := "default", CreationTimestamp := 10,
     Selector := [("arch", "arm64")] }]

/-- A scenario in which two profiles are listed. -/
def scenarioTwoProfiles : Scenario :=
  { options := { DatadogAgentProfileEnabled := true }, profiles := .ok demoProfiles }

/-! ## The profile resolver

The package `pkg/agentprofile` (`SortProfiles`, `ProfileToApply`,
`ApplyDefaultProfile`) is not part of the sources at hand; the definitions
of this section follow the words of the specification (section 4.3). -/

/-- Modelled from the spec: the order of `agentprofile.SortProfiles`, whose
code is missing from the sources at hand: ascending creation time, ties
broken by ascending name.  Names are compared character by character. -/
def profilePrecedes (p q : DatadogAgentProfile) : Prop :=
  p.CreationTimestamp < q.CreationTimestamp
    ∨ (p.CreationTimestamp = q.CreationTimestamp ∧ p.Name.toList ≤ q.Name.toList)

instance profilePrecedesDecidable : DecidableRel profilePrecedes :=
  fun p q => inferInstanceAs (Decidable
    (p.CreationTimestamp < q.CreationTimestamp
      ∨ (p.CreationTimestamp = q.CreationTimestamp ∧ p.Name.toList ≤ q.Name.toList)))

/-- The profile `p` is older than `q`, or as old with a name that is
alphabetically first. -/
def profileStrictlyPrecedes (p q : DatadogAgentProfile) : Prop :=
  p.CreationTimestamp < q.CreationTimestamp
    ∨ (p.CreationTimestamp = q.CreationTimestamp ∧ p.Name.toList < q.Name.toList)

instance profileStrictlyPrecedesDecidable : DecidableRel profileStrictlyPrecedes :=
  fun p q => inferInstanceAs (Decidable
    (p.CreationTimestamp < q.CreationTimestamp
      ∨ (p.CreationTimestamp = q.CreationTimestamp ∧ p.Name.toList < q.Name.toList)))

/-- Modelled from the spec: `agentprofile.SortProfiles`, whose code is missing
from the sources at hand: the profiles in ascending creation time, ties
broken by ascending name. -/
def SortProfiles (profiles : List DatadogAgentProfile) : List DatadogAgentProfile :=
  List.insertionSort profilePrecedes profiles

/-- The namespaced name of a profile, as stored in the node map. -/
def profileKey (profile : DatadogAgentProfile) : NamespacedName :=
  { Namespace := profile.Namespace, Name := profile.Name }

/-- Modelled from the spec: the node selector of a profile (its matching
code, in `pkg/agentprofile`, is missing from the sources at hand) matches a
node when the node carries every label of the selector. -/
def profileSelects (profile : DatadogAgentProfile) (node : Node) : Bool :=
  profile.Selector.all (fun kv => decide (kv ∈ node.Labels))

/-- Modelled from the spec: the walk of `agentprofile.ProfileToApply` and
`agentprofile.ApplyDefaultProfile` (code missing from the sources at hand)
over nodes, which claims for `owner` every node of the list not already
claimed in the node map. -/
def claimNodes (owner : NamespacedName) : List Node → NodeProfiles → NodeProfiles
  | [], perNode => perNode
  | node :: rest, perNode =>
    match perNode.lookup node.Name with
    | some _ => claimNodes owner rest perNode
    | none => claimNodes owner rest ((node.Name, owner) :: perNode)

/-- Modelled from the spec: the Applied/Conflicting condition a resolution
attempt of `agentprofile.ProfileToApply` (code missing from the sources at
hand) leaves on the profile. -/
def profileCondition (applied : Bool) (now : Time) : Condition :=
  { CondType := "Applied",
    Status := if applied then ConditionStatus.ConditionTrue else ConditionStatus.ConditionFalse,
    LastTransitionTime := now,
    Reason := if applied then "Applied" else "Conflict",
    Message := if applied then "" else "conflict with existing profile" }

/-- Modelled from the spec: `agentprofile.ProfileToApply`, whose code is
missing from the sources at hand.  It walks the nodes the selector of the
profile matches and claims each node not already claimed; a profile matching
no node is accepted; a profile whose matching nodes are all claimed already
is marked conflicting and rejected.  The profile comes back with the
condition of the attempt. -/
def ProfileToApply (profile : DatadogAgentProfile) (nodes : List Node)
    (profileAppliedByNode : NodeProfiles) (now : Time) :
    DatadogAgentProfile × NodeProfiles × Option Err :=
  let matched := nodes.filter (profileSelects profile)
  if matched ≠ [] ∧ matched.all (fun node => (profileAppliedByNode.lookup node.Name).isSome)
  then
    ({ profile with Conditions := upsertCondition (profileCondition false now) profile.Conditions },
     profileAppliedByNode, some (Err.other "conflict with existing profile"))
  else
    ({ profile with Conditions := upsertCondition (profileCondition true now) profile.Conditions },
     claimNodes (profileKey profile) matched profileAppliedByNode, none)

/-- Modelled from the spec: the implicit default profile of
`agentprofile.ApplyDefaultProfile`, whose code is missing from the sources at
hand: a profile with an empty override, named `default`, in no namespace. -/
def defaultProfile : DatadogAgentProfile := { Name := "default", Namespace := "" }

/-- Modelled from the spec: `agentprofile.ApplyDefaultProfile`, whose code is
missing from the sources at hand: every node still unclaimed is assigned to
the default profile, which is appended to the applied list once. -/
def ApplyDefaultProfile (profilesToApply : List DatadogAgentProfile)
    (profileAppliedByNode : NodeProfiles) (nodes : List Node) :
    List DatadogAgentProfile × NodeProfiles :=
  (profilesToApply ++ [defaultProfile],
   claimNodes (profileKey defaultProfile) nodes profileAppliedByNode)

/-- An environment whose profile resolver is the one modelled from the spec. -/
def withProfileResolver (env : Env W) : Env W :=
  { env with
    SortProfiles := SortProfiles
    ProfileToApply := ProfileToApply
    ApplyDefaultProfile := ApplyDefaultProfile }

/-- Some listed node of name `nodeName` is matched by the selector of the
profile: the profile contests the node. -/
def contestsNode (profile : DatadogAgentProfile) (nodes : List Node) (nodeName : String) :
    Bool :=
  nodes.any (fun node => node.Name == nodeName && profileSelects profile node)

/-- The profile is the default profile, by namespaced name. -/
def isDefaultProfile (profile : DatadogAgentProfile) : Bool :=
  decide (profileKey profile = profileKey defaultProfile)

/-- The oldest of three profiles with the same selector. -/
def oldestProfile : DatadogAgentProfile :=
  { Name := "oldest", Namespace := "default", CreationTimestamp := 10,
    Selector := [("pool", "gpu")] }

/-- The second oldest of three profiles with the same selector. -/
def middleProfile : DatadogAgentProfile :=
  { Name := "middle", Namespace := "default", CreationTimestamp := 20,
    Selector := [("pool", "gpu")] }

/-- The youngest of three profiles with the same selector. -/
def youngestProfile : DatadogAgentProfile :=
  { Name := "youngest", Namespace := "default", CreationTimestamp := 30,
    Selector := [("pool", "gpu")] }

/-- Three profiles of different ages with the same selector, listed youngest
first. -/
def contestingProfiles : List DatadogAgentProfile :=
  [youngestProfile, middleProfile, oldestProfile]

/-- A profile created at the same time as `betaProfile`, with the same
selector. -/
def alphaProfile : DatadogAgentProfile :=
  { Name := "alpha", Namespace := "default", CreationTimestamp := 10,
    Selector := [("pool", "gpu")] }

/-- A profile created at the same time as `alphaProfile`, with the same
selector. -/
def betaProfile : DatadogAgentProfile :=
  { Name := "beta", Namespace := "default", CreationTimestamp := 10,
    Selector := [("pool", "gpu")] }

/-- Two profiles created at the same time with the same selector, listed in
reverse alphabetical order. -/
def twinProfiles : List DatadogAgentProfile := [betaProfile, alphaProfile]

/-- Two nodes: one in the pool the profiles select, one outside. -/
def demoNodes : List Node :=
  [{ Name := "node-1", Labels := [("pool", "gpu")] },
   { Name := "node-2", Labels := [("pool", "cpu")] }]

/-- A scenario in which three profiles contest a node. -/
def scenarioContest : Scenario :=
  { options := { DatadogAgentProfileEnabled := true }, profiles := .ok contestingProfiles }

/-- A scenario in which two profiles of the same age contest a node. -/
def scenarioTwins : Scenario :=
  { options := { DatadogAgentProfileEnabled := true }, profiles := .ok twinProfiles }

/-- A scenario in which the cluster holds no profile. -/
def scenarioNoProfiles : Scenario :=
  { options := { DatadogAgentProfileEnabled := true }, profiles := .ok [] }

/-- The default cluster-agent token secret of the examples, as the
`enabledefault` feature leaves it in the dependency store. -/
def storedTokenSecret : Secret :=
  { Name := "datadog-token", Data := [("token", "generated")] }

/-- A concrete environment whose dependency store holds the default
cluster-agent token secret of the DatadogAgent `default/datadog`. -/
def envWithStoredToken : Env Nat :=
  { scenarioEnv {} with
    StoreGet := fun kind ns name _ =>
      if kind = "Secret" ∧ ns = "default" ∧ name = "datadog-token" then some storedTokenSecret
      else none }

/-- A DatadogAgent whose status already holds a generated token. -/
def agentWithToken : DatadogAgent :=
  { agentWithCredentials with
    Status := { ClusterAgent := some { GeneratedToken := "persisted" } } }

/-! ## The schema tool `hack/jsonschema/openapi2jsonschema.go`

Values decoded from YAML are trees; a Go map is the list of its entries, the
keys of a map being distinct.  The functions below mutate their argument in
place in the source; here they return the map as it stands after the call.
The order in which a Go `range` visits a map does not matter to them: every
entry is handled on its own. -/

/-- A value of type `interface{}` as `yaml.Unmarshal` produces it. -/
inductive Value where
  | null
  | bool (b : Bool)
  | int (n : Int)
  | float (text : String)
  | string (s : String)
  | slice (xs : List Value)
  | map (entries : List (String × Value))
deriving Repr

/-- The type `map[string]interface{}`. -/
abbrev StringMap := List (String × Value)

/-- The map read `data[key]` with its `exists` flag: `none` when the key is
absent. -/
def mapGet (key : String) (data : StringMap) : Option Value := data.lookup key

/-- The map write `data[key] = v`. -/
def mapSet (key : String) (v : Value) (data : StringMap) : StringMap :=
  if (data.lookup key).isSome then
    data.map (fun kv => if kv.1 = key then (kv.1, v) else kv)
  else data ++ [(key, v)]

/-- The builtin `delete(data, key)`. -/
def mapDelete (key : String) (data : StringMap) : StringMap :=
  data.filter (fun kv => kv.1 != key)

/-- Lines 40-44 of `additionalProperties`: a map with a `properties` key and
no `additionalProperties` key gets `additionalProperties: false`, unless
`skip` is set. -/
def closeObject (data : StringMap) (skip : Bool) : StringMap :=
  if (mapGet "properties" data).isSome && !skip then
    if !(mapGet "additionalProperties" data).isSome then
      mapSet "additionalProperties" (.bool false) data
    else data
  else data

/-- The test `format, exists := data["format"]; exists && format ==
"int-or-string"` of line 56. -/
def isIntOrString (data : StringMap) : Bool :=
  match mapGet "format" data with
  | some (.string s) => s == "int-or-string"
  | _ => false

/-- The value lines 57-60 of `replaceIntOrString` store under `oneOf`. -/
def stringOrInteger : Value :=
  .slice [.map [("type", .string "string")], .map [("type", .string "integer")]]

/-- Lines 56-62 of `replaceIntOrString`: a map whose `format` is
`int-or-string` gets the `oneOf` of a string and an integer and loses its
`format`. -/
def openIntOrString (data : StringMap) : StringMap :=
  if isIntOrString data then mapDelete "format" (mapSet "oneOf" stringOrInteger data)
  else data

/-- The function `additionalProperties`: lines 40-44 on the map itself, then
the loop of lines 46-50, which calls the function with `skip = false` on every
value that is a map.  The recursion ends because every map the loop visits is
an entry of `data`: the entry line 42 adds is no map. -/
def additionalProperties (data : StringMap) (skip : Bool) : StringMap :=
  (closeObject data skip).attach.map (fun kv =>
    match kv with
    | ⟨(k, .map subData), _⟩ => (k, .map (additionalProperties subData false))
    | ⟨(k, v), _⟩ => (k, v))
termination_by sizeOf data
decreasing_by
  rename_i h
  have hmem : (k, Value.map subData) ∈ data := by
    unfold closeObject mapSet at h
    split at h
    · split at h
      · split at h
        · obtain ⟨kv, hkv, heq⟩ := List.mem_map.mp h
          split at heq
          · cases heq
          · rw [← heq]; exact hkv
        · simpa using h
      · exact h
    · exact h
  have hlt := List.sizeOf_lt_of_mem hmem
  simp only [Prod.mk.sizeOf_spec, Value.map.sizeOf_spec] at hlt
  omega

/-- The function `replaceIntOrString`: lines 56-62 on the map itself, then the
loop of lines 64-68, which calls the function on every value that is a map.
The recursion ends because every map the loop visits is an entry of `data`:
the value line 57 stores is a slice. -/
def replaceIntOrString (data : StringMap) : StringMap :=
  (openIntOrString data).attach.map (fun kv =>
    match kv with
    | ⟨(k, .map subData), _⟩ => (k, .map (replaceIntOrString subData))
    | ⟨(k, v), _⟩ => (k, v))
termination_by sizeOf data
decreasing_by
  rename_i h
  have hmem : (k, Value.map subData) ∈ data := by
    unfold openIntOrString mapDelete mapSet stringOrInteger at h
    split at h
    · have h := (List.mem_filter.mp h).1
      split at h
      · obtain ⟨kv, hkv, heq⟩ := List.mem_map.mp h
        split at heq
        · cases heq
        · rw [← heq]; exact hkv
      · simpa using h
    · exact h
  have hlt := List.sizeOf_lt_of_mem hmem
  simp only [Prod.mk.sizeOf_spec, Value.map.sizeOf_spec] at hlt
  omega

/-- What the loop of `additionalProperties` makes of a value: the function
itself on a map, nothing on any other value. -/
def additionalPropertiesValue (skip : Bool) : Value → Value
  | .map subData => .map (additionalProperties subData skip)
  | v => v

/-- What the loop of `replaceIntOrString` makes of a value: the function
itself on a map, nothing on any other value. -/
def replaceIntOrStringValue : Value → Value
  | .map subData => .map (replaceIntOrString subData)
  | v => v

/-- The value reached from `v` along a path of keys, every step but the last
going through a map-valued entry. -/
def Value.reach : Value → List String → Option Value
  | v, [] => some v
  | .map data, k :: rest =>
    match mapGet k data with
    | some v => v.reach rest
    | none => none
  | _, _ :: _ => none

/-- A value seen from the map that holds it: a map-valued entry counts as a
map, whatever it holds; any other value counts as itself. -/
def Value.shallow : Value → Value
  | .map _ => .map []
  | v => v

/-- The value is a map. -/
def Value.isMap : Value → Bool
  | .map _ => true
  | _ => false

/-- The keys of a map, in the order of its entries; no key for any other
value. -/
def Value.keys : Value → List String
  | .map entries => entries.map Prod.fst
  | _ => []

/-- The schema of an object with one property, `spec`, itself an object with
a property `replicas`. -/
def nestedSchema : StringMap :=
  [("type", .string "object"),
   ("properties", .map
     [("spec", .map
       [("type", .string "object"),
        ("properties", .map [("replicas", .map [("type", .string "integer")])])])])]

/-- The schema of an object that declares one property, named `properties`. -/
def schemaWithPropertyNamedProperties : StringMap :=
  [("type", .string "object"),
   ("properties", .map [("properties", .map [("type", .string "string")])])]

/-- The schema of an object whose property `port` is an int-or-string. -/
def portSchema : StringMap :=
  [("type", .string "object"),
   ("properties", .map
     [("port", .map [("format", .string "int-or-string"), ("description", .string "a port")]),
      ("name", .map [("type", .string "string")])])]

/-- A schema file as `processAndWriteSchema` hands it to `writeSchemaFile`:
the file name is, in lower case, the group, the plural name and the version
name joined by underscores with the extension `json`, in the target
directory; `group` is `spec["group"]` as read, absent or not. -/
structure SchemaFile where
  targetDir : String
  group : Option Value
  name : String
  versionName : String
  schema : StringMap

/-- The function `processAndWriteSchema`: the schema after
`additionalProperties` and `replaceIntOrString`, written under the name made
of the group, the plural name and the version.  The type assertions of line
31 are unchecked: a failed one is a panic, returned as an error. -/
def processAndWriteSchema (targetDir : String) (schema : StringMap) (spec : StringMap)
    (versionName : String) : Except String SchemaFile :=
  let schema := additionalProperties schema true
  let schema := replaceIntOrString schema
  match mapGet "names" spec with
  | some (.map names) =>
    match mapGet "plural" names with
    | some (.string name) =>
      let group := mapGet "group" spec
      .ok { targetDir := targetDir, group := group, name := name,
            versionName := versionName, schema := schema }
    | _ => .error "interface conversion: plural is not a string"
  | _ => .error "interface conversion: names is not a map"

/-- The loop of `extractSchema` over the versions (lines 16-23): the files
written so far and the panic that ended the loop, if any.  The type
assertions of lines 17 and 20 are unchecked; those of lines 18 and 19 are
checked and skip the version. -/
def extractSchemaLoop (targetDir : String) (spec : StringMap) :
    List Value → List SchemaFile → List SchemaFile × Option String
  | [], written => (written, none)
  | version :: rest, written =>
    match version with
    | .map versionData =>
      match mapGet "schema" versionData with
      | some (.map schema) =>
        match mapGet "openAPIV3Schema" schema with
        | some (.map openAPIV3Schema) =>
          match mapGet "name" versionData with
          | some (.string versionName) =>
            match processAndWriteSchema targetDir openAPIV3Schema spec versionName with
            | .ok file => extractSchemaLoop targetDir spec rest (written ++ [file])
            | .error panic => (written, some panic)
          | _ => (written, some "interface conversion: name is not a string")
        | _ => extractSchemaLoop targetDir spec rest written
      | _ => extractSchemaLoop targetDir spec rest written
    | _ => (written, some "interface conversion: version is not a map")

/-- The function `extractSchema`: the files written and the panic that ended
the run, if any. -/
def extractSchema (targetDir : String) (spec : StringMap) :
    List SchemaFile × Option String :=
  match mapGet "versions" spec with
  | some (.slice versions) => extractSchemaLoop targetDir spec versions []
  | _ => ([], none)

/-- A version of a CRD with a name and a schema. -/
def versionV1 : Value :=
  .map [("name", .string "v1"),
        ("schema", .map [("openAPIV3Schema", .map [("type", .string "object")])])]

/-- A CRD spec whose second version entry is a string, not a map. -/
def specWithStringVersion : StringMap :=
  [("group", .string "datadoghq.com"),
   ("names", .map [("plural", .string "datadogagents")]),
   ("versions", .slice [versionV1, .string "v2"])]

/-- A CRD spec whose version holds a schema and no name. -/
def specWithUnnamedVersion : StringMap :=
  [("group", .string "datadoghq.com"),
   ("names", .map [("plural", .string "datadogagents")]),
   ("versions", .slice
     [.map [("schema", .map [("openAPIV3Schema", .map [("type", .string "object")])])]])]

/-- A CRD spec without `names`. -/
def specWithoutNames : StringMap :=
  [("group", .string "datadoghq.com"), ("versions", .slice [versionV1])]

/-! ## The ASM feature

Of the ASM feature only the test, `feature/asm/feature_test.go`, is part of
the sources at hand: `assertEnv` and the table of `TestASMFeature` are
translated from it; the feature itself, the builder of the test objects, the
fake managers and the runner of the suite follow the specification (section
4.1) and what the test expects of them. -/

/-- The ASM toggles of a DatadogAgent (`Spec.Features.ASM`): pointers to
booleans, nil when a toggle is absent. -/
structure ASMFeatureConfig where
  Threats : Option Bool := none
  SCA : Option Bool := none
  IAST : Option Bool := none
deriving DecidableEq, Repr

/-- Modelled from the spec: the builder method `WithASMEnabled` of the package
`apis/datadoghq/v2alpha1/test`, missing from the sources at hand, with which
the test sets the three toggles. -/
def WithASMEnabled (threats sca iast : Bool) : ASMFeatureConfig :=
  { Threats := some threats, SCA := some sca, IAST := some iast }

/-- The library function `apiutils.BoolValue`: the boolean pointed to, false
for nil. -/
def BoolValue : Option Bool → Bool
  | some b => b
  | none => false

/-- The type `corev1.EnvVar`, with its name and value. -/
structure EnvVar where
  Name : String
  Value : String
deriving DecidableEq, Repr

/-- The package constants the test refers to, whose values are not part of
the sources at hand: the three environment variable names of `apicommon` and
the name of the cluster-agent container. -/
structure ASMNames where
  DDAdmissionControllerAppsecEnabled : String
  DDAdmissionControllerAppsecSCAEnabled : String
  DDAdmissionControllerIASTEnabled : String
  ClusterAgentContainerName : String

/-- The type `fake.PodTemplateManagers`, with the environment variables by
container of its `EnvVarMgr`. -/
structure PodTemplateManagers where
  EnvVarsByC : String → List EnvVar

/-- Modelled from the spec: the write of an environment variable into the
list of a container (the managers are missing from the sources at hand): on a
collision of names the last write wins. -/
def addEnvVar (e : EnvVar) (envs : List EnvVar) : List EnvVar :=
  if envs.any (fun x => x.Name == e.Name) then
    envs.map (fun x => if x.Name == e.Name then e else x)
  else envs ++ [e]

/-- Modelled from the spec: the method `AddEnvVarToContainer` of the
environment variable manager, missing from the sources at hand. -/
def PodTemplateManagers.AddEnvVarToContainer (managers : PodTemplateManagers)
    (container : String) (e : EnvVar) : PodTemplateManagers :=
  { EnvVarsByC := fun c =>
      if c = container then addEnvVar e (managers.EnvVarsByC c) else managers.EnvVarsByC c }

/-- Modelled from the spec: the state of the ASM feature (`asmFeature` of
`feature/asm/feature.go`, missing from the sources at hand): the three
toggles as read from the DatadogAgent. -/
structure asmFeature where
  threatsEnabled : Bool := false
  scaEnabled : Bool := false
  iastEnabled : Bool := false
deriving DecidableEq, Repr

/-- Modelled from the spec: the constructor `buildASMFeature` of
`feature/asm/feature.go`, missing from the sources at hand. -/
def buildASMFeature : asmFeature := {}

/-- Modelled from the spec: the method `Configure` of the ASM feature,
missing from the sources at hand.  The constructor inspects its spec subtree
and reports inactive if its toggle is absent or false (section 4.1); with
three toggles the feature is active when one of them is enabled.  The second
component is whether the feature is configured. -/
def asmFeature.Configure (_ : asmFeature) (asm : ASMFeatureConfig) : asmFeature × Bool :=
  let f : asmFeature :=
    { threatsEnabled := BoolValue asm.Threats
      scaEnabled := BoolValue asm.SCA
      iastEnabled := BoolValue asm.IAST }
  (f, f.threatsEnabled || f.scaEnabled || f.iastEnabled)

/-- Modelled from the spec: the method `ManageClusterAgent` of the ASM
feature, missing from the sources at hand: it sets, on the cluster-agent
container, the environment variable of every enabled toggle to `true`. -/
def asmFeature.ManageClusterAgent (names : ASMNames) (f : asmFeature)
    (managers : PodTemplateManagers) : PodTemplateManagers :=
  let managers :=
    if f.threatsEnabled then
      managers.AddEnvVarToContainer names.ClusterAgentContainerName
        { Name := names.DDAdmissionControllerAppsecEnabled, Value := "true" }
    else managers
  let managers :=
    if f.scaEnabled then
      managers.AddEnvVarToContainer names.ClusterAgentContainerName
        { Name := names.DDAdmissionControllerAppsecSCAEnabled, Value := "true" }
    else managers
  if f.iastEnabled then
    managers.AddEnvVarToContainer names.ClusterAgentContainerName
      { Name := names.DDAdmissionControllerIASTEnabled, Value := "true" }
  else managers

/-- The type `envVar` of the test: an expectation on one environment
variable. -/
structure envVar where
  name : String
  value : String
  present : Bool
deriving DecidableEq, Repr

/-- The function `assertEnv` of the test (lines 28-50), as the check it makes
of the managers: a variable expected absent has the name of no variable of the
cluster-agent container, a variable expected present is among them with its
value. -/
def assertEnv (names : ASMNames) (envVars : List envVar) (mgr : PodTemplateManagers) : Bool :=
  let agentEnvs := mgr.EnvVarsByC names.ClusterAgentContainerName
  envVars.all (fun envVar =>
    if !envVar.present then agentEnvs.all (fun env => envVar.name != env.Name)
    else
      let expected : EnvVar := { Name := envVar.name, Value := envVar.value }
      agentEnvs.contains expected)

/-- A case of a feature test suite, with the fields `TestASMFeature` sets. -/
structure FeatureTest where
  Name : String
  DDAv2 : ASMFeatureConfig
  WantConfigure : Bool
  ClusterAgent : Option (List envVar) := none

/-- The table of `TestASMFeature` (lines 53-110). -/
def TestASMFeature (names : ASMNames) : List FeatureTest :=
  [{ Name := "ASM not enabled", DDAv2 := WithASMEnabled false false false,
     WantConfigure := false },
   { Name := "ASM Threats enabled", DDAv2 := WithASMEnabled true false false,
     WantConfigure := true,
     ClusterAgent := some [{ name := names.DDAdmissionControllerAppsecEnabled,
                             value := "true", present := true }] },
   { Name := "ASM SCA enabled", DDAv2 := WithASMEnabled false true false,
     WantConfigure := true,
     ClusterAgent := some [{ name := names.DDAdmissionControllerAppsecSCAEnabled,
                             value := "true", present := true }] },
   { Name := "ASM IAST enabled", DDAv2 := WithASMEnabled false false true,
     WantConfigure := true,
     ClusterAgent := some [{ name := names.DDAdmissionControllerIASTEnabled,
                             value := "true", present := true }] },
   { Name := "ASM all enabled", DDAv2 := WithASMEnabled true true true,
     WantConfigure := true,
     ClusterAgent := some
       [{ name := names.DDAdmissionControllerAppsecEnabled, value := "true", present := true },
        { name := names.DDAdmissionControllerAppsecSCAEnabled, value := "true",
          present := true },
        { name := names.DDAdmissionControllerIASTEnabled, value := "true",
          present := true }] }]

/-- Modelled from the spec: one case of `test.FeatureTestSuite.Run`, whose
code is missing from the sources at hand: the feature is built and
configured, its activity is compared with `WantConfigure`, and when it is
active the cluster-agent expectation is checked on fresh managers. -/
def runFeatureTest (names : ASMNames) (t : FeatureTest) : Bool :=
  let r := buildASMFeature.Configure t.DDAv2
  r.2 == t.WantConfigure
    && (!r.2 ||
        match t.ClusterAgent with
        | none => true
        | some want =>
          assertEnv names want (r.1.ManageClusterAgent names { EnvVarsByC := fun _ => [] }))

/-- The expectations of the test for a choice of toggles: the variable of
every enabled toggle, present with value `true`. -/
def expectedEnv (names : ASMNames) (threats sca iast : Bool) : List envVar :=
  (if threats then
    [{ name := names.DDAdmissionControllerAppsecEnabled, value := "true", present := true }]
   else [])
  ++ (if sca then
    [{ name := names.DDAdmissionControllerAppsecSCAEnabled, value := "true", present := true }]
   else [])
  ++ (if iast then
    [{ name := names.DDAdmissionControllerIASTEnabled, value := "true", present := true }]
   else [])

/-- Names for the constants of the ASM test, for the examples. -/
def demoASMNames : ASMNames :=
  { DDAdmissionControllerAppsecEnabled := "DD_APPSEC_ENABLED"
    DDAdmissionControllerAppsecSCAEnabled := "DD_APPSEC_SCA_ENABLED"
    DDAdmissionControllerIASTEnabled := "DD_IAST_ENABLED"
    ClusterAgentContainerName := "cluster-agent" }

/-- Modelled from the spec: the other claiming policy for
`agentprofile.ProfileToApply`, whose code is missing from the sources at hand
(section 9 of the spec leaves the granularity open): all or nothing.  A
profile one of whose matching nodes is claimed already is marked conflicting
and rejected, and claims nothing; otherwise it claims every node it
matches. -/
def ProfileToApplyWhole (profile : DatadogAgentProfile) (nodes : List Node)
    (profileAppliedByNode : NodeProfiles) (now : Time) :
    DatadogAgentProfile × NodeProfiles × Option Err :=
  let matched := nodes.filter (profileSelects profile)
  if matched.any (fun node => (profileAppliedByNode.lookup node.Name).isSome) then
    ({ profile with Conditions := upsertCondition (profileCondition false now) profile.Conditions },
     profileAppliedByNode, some (Err.other "conflict with existing profile"))
  else
    ({ profile with Conditions := upsertCondition (profileCondition true now) profile.Conditions },
     claimNodes (profileKey profile) matched profileAppliedByNode, none)

/-- An environment whose profile resolver claims all or nothing. -/
def withWholeProfileResolver (env : Env W) : Env W :=
  { env with
    SortProfiles := SortProfiles
    ProfileToApply := ProfileToApplyWhole
    ApplyDefaultProfile := ApplyDefaultProfile }

/-- A young profile whose empty selector matches every node. -/
def catchAllProfile : DatadogAgentProfile :=
  { Name := "catch-all", Namespace := "default", CreationTimestamp := 40, Selector := [] }

/-- A young profile matching every node, listed before an older profile
matching the nodes of one pool. -/
def partlyContestedProfiles : List DatadogAgentProfile := [catchAllProfile, oldestProfile]

/-- A scenario with a profile whose nodes are contested in part. -/
def scenarioPartlyContested : Scenario :=
  { options := { DatadogAgentProfileEnabled := true }, profiles := .ok partlyContestedProfiles }

/-- A map whose `format` is `int-or-string` and whose `oneOf` entry is a map
of that format too. -/
def nestedIntOrString : StringMap :=
  [("format", .string "int-or-string"),
   ("oneOf", .map [("format", .string "int-or-string")])]

/-! ## Basic facts about the trace -/

@[simp]
theorem St.record_trace (s : St W) (w : W) (e : Event) :
    (s.record w e).trace = s.trace ++ [e] := rfl

@[simp]
theorem St.record_world (s : St W) (w : W) (e : Event) :
    (s.record w e).world = w := rfl

/-- The trace of one call of the status publisher. -/
theorem updateStatusIfNeededV2_trace (env : Env W) (agentdeployment : DatadogAgent)
    (newStatus : DatadogAgentStatus) (result : Result) (currentError : Option Err)
    (s : St W) :
    (updateStatusIfNeededV2 env agentdeployment newStatus result currentError s).2.trace
      = s.trace ++ publishEvents env agentdeployment newStatus result currentError s.world := by
  unfold updateStatusIfNeededV2 publishEvents
  by_cases h : SemanticDeepEqual agentdeployment.Status
      (upsertedStatus env agentdeployment newStatus currentError s.world) = true
  · simp [h]
  · simp only [Bool.not_eq_true] at h
    simp only [St.record_world, h, Bool.not_false, if_true, Bool.false_eq_true, if_false]
    split
    · split <;> simp [*]
    · simp [*]

/-- Every event of a call of the status publisher is the invocation or the
status write. -/
theorem publishEvents_stage (env : Env W) (agentdeployment : DatadogAgent)
    (newStatus : DatadogAgentStatus) (result : Result) (currentError : Option Err)
    (w : W) :
    ∀ e ∈ publishEvents env agentdeployment newStatus result currentError w, 15 ≤ e.stage := by
  intro e he
  unfold publishEvents at he
  split at he
  · simp at he; subst he; simp [Event.stage]
  · simp at he; rcases he with he | he <;> subst he <;> simp [Event.stage]

/-! ## Status publishing: claims C1 and C2 -/

/-- C1: when `newStatus`, after the reconcile-error condition and the optional
metrics forwarder condition have been upserted, is semantically deep-equal to
the status on the object, `updateStatusIfNeededV2` makes no `Status().Update`
call (the world is untouched and the only new event is the invocation itself)
and returns exactly the `(result, currentError)` it was given. -/
theorem updateStatusIfNeededV2_equal_status_no_write (env : Env W)
    (agentdeployment : DatadogAgent) (newStatus : DatadogAgentStatus) (result : Result)
    (currentError : Option Err) (s : St W)
    (heq : SemanticDeepEqual agentdeployment.Status
      (upsertedStatus env agentdeployment newStatus currentError s.world) = true) :
    (updateStatusIfNeededV2 env agentdeployment newStatus result currentError s).1
        = (result, currentError)
    ∧ (updateStatusIfNeededV2 env agentdeployment newStatus result currentError s).2.world
        = s.world
    ∧ (updateStatusIfNeededV2 env agentdeployment newStatus result currentError s).2.trace
        = s.trace ++ [Event.updateStatusIfNeededV2 newStatus result currentError]
    ∧ ∀ e ∈ (updateStatusIfNeededV2 env agentdeployment newStatus result currentError s).2.trace,
        e.isStatusUpdate = true → e ∈ s.trace := by
  have htr := updateStatusIfNeededV2_trace env agentdeployment newStatus result currentError s
  simp only [publishEvents, heq, if_true] at htr
  refine ⟨?_, ?_, htr, ?_⟩
  · simp [updateStatusIfNeededV2, heq]
  · simp [updateStatusIfNeededV2, heq]
  · intro e he hs
    rw [htr] at he
    simp only [List.mem_append, List.mem_singleton] at he
    rcases he with he | he
    · exact he
    · subst he; simp [Event.isStatusUpdate] at hs

/-- C1, at a DatadogAgent whose published status already holds the ok
condition: no write, and the given result comes back. -/
theorem updateStatusIfNeededV2_equal_status_no_write_witness :
    SemanticDeepEqual agentSettled.Status
      (upsertedStatus (scenarioEnv {}) agentSettled agentSettled.Status none 0) = true
    ∧ (updateStatusIfNeededV2 (scenarioEnv {}) agentSettled agentSettled.Status
        { RequeueAfter := 7 } none ⟨0, []⟩).2.trace
        = [] ++ [Event.updateStatusIfNeededV2 agentSettled.Status { RequeueAfter := 7 } none] :=
  ⟨by decide,
   (updateStatusIfNeededV2_equal_status_no_write (scenarioEnv {}) agentSettled
      agentSettled.Status { RequeueAfter := 7 } none ⟨0, []⟩ (by decide)).2.2.1⟩

/-- C2: when the status write of a call of `updateStatusIfNeededV2` returns an
optimistic-concurrency conflict, the call returns the result
`RequeueAfter: 1 second` with a nil error, whatever `result` and
`currentError` it was given, and the trace of the call holds exactly one
status write. -/
theorem updateStatusIfNeededV2_conflict_requeues (env : Env W)
    (agentdeployment : DatadogAgent) (newStatus : DatadogAgentStatus) (result : Result)
    (currentError : Option Err) (w : W) (obj : DatadogAgent) (err : Err)
    (hwrite : Event.statusUpdate obj (some err) ∈
      (updateStatusIfNeededV2 env agentdeployment newStatus result currentError ⟨w, []⟩).2.trace)
    (hconflict : IsConflict err = true) :
    (updateStatusIfNeededV2 env agentdeployment newStatus result currentError ⟨w, []⟩).1
        = ({ Requeue := false, RequeueAfter := Second }, none)
    ∧ ((updateStatusIfNeededV2 env agentdeployment newStatus result currentError
          ⟨w, []⟩).2.trace.filter Event.isStatusUpdate).length = 1 := by
  rw [updateStatusIfNeededV2_trace] at hwrite ⊢
  unfold publishEvents at hwrite ⊢
  by_cases h : SemanticDeepEqual agentdeployment.Status
      (upsertedStatus env agentdeployment newStatus currentError w) = true
  · simp [h] at hwrite
  · simp only [Bool.not_eq_true] at h
    simp only [h, Bool.false_eq_true, if_false, List.nil_append, List.mem_cons,
      List.mem_singleton, List.mem_nil_iff, or_false, false_or, reduceCtorEq,
      Event.statusUpdate.injEq] at hwrite
    obtain ⟨-, hret⟩ := hwrite
    constructor
    · simp [updateStatusIfNeededV2, h, ← hret, hconflict]
    · simp [h, List.filter, Event.isStatusUpdate]

/-- C2, at a status write that conflicts: a fast requeue, no error. -/
theorem updateStatusIfNeededV2_conflict_requeues_witness :
    (updateStatusIfNeededV2 (scenarioEnv { statusWrite := some (Err.conflict "stale") })
        agentWithCredentials {} { Requeue := true } (some (Err.other "boom")) ⟨0, []⟩).1
      = ({ Requeue := false, RequeueAfter := Second }, none) :=
  (updateStatusIfNeededV2_conflict_requeues
    (scenarioEnv { statusWrite := some (Err.conflict "stale") })
    agentWithCredentials {} { Requeue := true } (some (Err.other "boom")) 0
    { agentWithCredentials with
      Status := upsertedStatus (scenarioEnv { statusWrite := some (Err.conflict "stale") })
        agentWithCredentials {} (some (Err.other "boom")) 0 }
    (Err.conflict "stale") (by decide) (by decide)).1

/-! ## Traces of the loops -/

/-- The loop over the features calls `ManageDependencies` once per feature, in
list order, and collects the non-nil errors in that order. -/
theorem manageDependenciesLoop_spec (env : Env W) (requiredComponents : RequiredComponents)
    (features : List Feature) :
    ∀ (errs : List Err) (s : St W),
      ∃ rets : List (Option Err), rets.length = features.length
        ∧ (manageDependenciesLoop env requiredComponents features errs s).1
            = errs ++ rets.reduceOption
        ∧ (manageDependenciesLoop env requiredComponents features errs s).2.trace
            = s.trace ++
              List.zipWith (fun f r => Event.ManageDependencies f.ID r) features rets := by
  induction features with
  | nil => intro errs s; exact ⟨[], rfl, by simp [manageDependenciesLoop], by simp [manageDependenciesLoop]⟩
  | cons feat rest ih =>
    intro errs s
    unfold manageDependenciesLoop
    cases hret : (env.ManageDependencies feat requiredComponents s.world).1 with
    | none =>
      obtain ⟨rets, hlen, herrs, htr⟩ := ih errs
        (s.record (env.ManageDependencies feat requiredComponents s.world).2
          (Event.ManageDependencies feat.ID none))
      refine ⟨none :: rets, by simp [hlen], ?_, ?_⟩
      · simpa [hret] using herrs
      · simpa [hret] using htr
    | some featErr =>
      obtain ⟨rets, hlen, herrs, htr⟩ := ih (errs ++ [featErr])
        (s.record (env.ManageDependencies feat requiredComponents s.world).2
          (Event.ManageDependencies feat.ID (some featErr)))
      refine ⟨some featErr :: rets, by simp [hlen], ?_, ?_⟩
      · simpa [hret] using herrs
      · simpa [hret] using htr

/-- The events of the loop over the features are `ManageDependencies` calls. -/
theorem manageDependenciesLoop_trace (env : Env W) (requiredComponents : RequiredComponents)
    (features : List Feature) (errs : List Err) (s : St W) :
    ∃ evs, (manageDependenciesLoop env requiredComponents features errs s).2.trace
        = s.trace ++ evs ∧ ∀ e ∈ evs, e.stage = 4 := by
  obtain ⟨rets, -, -, htr⟩ := manageDependenciesLoop_spec env requiredComponents features errs s
  refine ⟨_, htr, ?_⟩
  intro e he
  obtain ⟨i, hi, rfl⟩ := List.getElem_of_mem he
  simp [Event.stage]

@[simp]
theorem updateDAPStatus_trace (env : Env W) (profile : DatadogAgentProfile)
    (s : St W) :
    (updateDAPStatus env profile s).trace
      = s.trace ++ [Event.updateDAPStatus profile (env.dapStatusUpdate profile s.world).1] :=
  rfl

/-- The events of the profile loop are profile status writes. -/
theorem profilesToApplyLoop_trace (env : Env W) (nodeList : List Node) (now : Time)
    (profiles : List DatadogAgentProfile) :
    ∀ (acc : List DatadogAgentProfile) (perNode : NodeProfiles) (s : St W),
      ∃ evs, (profilesToApplyLoop env nodeList now profiles acc perNode s).2.trace
        = s.trace ++ evs ∧ ∀ e ∈ evs, e.stage = 8 := by
  induction profiles with
  | nil => intro acc perNode s; exact ⟨[], by simp [profilesToApplyLoop], by simp⟩
  | cons profile rest ih =>
    intro acc perNode s
    unfold profilesToApplyLoop
    simp only
    split
    · obtain ⟨evs, h, hb⟩ := ih acc (env.ProfileToApply profile nodeList perNode now).2.1
        (updateDAPStatus env (env.ProfileToApply profile nodeList perNode now).1 s)
      refine ⟨Event.updateDAPStatus (env.ProfileToApply profile nodeList perNode now).1
        (env.dapStatusUpdate (env.ProfileToApply profile nodeList perNode now).1 s.world).1
        :: evs, ?_, ?_⟩
      · rw [h]; simp
      · intro e he
        simp only [List.mem_cons] at he
        rcases he with he | he
        · subst he; rfl
        · exact hb e he
    · obtain ⟨evs, h, hb⟩ := ih (acc ++ [(env.ProfileToApply profile nodeList perNode now).1])
        (env.ProfileToApply profile nodeList perNode now).2.1
        (updateDAPStatus env (env.ProfileToApply profile nodeList perNode now).1 s)
      refine ⟨Event.updateDAPStatus (env.ProfileToApply profile nodeList perNode now).1
        (env.dapStatusUpdate (env.ProfileToApply profile nodeList perNode now).1 s.world).1
        :: evs, ?_, ?_⟩
      · rw [h]; simp
      · intro e he
        simp only [List.mem_cons] at he
        rcases he with he | he
        · subst he; rfl
        · exact hb e he

/-- The events of `profilesToApply` are the profile list and the profile status
writes. -/
theorem profilesToApply_trace (env : Env W) (nodeList : List Node) (now : Time) (s : St W) :
    ∃ evs, (profilesToApply env nodeList now s).2.trace = s.trace ++ evs
      ∧ ∀ e ∈ evs, e.stage = 8 := by
  unfold profilesToApply
  simp only
  split
  · exact ⟨[_], rfl, by simp [Event.stage]⟩
  · rename_i items hitems
    obtain ⟨evs, h, hb⟩ := profilesToApplyLoop_trace env nodeList now (env.SortProfiles items)
      [] [] (s.record (env.clientListProfiles s.world).2 (Event.listProfiles none))
    refine ⟨Event.listProfiles none :: evs, ?_, ?_⟩
    · rw [h]; simp
    · intro e he
      simp only [List.mem_cons] at he
      rcases he with he | he
      · subst he; rfl
      · exact hb e he

@[simp]
theorem getNodeList_trace (env : Env W) (s : St W) :
    (getNodeList env s).2.trace
      = s.trace ++ [Event.getNodeList (env.clientListNodes s.world).1.2] := rfl

/-- The events of lines 149-175 are the node list, the profile resolution and
the profile handling. -/
theorem selectProvidersAndProfiles_trace (env : Env W) (inst : DatadogAgent)
    (err : Option Err) (s : St W) :
    ∃ evs, (selectProvidersAndProfiles env inst err s).2.trace = s.trace ++ evs
      ∧ ∀ e ∈ evs, 7 ≤ e.stage ∧ e.stage ≤ 9 := by
  unfold selectProvidersAndProfiles
  simp only
  split
  · split
    · exact ⟨[_], getNodeList_trace env s, by simp [Event.stage]⟩
    · split
      · obtain ⟨evs, h, hb⟩ := profilesToApply_trace env (getNodeList env s).1.1
          (env.timeNow (getNodeList env s).2.world) (getNodeList env s).2
        split
        · refine ⟨Event.getNodeList (env.clientListNodes s.world).1.2 :: evs, ?_, ?_⟩
          · rw [h]; simp
          · intro e he
            simp only [List.mem_cons] at he
            rcases he with he | he
            · subst he; simp [Event.stage]
            · rw [hb e he]; omega
        · split
          all_goals
            refine ⟨Event.getNodeList (env.clientListNodes s.world).1.2 :: (evs ++
              [Event.handleProfiles (env.handleProfiles
                (profilesToApply env (getNodeList env s).1.1
                  (env.timeNow (getNodeList env s).2.world) (getNodeList env s).2).1.2.1
                inst.Namespace
                (profilesToApply env (getNodeList env s).1.1
                  (env.timeNow (getNodeList env s).2.world)
                  (getNodeList env s).2).2.world).1]), ?_, ?_⟩
          all_goals first
            | (rw [St.record_trace, h]; simp)
            | (intro e he
               simp only [List.mem_cons, List.mem_append, List.mem_nil_iff, or_false] at he
               rcases he with he | he | he
               · subst he; simp [Event.stage]
               · rw [hb e he]; omega
               · subst he; simp [Event.stage])
      · exact ⟨[_], getNodeList_trace env s, by simp [Event.stage]⟩
  · exact ⟨[], by simp, by simp⟩

/-- A return from the pass in lines 149-175 carries the zero result. -/
theorem selectProvidersAndProfiles_error (env : Env W) (inst : DatadogAgent)
    (err : Option Err) (s : St W) (ret : Result × Option Err)
    (h : (selectProvidersAndProfiles env inst err s).1 = .error ret) : ret.1 = {} := by
  unfold selectProvidersAndProfiles at h
  simp only at h
  repeat' split at h
  all_goals simp at h
  all_goals rw [← h]

/-- The trace of the inner node-agent loop. -/
theorem reconcileProviders_shape (env : Env W) (requiredComponents : RequiredComponents)
    (features : List Feature) (inst : DatadogAgent) (providerList : List String)
    (profile : DatadogAgentProfile) (providers : List String) :
    ∀ p : Progress W, p.stopped = false →
      LoopShape env p.st.trace
        (reconcileProviders env requiredComponents features inst providerList profile
          providers p) := by
  induction providers with
  | nil =>
    intro p hp
    exact ⟨[], by simp, by simp [reconcileProviders], by simp [reconcileProviders, hp]⟩
  | cons provider rest ih =>
    intro p hp
    unfold reconcileProviders
    simp only
    split
    · rename_i hstop
      refine ⟨[], by simp, by simp, ?_⟩
      intro _
      exact ⟨profile, provider, by simp, hstop⟩
    · rename_i hstop
      obtain ⟨quiet, hq, hgo, hst⟩ := ih
        { stopped := false
          result := (env.reconcileV2Agent requiredComponents features inst p.newStatus provider
            providerList profile p.st.world).1.1
          err := (env.reconcileV2Agent requiredComponents features inst p.newStatus provider
            providerList profile p.st.world).1.2.1
          newStatus := (env.reconcileV2Agent requiredComponents features inst p.newStatus
            provider providerList profile p.st.world).1.2.2
          st := p.st.record (env.reconcileV2Agent requiredComponents features inst p.newStatus
              provider providerList profile p.st.world).2
            (Event.reconcileV2Agent profile provider
              (env.reconcileV2Agent requiredComponents features inst p.newStatus provider
                providerList profile p.st.world).1.1
              (env.reconcileV2Agent requiredComponents features inst p.newStatus provider
                providerList profile p.st.world).1.2.1
              (env.reconcileV2Agent requiredComponents features inst p.newStatus provider
                providerList profile p.st.world).1.2.2) } rfl
      refine ⟨Event.reconcileV2Agent profile provider
          (env.reconcileV2Agent requiredComponents features inst p.newStatus provider
            providerList profile p.st.world).1.1
          (env.reconcileV2Agent requiredComponents features inst p.newStatus provider
            providerList profile p.st.world).1.2.1
          (env.reconcileV2Agent requiredComponents features inst p.newStatus provider
            providerList profile p.st.world).1.2.2 :: quiet, ?_, ?_, ?_⟩
      · intro e he
        simp only [List.mem_cons] at he
        rcases he with he | he
        · subst he
          simp only [Bool.not_eq_true] at hstop
          exact ⟨rfl, hstop⟩
        · exact hq e he
      · intro h
        rw [hgo h]; simp
      · intro h
        obtain ⟨prof, prov, htr, hsr⟩ := hst h
        exact ⟨prof, prov, by rw [htr]; simp, hsr⟩

/-- The trace of the node-agent loop over the profiles. -/
theorem reconcileProfiles_shape (env : Env W) (requiredComponents : RequiredComponents)
    (features : List Feature) (inst : DatadogAgent) (providerList : List String)
    (profiles : List DatadogAgentProfile) :
    ∀ p : Progress W, p.stopped = false →
      LoopShape env p.st.trace
        (reconcileProfiles env requiredComponents features inst providerList profiles p) := by
  induction profiles with
  | nil =>
    intro p hp
    exact ⟨[], by simp, by simp [reconcileProfiles], by simp [reconcileProfiles, hp]⟩
  | cons profile rest ih =>
    intro p hp
    unfold reconcileProfiles
    simp only
    obtain ⟨quiet, hq, hgo, hst⟩ := reconcileProviders_shape env requiredComponents features
      inst providerList profile providerList p hp
    split
    · rename_i hstopped
      exact ⟨quiet, hq, by simp [hstopped], hst⟩
    · rename_i hstopped
      simp only [Bool.not_eq_true] at hstopped
      obtain ⟨quiet2, hq2, hgo2, hst2⟩ := ih _ hstopped
      refine ⟨quiet ++ quiet2, ?_, ?_, ?_⟩
      · intro e he
        simp only [List.mem_append] at he
        rcases he with he | he
        · exact hq e he
        · exact hq2 e he
      · intro h
        rw [hgo2 h, hgo hstopped]; simp
      · intro h
        obtain ⟨prof, prov, htr, hsr⟩ := hst2 h
        exact ⟨prof, prov, by rw [htr, hgo hstopped]; simp, hsr⟩

/-! ## The ways a pass can end -/

/-- The value `updateStatusIfNeededV2` returns depends on the world only. -/
theorem updateStatusIfNeededV2_fst (env : Env W) (agentdeployment : DatadogAgent)
    (newStatus : DatadogAgentStatus) (result : Result) (currentError : Option Err)
    (s : St W) :
    (updateStatusIfNeededV2 env agentdeployment newStatus result currentError s).1
      = (updateStatusIfNeededV2 env agentdeployment newStatus result currentError
          ⟨s.world, []⟩).1 := by
  unfold updateStatusIfNeededV2
  simp only [St.record_world]
  split
  · split
    · split <;> rfl
    · rfl
  · rfl

/-- The function `finishPass` ends in one of the ways of `FinishCases`. -/
theorem finishPass_cases (env : Env W) (requiredComponents : RequiredComponents)
    (features : List Feature) (inst : DatadogAgent) (errs : List Err)
    (providerList : List String) (profiles : List DatadogAgentProfile)
    (newStatus : DatadogAgentStatus) (s : St W) :
    ∃ fin,
      (finishPass env requiredComponents features inst errs providerList profiles
        newStatus s).2.trace = s.trace ++ fin
      ∧ FinishCases env inst errs fin
        (finishPass env requiredComponents features inst errs providerList profiles
          newStatus s).1 := by
  unfold finishPass FinishCases
  simp only [St.record_world]
  generalize env.cleanupExtraneousDaemonSets inst newStatus providerList profiles s.world = cl
  generalize env.reconcileV2ClusterChecksRunner requiredComponents features inst cl.1.2 cl.2
    = ccr
  by_cases hstop : env.ShouldReturn ccr.1.1 ccr.1.2.1 = true
  · rw [if_pos hstop]
    refine ⟨_, ?_, cl.1.1, ccr.1.1, ccr.1.2.1, ccr.1.2.2, Or.inl ⟨hstop, ccr.2, rfl, ?_⟩⟩
    · simp [updateStatusIfNeededV2_trace]
    · simp only; rw [updateStatusIfNeededV2_fst]; rfl
  · rw [if_neg hstop]
    simp only [Bool.not_eq_true] at hstop
    generalize env.storeApply ccr.2 = ap
    by_cases herrs : 0 < (errs ++ ap.1).length
    · rw [if_pos herrs]
      refine ⟨_, ?_, cl.1.1, ccr.1.1, ccr.1.2.1, ccr.1.2.2,
        Or.inr (Or.inl ⟨hstop, ap.1, ?_, rfl, rfl⟩)⟩
      · simp
      · intro h; rw [h] at herrs; simp at herrs
    · rw [if_neg herrs]
      have hnil : errs ++ ap.1 = [] := by
        cases h : errs ++ ap.1 with
        | nil => rfl
        | cons a l => rw [h] at herrs; simp at herrs
      obtain ⟨herrs0, hap⟩ := List.append_eq_nil.mp hnil
      generalize env.storeCleanup ap.2 = cu
      by_cases hcu : 0 < cu.1.length
      · rw [if_pos hcu]
        refine ⟨_, ?_, cl.1.1, ccr.1.1, ccr.1.2.1, ccr.1.2.2,
          Or.inr (Or.inr (Or.inl ⟨hstop, herrs0, cu.1, ?_, rfl, rfl⟩))⟩
        · simp [hap]
        · intro h; rw [h] at hcu; simp at hcu
      · rw [if_neg hcu]
        have hcunil : cu.1 = [] := by
          cases h : cu.1 with
          | nil => rfl
          | cons a l => rw [h] at hcu; simp at hcu
        refine ⟨_, ?_, cl.1.1, ccr.1.1, ccr.1.2.1, ccr.1.2.2,
          Or.inr (Or.inr (Or.inr ⟨hstop, herrs0, cu.2, rfl, ?_⟩))⟩
        · simp [hap, hcunil, updateStatusIfNeededV2_trace]
        · simp only; rw [updateStatusIfNeededV2_fst]; rfl

/-- Every pass of `reconcileInstanceV2` leaves its prefix in the trace, with
the values `rets` returned by `ManageDependencies` (whose non-nil members are
the errors the loop collects) and the errors `oerrs` of the overrides, and then
ends in one of the ways of `PassCases`. -/
theorem reconcileInstanceV2_cases (env : Env W) (inst : DatadogAgent) (s : St W) :
    ∃ (rets : List (Option Err)) (oerrs : List Err) (rest : List Event),
      rets.length = (env.BuildFeatures inst env.options).1.length
      ∧ (manageDependenciesLoop env (env.BuildFeatures inst env.options).2
          (env.BuildFeatures inst env.options).1 []
          (s.record s.world Event.BuildFeatures)).1 = rets.reduceOption
      ∧ (reconcileInstanceV2 env inst s).2.trace
          = s.trace ++ passPrefix env inst rets oerrs ++ rest
      ∧ PassCases env inst (rets.reduceOption ++ oerrs) rest
          (reconcileInstanceV2 env inst s).1 := by
  unfold reconcileInstanceV2 PassCases
  simp only [St.record_world]
  obtain ⟨rets, hlen, herrs, htr⟩ := manageDependenciesLoop_spec env
    (env.BuildFeatures inst env.options).2 (env.BuildFeatures inst env.options).1 []
    (s.record s.world Event.BuildFeatures)
  simp only [List.nil_append] at herrs
  revert herrs htr
  generalize manageDependenciesLoop env (env.BuildFeatures inst env.options).2
    (env.BuildFeatures inst env.options).1 [] (s.record s.world Event.BuildFeatures) = md
  intro herrs htr
  generalize env.overrideDependencies inst md.2.world = ov
  have hpre : (md.2.record ov.2 (Event.overrideDependencies ov.1)).trace
      = s.trace ++ passPrefix env inst rets ov.1 := by
    simp [htr, passPrefix]
  revert hpre
  generalize md.2.record ov.2 (Event.overrideDependencies ov.1) = s1
  intro hpre
  cases hglob : inst.Spec.Global with
  | none => exact ⟨rets, ov.1, [], hlen, herrs, by simp [hpre], Or.inl ⟨rfl, rfl, rfl⟩⟩
  | some glob =>
    simp only
    generalize (if (!(glob.ClusterAgentToken.isSome || glob.ClusterAgentTokenSecret.isSome))
        = true then
        (ensureAutoGeneratedTokenInStatus env inst (some inst.Status) ov.2).getD inst.Status
      else inst.Status) = ns0
    generalize env.reconcileV2ClusterAgent (env.BuildFeatures inst env.options).2
      (env.BuildFeatures inst env.options).1 inst ns0 ov.2 = ca
    by_cases hstop : env.ShouldReturn ca.1.1 ca.1.2.1 = true
    · rw [if_pos hstop]
      refine ⟨rets, ov.1, _, hlen, herrs, ?_,
        Or.inr ⟨ca.1.1, ca.1.2.1, ca.1.2.2, Or.inl ⟨hstop, ca.2, rfl, ?_⟩⟩⟩
      · simp [updateStatusIfNeededV2_trace, hpre]
      · simp only; rw [updateStatusIfNeededV2_fst]; rfl
    · rw [if_neg hstop]
      simp only [Bool.not_eq_true] at hstop
      obtain ⟨sel, hsel, hselb⟩ := selectProvidersAndProfiles_trace env inst ca.1.2.1
        (s1.record ca.2 (Event.reconcileV2ClusterAgent ca.1.1 ca.1.2.1 ca.1.2.2))
      have hselerr := selectProvidersAndProfiles_error env inst ca.1.2.1
        (s1.record ca.2 (Event.reconcileV2ClusterAgent ca.1.1 ca.1.2.1 ca.1.2.2))
      revert hsel hselerr
      generalize selectProvidersAndProfiles env inst ca.1.2.1
        (s1.record ca.2 (Event.reconcileV2ClusterAgent ca.1.1 ca.1.2.1 ca.1.2.2)) = so
      intro hsel hselerr
      rcases so with ⟨so1, so2⟩
      simp only [St.record_trace] at hsel
      cases so1 with
      | error ret =>
        refine ⟨rets, ov.1, _, hlen, herrs, ?_,
          Or.inr ⟨ca.1.1, ca.1.2.1, ca.1.2.2, Or.inr ⟨hstop, sel, hselb,
            Or.inl ⟨ret, hselerr ret rfl, rfl, rfl⟩⟩⟩⟩
        simp [hsel, hpre]
      | ok pp =>
        rcases pp with ⟨providerList, profiles⟩
        simp only
        obtain ⟨quiet, hq, hgo, hst⟩ := reconcileProfiles_shape env
          (env.BuildFeatures inst env.options).2 (env.BuildFeatures inst env.options).1 inst
          providerList profiles
          { stopped := false, result := ca.1.1, err := ca.1.2.1, newStatus := ca.1.2.2,
            st := so2 } rfl
        revert hgo hst
        generalize reconcileProfiles env (env.BuildFeatures inst env.options).2
          (env.BuildFeatures inst env.options).1 inst providerList profiles
          { stopped := false, result := ca.1.1, err := ca.1.2.1, newStatus := ca.1.2.2,
            st := so2 } = ag
        intro hgo hst
        simp only at hgo hst
        by_cases hag : ag.stopped = true
        · rw [if_pos hag]
          obtain ⟨prof, prov, htr2, hsr⟩ := hst hag
          refine ⟨rets, ov.1, _, hlen, herrs, ?_,
            Or.inr ⟨ca.1.1, ca.1.2.1, ca.1.2.2, Or.inr ⟨hstop, sel, hselb,
              Or.inr ⟨quiet, hq, Or.inl ⟨prof, prov, ag.result, ag.err, ag.newStatus,
                ag.st.world, hsr, rfl, ?_⟩⟩⟩⟩⟩
          · simp [updateStatusIfNeededV2_trace, htr2, hsel, hpre]
          · simp only; rw [updateStatusIfNeededV2_fst]
        · rw [if_neg hag]
          simp only [Bool.not_eq_true] at hag
          obtain ⟨fin, hfin, hcases⟩ := finishPass_cases env
            (env.BuildFeatures inst env.options).2
            (env.BuildFeatures inst env.options).1 inst (md.1 ++ ov.1) providerList profiles
            ag.newStatus ag.st
          rw [hgo hag, hsel, hpre] at hfin
          rw [herrs] at hcases hfin
          refine ⟨rets, ov.1, _, hlen, herrs, ?_,
            Or.inr ⟨ca.1.1, ca.1.2.1, ca.1.2.2, Or.inr ⟨hstop, sel, hselb,
              Or.inr ⟨quiet, hq, Or.inr ⟨fin, rfl, ?_⟩⟩⟩⟩⟩
          · rw [herrs, hfin]; simp
          · unfold FinishCases at hcases
            rw [herrs]
            exact hcases

/-- The events of the pass prefix are the feature build, the dependency
management and the overrides. -/
theorem passPrefix_stage (env : Env W) (inst : DatadogAgent) (rets : List (Option Err))
    (oerrs : List Err) :
    ∀ e ∈ passPrefix env inst rets oerrs, 3 ≤ e.stage ∧ e.stage ≤ 5 := by
  intro e he
  simp only [passPrefix, List.cons_append, List.mem_cons, List.mem_append, List.mem_nil_iff,
    or_false] at he
  rcases he with he | he | he
  · subst he; simp [Event.stage]
  · obtain ⟨i, hi, rfl⟩ := List.getElem_of_mem he
    simp [Event.stage]
  · subst he; simp [Event.stage]

/-- The events `finishPass` appends belong to the cleanup of extraneous
DaemonSets and to later stages. -/
theorem FinishCases.finish_stage {env : Env W} {inst : DatadogAgent} {errs : List Err}
    {fin : List Event} {res : Option (Result × Option Err)}
    (h : FinishCases env inst errs fin res) : ∀ x ∈ fin, 11 ≤ x.stage := by
  obtain ⟨c, r, e, ns, h⟩ := h
  rcases h with ⟨-, w, rfl, -⟩ | ⟨-, aerrs, -, rfl, -⟩ | ⟨-, -, cerrs, -, rfl, -⟩
    | ⟨-, -, w, rfl, -⟩
  · have hpub := publishEvents_stage env inst ns r e w
    intro x hx
    simp only [List.mem_append, List.mem_cons, List.mem_nil_iff, or_false] at hx
    rcases hx with (hx | hx) | hx
    · subst hx; simp [Event.stage]
    · subst hx; simp [Event.stage]
    · have := hpub x hx; omega
  · intro x hx
    simp only [List.mem_cons, List.mem_nil_iff, or_false] at hx
    rcases hx with hx | hx | hx <;> subst hx <;> simp [Event.stage]
  · intro x hx
    simp only [List.mem_cons, List.mem_nil_iff, or_false] at hx
    rcases hx with hx | hx | hx | hx <;> subst hx <;> simp [Event.stage]
  · have hpub := publishEvents_stage env inst ns (alwaysRequeue env r) e w
    intro x hx
    simp only [List.mem_append, List.mem_cons, List.mem_nil_iff, or_false] at hx
    rcases hx with (hx | hx | hx | hx) | hx
    · subst hx; simp [Event.stage]
    · subst hx; simp [Event.stage]
    · subst hx; simp [Event.stage]
    · subst hx; simp [Event.stage]
    · have := hpub x hx; omega

/-- The events a pass appends after its prefix belong to the cluster-agent
reconcile and to later stages. -/
theorem PassCases.rest_stage {env : Env W} {inst : DatadogAgent} {errs : List Err}
    {rest : List Event} {res : Option (Result × Option Err)}
    (h : PassCases env inst errs rest res) : ∀ x ∈ rest, 6 ≤ x.stage := by
  rcases h with ⟨-, -, rfl⟩ | ⟨r, e, ns, h⟩
  · simp
  rcases h with ⟨-, w, rfl, -⟩ | ⟨-, sel, hsel, h⟩
  · have hpub := publishEvents_stage env inst ns r e w
    intro x hx
    simp only [List.mem_cons] at hx
    rcases hx with hx | hx
    · subst hx; simp [Event.stage]
    · have := hpub x hx; omega
  rcases h with ⟨ret, -, -, rfl⟩ | ⟨quiet, hq, h⟩
  · intro x hx
    simp only [List.mem_cons] at hx
    rcases hx with hx | hx
    · subst hx; simp [Event.stage]
    · have := hsel x hx; omega
  rcases h with ⟨prof, prov, r2, e2, ns2, w, -, rfl, -⟩ | ⟨fin, rfl, hfin⟩
  · have hpub := publishEvents_stage env inst ns2 r2 e2 w
    intro x hx
    simp only [List.mem_cons, List.mem_append] at hx
    rcases hx with hx | (hx | hx) | hx | hx
    · subst hx; simp [Event.stage]
    · have := hsel x hx; omega
    · have := hq x hx; omega
    · subst hx; simp [Event.stage]
    · have := hpub x hx; omega
  · have hf := hfin.finish_stage
    intro x hx
    simp only [List.mem_cons, List.mem_append] at hx
    rcases hx with hx | (hx | hx) | hx
    · subst hx; simp [Event.stage]
    · have := hsel x hx; omega
    · have := hq x hx; omega
    · have := hf x hx; omega

/-- A pass of `reconcileInstanceV2` only appends to the trace, and what it
appends are events of the feature build and of later stages. -/
theorem reconcileInstanceV2_trace (env : Env W) (inst : DatadogAgent) (s : St W) :
    ∃ evs, (reconcileInstanceV2 env inst s).2.trace = s.trace ++ evs
      ∧ ∀ e ∈ evs, 3 ≤ e.stage := by
  obtain ⟨rets, oerrs, rest, -, -, htr, h⟩ := reconcileInstanceV2_cases env inst s
  refine ⟨passPrefix env inst rets oerrs ++ rest, by rw [htr, List.append_assoc], ?_⟩
  intro x hx
  rw [List.mem_append] at hx
  rcases hx with hx | hx
  · exact (passPrefix_stage env inst rets oerrs x hx).1
  · have := h.rest_stage x hx; omega

/-! ## Fetch, validation and finalizer: claims C3, C4 and C5 -/

/-- C3: for every fetched DatadogAgent whose `Spec.Global` is nil or whose
`Spec.Global.Credentials` is nil, `internalReconcileV2` returns a non-nil
error and runs no later stage: the fetch is the only call of the pass (no
finalizer, no defaulting, no `BuildFeatures`, no `ManageDependencies`, no
workload reconcile, no dependency Apply or Cleanup). -/
theorem internalReconcileV2_missing_credentials_stops (env : Env W)
    (request : NamespacedName) (w : W) (inst : DatadogAgent)
    (hget : (env.clientGet request w).1 = .ok inst)
    (hcred : inst.Spec.Global = none
      ∨ ∃ g, inst.Spec.Global = some g ∧ g.Credentials = none) :
    (∃ res err, (internalReconcileV2 env request ⟨w, []⟩).1 = some (res, some err))
    ∧ (internalReconcileV2 env request ⟨w, []⟩).2.trace = [Event.clientGet request]
    ∧ (internalReconcileV2 env request ⟨w, []⟩).2.world = (env.clientGet request w).2 := by
  have hmissing : (inst.Spec.Global.isNone
      || (inst.Spec.Global.bind GlobalConfig.Credentials).isNone) = true := by
    rcases hcred with h | ⟨g, hg, hc⟩
    · simp [h]
    · simp [hg, hc]
  unfold internalReconcileV2
  simp only [hget, hmissing, if_true]
  exact ⟨⟨_, _, rfl⟩, rfl, rfl⟩

/-- C3, at a DatadogAgent without global configuration. -/
theorem internalReconcileV2_missing_credentials_stops_witness :
    (internalReconcileV2 (scenarioEnv { fetched := .ok agentWithoutCredentials })
      demoRequest ⟨0, []⟩).2.trace = [Event.clientGet demoRequest] :=
  (internalReconcileV2_missing_credentials_stops
    (scenarioEnv { fetched := .ok agentWithoutCredentials }) demoRequest 0
    agentWithoutCredentials rfl (Or.inl rfl)).2.1

/-- C4 fails as stated: at a fetched DatadogAgent without global configuration
the pass issues no status write and never invokes the status publisher, so no
Error condition reaches the status of the resource. -/
theorem missing_credentials_publishes_nothing :
    ((scenarioEnv { fetched := .ok agentWithoutCredentials }).clientGet demoRequest 0).1
        = .ok agentWithoutCredentials
    ∧ agentWithoutCredentials.Spec.Global = none
    ∧ ∀ e ∈ (internalReconcileV2 (scenarioEnv { fetched := .ok agentWithoutCredentials })
        demoRequest ⟨0, []⟩).2.trace, e.isStatusUpdate = false ∧ e.isPublish = false :=
  ⟨rfl, rfl, by decide⟩

/-- C4, amended: for every fetched DatadogAgent without global credentials,
`internalReconcileV2` surfaces the validation failure as the returned error
of the pass, with the zero result; it does not invoke the status publisher
and issues no status write. -/
theorem internalReconcileV2_missing_credentials_error_only (env : Env W)
    (request : NamespacedName) (w : W) (inst : DatadogAgent)
    (hget : (env.clientGet request w).1 = .ok inst)
    (hcred : inst.Spec.Global = none
      ∨ ∃ g, inst.Spec.Global = some g ∧ g.Credentials = none) :
    (internalReconcileV2 env request ⟨w, []⟩).1
        = some ({ Requeue := false, RequeueAfter := 0 }, some credentialsError)
    ∧ ∀ e ∈ (internalReconcileV2 env request ⟨w, []⟩).2.trace,
        e.isStatusUpdate = false ∧ e.isPublish = false := by
  have hmissing : (inst.Spec.Global.isNone
      || (inst.Spec.Global.bind GlobalConfig.Credentials).isNone) = true := by
    rcases hcred with h | ⟨g, hg, hc⟩
    · simp [h]
    · simp [hg, hc]
  unfold internalReconcileV2
  simp only [hget, hmissing, if_true]
  refine ⟨trivial, ?_⟩
  intro e he
  simp only [St.record_trace, List.nil_append, List.mem_singleton] at he
  subst he
  exact ⟨rfl, rfl⟩

/-- C4 amended, at a DatadogAgent whose global configuration has no
credentials. -/
theorem internalReconcileV2_missing_credentials_error_only_witness :
    (internalReconcileV2
      (scenarioEnv { fetched := .ok { agentWithoutCredentials with Spec := { Global := some {} } } })
      demoRequest ⟨0, []⟩).1
      = some ({ Requeue := false, RequeueAfter := 0 }, some credentialsError) :=
  (internalReconcileV2_missing_credentials_error_only
    (scenarioEnv { fetched := .ok { agentWithoutCredentials with Spec := { Global := some {} } } })
    demoRequest 0 { agentWithoutCredentials with Spec := { Global := some {} } } rfl
    (Or.inr ⟨{}, rfl, rfl⟩)).1

/-- C5 fails as stated: a fetched DatadogAgent that carries a deletion marker
but no global configuration never reaches the finalize routine; the pass ends
at the credentials validation with the fetch as its only call. -/
theorem deleting_without_credentials_skips_finalizer :
    agentDeletingWithoutCredentials.DeletionTimestamp = some 5
    ∧ ((scenarioEnv { fetched := .ok agentDeletingWithoutCredentials }).clientGet
        demoRequest 0).1 = .ok agentDeletingWithoutCredentials
    ∧ (∀ e ∈ (internalReconcileV2 (scenarioEnv { fetched := .ok agentDeletingWithoutCredentials })
        demoRequest ⟨0, []⟩).2.trace, e.isHandleFinalizer = false)
    ∧ (internalReconcileV2 (scenarioEnv { fetched := .ok agentDeletingWithoutCredentials })
        demoRequest ⟨0, []⟩).1
        = some ({ Requeue := false, RequeueAfter := 0 }, some credentialsError) :=
  ⟨rfl, rfl, by decide, by decide⟩

/-- C5, amended: for every fetched DatadogAgent whose global credentials are
present, deletion marker or not, `internalReconcileV2` calls the finalize
routine (`handleFinalizer` with `finalizeDadV2`) right after the fetch and
the credentials validation and before every other stage: the rest of the
trace holds defaulting and later stages only; when the finalize routine
signals stop, its result is returned and no further stage runs. -/
theorem internalReconcileV2_finalizer_after_validation (env : Env W)
    (request : NamespacedName) (w : W) (inst : DatadogAgent) (g : GlobalConfig)
    (c : DatadogCredentials)
    (hget : (env.clientGet request w).1 = .ok inst)
    (hg : inst.Spec.Global = some g) (hc : g.Credentials = some c) :
    ∃ rest : List Event,
      (internalReconcileV2 env request ⟨w, []⟩).2.trace
        = Event.clientGet request
          :: Event.handleFinalizer FinalizeFunc.finalizeDadV2
              (env.handleFinalizer inst FinalizeFunc.finalizeDadV2 (env.clientGet request w).2).1.1
              (env.handleFinalizer inst FinalizeFunc.finalizeDadV2 (env.clientGet request w).2).1.2
          :: rest
      ∧ (∀ e ∈ rest, 2 ≤ e.stage)
      ∧ (env.ShouldReturn
            (env.handleFinalizer inst FinalizeFunc.finalizeDadV2 (env.clientGet request w).2).1.1
            (env.handleFinalizer inst FinalizeFunc.finalizeDadV2 (env.clientGet request w).2).1.2
            = true →
          rest = []
          ∧ (internalReconcileV2 env request ⟨w, []⟩).1
            = some (env.handleFinalizer inst FinalizeFunc.finalizeDadV2
                (env.clientGet request w).2).1) := by
  have hpresent : (inst.Spec.Global.isNone
      || (inst.Spec.Global.bind GlobalConfig.Credentials).isNone) = false := by
    simp [hg, hc]
  unfold internalReconcileV2
  simp only [hget, hpresent, Bool.false_eq_true, if_false, St.record_world]
  generalize env.handleFinalizer inst FinalizeFunc.finalizeDadV2 (env.clientGet request w).2 = f
  by_cases hstop : env.ShouldReturn f.1.1 f.1.2 = true
  · rw [if_pos hstop]
    exact ⟨[], by simp, by simp, fun _ => ⟨rfl, rfl⟩⟩
  · rw [if_neg hstop]
    obtain ⟨evs, htr, hb⟩ := reconcileInstanceV2_trace env (env.DefaultDatadogAgent inst)
      ((((⟨w, []⟩ : St W).record (env.clientGet request w).2 (Event.clientGet request)).record
        f.2 (Event.handleFinalizer FinalizeFunc.finalizeDadV2 f.1.1 f.1.2)).record f.2
        Event.DefaultDatadogAgent)
    refine ⟨Event.DefaultDatadogAgent :: evs, ?_, ?_, fun h => absurd h hstop⟩
    · rw [htr]; simp
    · intro e he
      simp only [List.mem_cons] at he
      rcases he with he | he
      · subst he; simp [Event.stage]
      · have := hb e he; omega

/-- C5 amended, at a DatadogAgent with credentials whose finalizer asks for a
requeue: the finalizer result is returned. -/
theorem internalReconcileV2_finalizer_after_validation_witness :
    ∃ rest : List Event,
      (internalReconcileV2
        (scenarioEnv { fetched := .ok agentWithCredentials, finalizer := ({ Requeue := true }, none) })
        demoRequest ⟨0, []⟩).2.trace
        = Event.clientGet demoRequest
          :: Event.handleFinalizer FinalizeFunc.finalizeDadV2 { Requeue := true } none :: rest
      ∧ (∀ e ∈ rest, 2 ≤ e.stage)
      ∧ (ShouldReturn { Requeue := true } none = true →
          rest = []
          ∧ (internalReconcileV2
              (scenarioEnv { fetched := .ok agentWithCredentials,
                             finalizer := ({ Requeue := true }, none) })
              demoRequest ⟨0, []⟩).1 = some ({ Requeue := true }, none)) :=
  internalReconcileV2_finalizer_after_validation
    (scenarioEnv { fetched := .ok agentWithCredentials, finalizer := ({ Requeue := true }, none) })
    demoRequest 0 agentWithCredentials
    { Credentials := some { APIKey := some "key" } } { APIKey := some "key" } rfl rfl rfl

/-! ## Stop signals -/

/-- Only the workload reconciles can signal stop. -/
theorem Event.workloadStop_of_stage (env : Env W) (e : Event)
    (h : e.stage ≠ 6 ∧ e.stage ≠ 10 ∧ e.stage ≠ 12) : e.workloadStop env = false := by
  cases e <;> simp [Event.stage] at h <;> rfl

/-- The events of the status publisher are no stage of the pipeline and signal
no stop. -/
theorem publishEvents_quiet (env : Env W) (agentdeployment : DatadogAgent)
    (newStatus : DatadogAgentStatus) (result : Result) (currentError : Option Err)
    (w : W) :
    ∀ e ∈ publishEvents env agentdeployment newStatus result currentError w,
      e.isLaterStage = false ∧ e.workloadStop env = false := by
  intro e he
  unfold publishEvents at he
  split at he
  · simp at he; subst he; exact ⟨rfl, rfl⟩
  · simp at he; rcases he with he | he <;> subst he <;> exact ⟨rfl, rfl⟩

/-- An event that signals stop does not lie in a quiet part. -/
theorem stop_not_in_quiet (env : Env W) (tail : List Event) :
    ∀ (quiet : List Event), (∀ x ∈ quiet, x.workloadStop env = false) →
      ∀ (pre : List Event) (e : Event) (post : List Event),
        quiet ++ tail = pre ++ e :: post → e.workloadStop env = true →
        ∃ pre2, tail = pre2 ++ e :: post := by
  intro quiet
  induction quiet with
  | nil => intro _ pre e post h _; exact ⟨pre, by simpa using h⟩
  | cons a rest ih =>
    intro hq pre e post h hstop
    cases pre with
    | nil =>
      simp only [List.cons_append, List.nil_append, List.cons.injEq] at h
      have := hq a (List.mem_cons_self _ _)
      rw [h.1, hstop] at this
      exact absurd this (by simp)
    | cons p pre2 =>
      simp only [List.cons_append, List.cons.injEq] at h
      exact ih (fun x hx => hq x (List.mem_cons_of_mem _ hx)) pre2 e post h.2 hstop

/-- In a pass, what follows a workload reconcile that signals stop are the
events of the status publisher, called with the outcome of that reconcile. -/
theorem StopShape.after_stop {env : Env W} {inst : DatadogAgent} {evs : List Event}
    {res : Option (Result × Option Err)} (h : StopShape env inst evs res)
    (pre : List Event) (e : Event) (post : List Event) (heq : evs = pre ++ e :: post)
    (hstop : e.workloadStop env = true) :
    ∃ ns r err w, e.outcome = some (r, err, ns)
      ∧ post = publishEvents env inst ns r err w
      ∧ res = some (updateStatusIfNeededV2 env inst ns r err ⟨w, []⟩).1 := by
  obtain ⟨quiet, tail, hevs, hq, htail⟩ := h
  obtain ⟨pre2, hpre2⟩ := stop_not_in_quiet env tail quiet hq pre e post
    (by rw [← hevs, heq]) hstop
  rcases htail with rfl | ⟨last, ns, r, err, w, rfl, hout, -, hres⟩
  · simp at hpre2
  · cases pre2 with
    | nil =>
      simp only [List.nil_append, List.cons.injEq] at hpre2
      obtain ⟨rfl, rfl⟩ := hpre2
      exact ⟨ns, r, err, w, hout, rfl, hres⟩
    | cons p pre3 =>
      simp only [List.cons_append, List.cons.injEq] at hpre2
      have hmem : e ∈ publishEvents env inst ns r err w := by
        rw [hpre2.2]; simp
      have := (publishEvents_quiet env inst ns r err w e hmem).2
      rw [hstop] at this
      exact absurd this (by simp)

/-- The events of the pass prefix signal no stop. -/
theorem passPrefix_quiet (env : Env W) (inst : DatadogAgent) (rets : List (Option Err))
    (oerrs : List Err) :
    ∀ x ∈ passPrefix env inst rets oerrs, x.workloadStop env = false := by
  intro x hx
  have := passPrefix_stage env inst rets oerrs x hx
  exact Event.workloadStop_of_stage env x ⟨by omega, by omega, by omega⟩

/-- Every pass of `reconcileInstanceV2` has the shape `StopShape`. -/
theorem reconcileInstanceV2_stop_shape (env : Env W) (inst : DatadogAgent) (s : St W) :
    ∃ evs, (reconcileInstanceV2 env inst s).2.trace = s.trace ++ evs
      ∧ StopShape env inst evs (reconcileInstanceV2 env inst s).1 := by
  obtain ⟨rets, oerrs, rest, -, -, htr, h⟩ := reconcileInstanceV2_cases env inst s
  refine ⟨passPrefix env inst rets oerrs ++ rest, by rw [htr, List.append_assoc], ?_⟩
  have hp := passPrefix_quiet env inst rets oerrs
  rcases h with ⟨-, -, rfl⟩ | ⟨r, e, ns, h⟩
  · exact ⟨_, [], rfl, by simpa using hp, Or.inl rfl⟩
  rcases h with ⟨hstop, w, rfl, hres⟩ | ⟨hstop, sel, hsel, h⟩
  · exact ⟨_, _, rfl, hp, Or.inr ⟨_, ns, r, e, w, rfl, rfl, hstop, hres⟩⟩
  have hs : ∀ x ∈ sel, x.workloadStop env = false := fun x hx => by
    have := hsel x hx
    exact Event.workloadStop_of_stage env x ⟨by omega, by omega, by omega⟩
  rcases h with ⟨ret, -, -, rfl⟩ | ⟨quiet, hq, h⟩
  · refine ⟨_, [], (List.append_nil _).symm, ?_, Or.inl rfl⟩
    simp only [List.forall_mem_append, List.forall_mem_cons]
    exact ⟨hp, hstop, hs⟩
  have hq2 : ∀ x ∈ quiet, x.workloadStop env = false := fun x hx => (hq x hx).2
  rcases h with ⟨prof, prov, r2, e2, ns2, w, hstop2, rfl, hres⟩
    | ⟨fin, rfl, c, r2, e2, ns2, hfin⟩
  · refine ⟨passPrefix env inst rets oerrs ++ Event.reconcileV2ClusterAgent r e ns
      :: (sel ++ quiet), Event.reconcileV2Agent prof prov r2 e2 ns2
      :: publishEvents env inst ns2 r2 e2 w, by simp, ?_,
      Or.inr ⟨_, ns2, r2, e2, w, rfl, rfl, hstop2, hres⟩⟩
    simp only [List.forall_mem_append, List.forall_mem_cons]
    exact ⟨hp, hstop, hs, hq2⟩
  rcases hfin with ⟨hstop2, w, rfl, hres⟩ | ⟨hstop2, aerrs, -, rfl, -⟩
    | ⟨hstop2, -, cerrs, -, rfl, -⟩ | ⟨hstop2, -, w, rfl, -⟩
  · refine ⟨passPrefix env inst rets oerrs ++ Event.reconcileV2ClusterAgent r e ns
      :: (sel ++ quiet ++ [Event.cleanupExtraneousDaemonSets c]),
      Event.reconcileV2ClusterChecksRunner r2 e2 ns2 :: publishEvents env inst ns2 r2 e2 w,
      by simp, ?_, Or.inr ⟨_, ns2, r2, e2, w, rfl, rfl, hstop2, hres⟩⟩
    simp only [List.forall_mem_append, List.forall_mem_cons, List.not_mem_nil, false_implies,
      implies_true, and_true]
    exact ⟨hp, hstop, ⟨hs, hq2⟩, rfl⟩
  · refine ⟨_, [], (List.append_nil _).symm, ?_, Or.inl rfl⟩
    simp only [List.forall_mem_append, List.forall_mem_cons, List.not_mem_nil, false_implies,
      implies_true, and_true]
    exact ⟨hp, hstop, ⟨hs, hq2⟩, rfl, hstop2, rfl⟩
  · refine ⟨_, [], (List.append_nil _).symm, ?_, Or.inl rfl⟩
    simp only [List.forall_mem_append, List.forall_mem_cons, List.not_mem_nil, false_implies,
      implies_true, and_true]
    exact ⟨hp, hstop, ⟨hs, hq2⟩, rfl, hstop2, rfl, rfl⟩
  · refine ⟨_, [], (List.append_nil _).symm, ?_, Or.inl rfl⟩
    have hpub := publishEvents_quiet env inst ns2 (alwaysRequeue env r2) e2 w
    simp only [List.forall_mem_append, List.forall_mem_cons, List.not_mem_nil, false_implies,
      implies_true, and_true]
    exact ⟨hp, hstop, ⟨hs, hq2⟩, ⟨rfl, hstop2, rfl, rfl⟩, fun x hx => (hpub x hx).2⟩

/-! ## Reaching the dependency store -/

/-- A pass whose trace holds an Apply or a Cleanup of the dependency store
reached `finishPass`: what precedes are the cluster-agent, the node list,
the profiles and the node-agent reconciles, none of which signalled stop. -/
theorem PassCases.reach_finish {env : Env W} {inst : DatadogAgent} {errs : List Err}
    {rest : List Event} {res : Option (Result × Option Err)}
    (h : PassCases env inst errs rest res)
    (hx : ∃ x ∈ rest, 13 ≤ x.stage ∧ x.stage ≤ 14) :
    ∃ front fin, rest = front ++ fin
      ∧ (∀ x ∈ front, 6 ≤ x.stage ∧ x.stage ≤ 10 ∧ x.workloadStop env = false)
      ∧ FinishCases env inst errs fin res := by
  obtain ⟨x, hmem, hlo, hhi⟩ := hx
  rcases h with ⟨-, -, rfl⟩ | ⟨r, e, ns, h⟩
  · simp at hmem
  rcases h with ⟨-, w, rfl, -⟩ | ⟨hstop, sel, hsel, h⟩
  · have hpub := publishEvents_stage env inst ns r e w
    simp only [List.mem_cons] at hmem
    rcases hmem with hmem | hmem
    · subst hmem; simp [Event.stage] at hlo
    · have := hpub x hmem; omega
  rcases h with ⟨ret, -, -, rfl⟩ | ⟨quiet, hq, h⟩
  · simp only [List.mem_cons] at hmem
    rcases hmem with hmem | hmem
    · subst hmem; simp [Event.stage] at hlo
    · have := hsel x hmem; omega
  rcases h with ⟨prof, prov, r2, e2, ns2, w, -, rfl, -⟩ | ⟨fin, rfl, hfin⟩
  · have hpub := publishEvents_stage env inst ns2 r2 e2 w
    simp only [List.mem_cons, List.mem_append] at hmem
    rcases hmem with hmem | (hmem | hmem) | hmem | hmem
    · subst hmem; simp [Event.stage] at hlo
    · have := hsel x hmem; omega
    · have := hq x hmem; omega
    · subst hmem; simp [Event.stage] at hlo
    · have := hpub x hmem; omega
  · refine ⟨Event.reconcileV2ClusterAgent r e ns :: (sel ++ quiet), fin, by simp, ?_, hfin⟩
    simp only [List.forall_mem_append, List.forall_mem_cons]
    refine ⟨⟨by simp [Event.stage], by simp [Event.stage], hstop⟩, ?_, ?_⟩
    · intro y hy
      have := hsel y hy
      exact ⟨by omega, by omega,
        Event.workloadStop_of_stage env y ⟨by omega, by omega, by omega⟩⟩
    · intro y hy
      have := hq y hy
      exact ⟨by omega, by omega, this.2⟩

/-- When no status write of a call of the status publisher fails, the call
returns the `(result, currentError)` it was given. -/
theorem updateStatusIfNeededV2_of_no_failed_write (env : Env W)
    (agentdeployment : DatadogAgent) (newStatus : DatadogAgentStatus) (result : Result)
    (currentError : Option Err) (w : W)
    (h : ∀ x ∈ publishEvents env agentdeployment newStatus result currentError w,
      x.isFailedStatusUpdate = false) :
    (updateStatusIfNeededV2 env agentdeployment newStatus result currentError ⟨w, []⟩).1
      = (result, currentError) := by
  unfold updateStatusIfNeededV2
  unfold publishEvents at h
  by_cases heq : SemanticDeepEqual agentdeployment.Status
      (upsertedStatus env agentdeployment newStatus currentError w) = true
  · simp [heq]
  · simp only [Bool.not_eq_true] at heq
    simp only [heq, Bool.false_eq_true, if_false] at h
    simp only [St.record_world, heq, Bool.not_false, if_true]
    split
    · rename_i err herr
      have := h _ (List.mem_cons_of_mem _ (List.mem_singleton.mpr rfl))
      rw [herr] at this
      exact absurd this (by simp [Event.isFailedStatusUpdate])
    · rfl

/-- The `ManageDependencies` and override events of a pass are those of its
prefix. -/
theorem mem_passPrefix_of_stage (env : Env W) (inst : DatadogAgent)
    (rets : List (Option Err)) (oerrs : List Err) (rest : List Event)
    (hrest : ∀ x ∈ rest, 6 ≤ x.stage) (x : Event)
    (hx : x ∈ passPrefix env inst rets oerrs ++ rest) (hstage : x.stage ≤ 5) :
    x ∈ passPrefix env inst rets oerrs := by
  rw [List.mem_append] at hx
  rcases hx with hx | hx
  · exact hx
  · have := hrest x hx; omega

/-- A non-nil value returned by `ManageDependencies` in the prefix is among
the collected errors. -/
theorem manageDependencies_error_collected (env : Env W) (inst : DatadogAgent)
    (rets : List (Option Err)) (oerrs : List Err) (id : String) (e : Err)
    (h : Event.ManageDependencies id (some e) ∈ passPrefix env inst rets oerrs) :
    e ∈ rets.reduceOption := by
  simp only [passPrefix, List.cons_append, List.mem_cons, List.mem_append, List.mem_nil_iff,
    or_false, reduceCtorEq, false_or] at h
  obtain ⟨i, hi, heq⟩ := List.getElem_of_mem h
  simp only [List.getElem_zipWith, Event.ManageDependencies.injEq] at heq
  rw [List.reduceOption_mem_iff]
  rw [← heq.2]
  exact List.getElem_mem _

/-- The override event of the prefix carries the override errors. -/
theorem overrideDependencies_mem_prefix (env : Env W) (inst : DatadogAgent)
    (rets : List (Option Err)) (oerrs : List Err) (o : List Err)
    (h : Event.overrideDependencies o ∈ passPrefix env inst rets oerrs) : o = oerrs := by
  simp only [passPrefix, List.cons_append, List.mem_cons, List.mem_append, List.mem_nil_iff,
    or_false, reduceCtorEq, false_or, Event.overrideDependencies.injEq] at h
  rcases h with h | h
  · obtain ⟨i, hi, heq⟩ := List.getElem_of_mem h
    simp at heq
  · exact h

/-! ## The pass: claims C6, C7 and C8 -/

/-- C6: a pass of `reconcileInstanceV2` that completes every stage (its trace
holds the Cleanup of the dependency store returning no error, which is only
reached without an early stop and without a dependency error) and whose
status publish does not fail or conflict returns a nil error and a result
that schedules another pass: with `r` the result of the last stage, the
cluster-checks-runner reconcile, `RequeueAfter` is `defaultRequeuePeriod`
when `r` has `Requeue` false and `RequeueAfter` 0, and the result is `r`
unchanged otherwise.  An error of a stage signals stop. -/
theorem reconcileInstanceV2_complete_pass_requeues (env : Env W) (inst : DatadogAgent)
    (w : W)
    (herrstop : ∀ r e, env.ShouldReturn r (some e) = true)
    (hdone : Event.storeCleanup [] ∈ (reconcileInstanceV2 env inst ⟨w, []⟩).2.trace)
    (hwrite : ∀ x ∈ (reconcileInstanceV2 env inst ⟨w, []⟩).2.trace,
      x.isFailedStatusUpdate = false) :
    ∃ r ns, Event.reconcileV2ClusterChecksRunner r none ns ∈
        (reconcileInstanceV2 env inst ⟨w, []⟩).2.trace
      ∧ (reconcileInstanceV2 env inst ⟨w, []⟩).1
        = some (if r.Requeue = false ∧ r.RequeueAfter = 0 then
                  { r with RequeueAfter := env.defaultRequeuePeriod }
                else r, none) := by
  obtain ⟨rets, oerrs, rest, -, -, htr, hcases⟩ := reconcileInstanceV2_cases env inst ⟨w, []⟩
  simp only [List.nil_append] at htr
  rw [htr] at hdone hwrite ⊢
  have hrest : Event.storeCleanup [] ∈ rest := by
    rw [List.mem_append] at hdone
    rcases hdone with h | h
    · have := passPrefix_stage env inst rets oerrs _ h
      simp [Event.stage] at this
    · exact h
  obtain ⟨front, fin, rfl, hfront, hfin⟩ :=
    hcases.reach_finish ⟨_, hrest, by simp [Event.stage], by simp [Event.stage]⟩
  have hfinmem : Event.storeCleanup [] ∈ fin := by
    rw [List.mem_append] at hrest
    rcases hrest with h | h
    · have := hfront _ h
      simp [Event.stage] at this
    · exact h
  obtain ⟨c, r, e, ns, h⟩ := hfin
  rcases h with ⟨-, w2, rfl, -⟩ | ⟨-, aerrs, -, rfl, -⟩ | ⟨-, -, cerrs, hc, rfl, -⟩
    | ⟨hsr, -, w2, rfl, hres⟩
  · have hpub := publishEvents_stage env inst ns r e w2
    simp only [List.mem_append, List.mem_cons, List.mem_nil_iff, or_false, reduceCtorEq,
      false_or] at hfinmem
    have := hpub _ hfinmem
    simp [Event.stage] at this
  · simp at hfinmem
  · simp only [List.mem_cons, List.mem_nil_iff, or_false, reduceCtorEq, false_or,
      Event.storeCleanup.injEq] at hfinmem
    exact absurd hfinmem.symm hc
  · have he : e = none := by
      cases e with
      | none => rfl
      | some err => rw [herrstop r err] at hsr; exact absurd hsr (by simp)
    subst he
    refine ⟨r, ns, by simp, ?_⟩
    rw [hres, updateStatusIfNeededV2_of_no_failed_write]
    · have hreq : alwaysRequeue env r
          = if r.Requeue = false ∧ r.RequeueAfter = 0 then
              { r with RequeueAfter := env.defaultRequeuePeriod }
            else r := by
        unfold alwaysRequeue
        cases hq : r.Requeue <;> by_cases hz : r.RequeueAfter = 0 <;> simp [hz]
      rw [hreq]
    · intro x hmem
      exact hwrite x (by simp [hmem])

/-- C6, at a pass in which every collaborator succeeds: the default requeue
period is returned with no error. -/
theorem reconcileInstanceV2_complete_pass_requeues_witness :
    ∃ r ns, Event.reconcileV2ClusterChecksRunner r none ns ∈
        (reconcileInstanceV2 (scenarioEnv {}) agentWithCredentials ⟨0, []⟩).2.trace
      ∧ (reconcileInstanceV2 (scenarioEnv {}) agentWithCredentials ⟨0, []⟩).1
        = some (if r.Requeue = false ∧ r.RequeueAfter = 0 then
                  { r with RequeueAfter := (scenarioEnv {}).defaultRequeuePeriod }
                else r, none) :=
  reconcileInstanceV2_complete_pass_requeues (scenarioEnv {}) agentWithCredentials 0
    (fun _ _ => rfl) (by decide) (by decide)

/-- C7: for every list of active features, `reconcileInstanceV2` calls
`ManageDependencies` exactly once on every feature, in list order, whatever
the earlier calls returned: right after `BuildFeatures` the trace holds one
call per feature, with the values `rets` they returned, then the overrides,
and no call of `ManageDependencies` afterwards; the error list collected by
the loop is the sequence of the non-nil values among `rets`, in feature
order. -/
theorem reconcileInstanceV2_manages_every_feature (env : Env W) (inst : DatadogAgent)
    (w : W) :
    ∃ (rets : List (Option Err)) (oerrs : List Err) (rest : List Event),
      rets.length = (env.BuildFeatures inst env.options).1.length
      ∧ (reconcileInstanceV2 env inst ⟨w, []⟩).2.trace
          = Event.BuildFeatures
            :: List.zipWith (fun f r => Event.ManageDependencies f.ID r)
                (env.BuildFeatures inst env.options).1 rets
            ++ Event.overrideDependencies oerrs :: rest
      ∧ (∀ x ∈ rest, 6 ≤ x.stage)
      ∧ (manageDependenciesLoop env (env.BuildFeatures inst env.options).2
          (env.BuildFeatures inst env.options).1 []
          ((⟨w, []⟩ : St W).record w Event.BuildFeatures)).1 = rets.reduceOption := by
  obtain ⟨rets, oerrs, rest, hlen, herrs, htr, hcases⟩ :=
    reconcileInstanceV2_cases env inst ⟨w, []⟩
  refine ⟨rets, oerrs, rest, hlen, ?_, hcases.rest_stage, herrs⟩
  rw [htr]
  simp [passPrefix]

/-- C8 fails as stated: two features return an error from `ManageDependencies`
and the cluster-agent reconcile then asks for a requeue; the pass returns that
result with a nil error, and the feature errors are in no returned value. -/
theorem feature_errors_dropped_on_early_stop :
    Event.ManageDependencies "apm" (some (Err.other "apm rbac")) ∈
      (reconcileInstanceV2 (scenarioEnv scenarioFeatureErrorsThenStop) agentWithCredentials
        ⟨0, []⟩).2.trace
    ∧ Event.ManageDependencies "asm" (some (Err.other "asm secret")) ∈
      (reconcileInstanceV2 (scenarioEnv scenarioFeatureErrorsThenStop) agentWithCredentials
        ⟨0, []⟩).2.trace
    ∧ (reconcileInstanceV2 (scenarioEnv scenarioFeatureErrorsThenStop) agentWithCredentials
        ⟨0, []⟩).1 = some ({ Requeue := true, RequeueAfter := 0 }, none) := by
  decide

/-- C8, amended: for every pass of `reconcileInstanceV2` that reaches the
Apply of the dependency store (no earlier stage stopped the pass) and in
which a feature's `ManageDependencies` or the override step returned an
error, the pass returns a non-nil error that aggregates every error returned
by `ManageDependencies`, by the override step and by Apply. -/
theorem reconcileInstanceV2_apply_aggregates_errors (env : Env W) (inst : DatadogAgent)
    (w : W) (aerrs : List Err) (e : Err)
    (hreach : Event.storeApply aerrs ∈ (reconcileInstanceV2 env inst ⟨w, []⟩).2.trace)
    (herr : (∃ id, Event.ManageDependencies id (some e) ∈
          (reconcileInstanceV2 env inst ⟨w, []⟩).2.trace)
      ∨ (∃ oerrs, Event.overrideDependencies oerrs ∈
          (reconcileInstanceV2 env inst ⟨w, []⟩).2.trace ∧ e ∈ oerrs)) :
    ∃ r agg, (reconcileInstanceV2 env inst ⟨w, []⟩).1 = some (r, some agg)
      ∧ ∀ x, ((∃ id, Event.ManageDependencies id (some x) ∈
              (reconcileInstanceV2 env inst ⟨w, []⟩).2.trace)
          ∨ (∃ oerrs, Event.overrideDependencies oerrs ∈
              (reconcileInstanceV2 env inst ⟨w, []⟩).2.trace ∧ x ∈ oerrs)
          ∨ x ∈ aerrs) → x ∈ agg.Errors := by
  obtain ⟨rets, oerrs, rest, -, -, htr, hcases⟩ := reconcileInstanceV2_cases env inst ⟨w, []⟩
  simp only [List.nil_append] at htr
  rw [htr] at hreach herr ⊢
  have hstage := hcases.rest_stage
  have hcollected : ∀ x, ((∃ id, Event.ManageDependencies id (some x) ∈
        passPrefix env inst rets oerrs ++ rest)
      ∨ (∃ o, Event.overrideDependencies o ∈ passPrefix env inst rets oerrs ++ rest ∧ x ∈ o))
      → x ∈ rets.reduceOption ++ oerrs := by
    intro x hx
    rw [List.mem_append]
    rcases hx with ⟨id, hid⟩ | ⟨o, ho, hxo⟩
    · left
      exact manageDependencies_error_collected env inst rets oerrs id x
        (mem_passPrefix_of_stage env inst rets oerrs rest hstage _ hid (by simp [Event.stage]))
    · right
      have := overrideDependencies_mem_prefix env inst rets oerrs o
        (mem_passPrefix_of_stage env inst rets oerrs rest hstage _ ho (by simp [Event.stage]))
      rw [← this]; exact hxo
  have he : e ∈ rets.reduceOption ++ oerrs := hcollected e herr
  have hrest : Event.storeApply aerrs ∈ rest := by
    rw [List.mem_append] at hreach
    rcases hreach with h | h
    · have := passPrefix_stage env inst rets oerrs _ h
      simp [Event.stage] at this
    · exact h
  obtain ⟨front, fin, rfl, hfront, hfin⟩ :=
    hcases.reach_finish ⟨_, hrest, by simp [Event.stage], by simp [Event.stage]⟩
  have hfinmem : Event.storeApply aerrs ∈ fin := by
    rw [List.mem_append] at hrest
    rcases hrest with h | h
    · have := hfront _ h
      simp [Event.stage] at this
    · exact h
  obtain ⟨c, r, e2, ns, h⟩ := hfin
  rcases h with ⟨-, w2, rfl, -⟩ | ⟨-, aerrs2, hne, rfl, hres⟩ | ⟨-, hnil, cerrs, -, rfl, -⟩
    | ⟨-, hnil, w2, rfl, -⟩
  · have hpub := publishEvents_stage env inst ns r e2 w2
    simp only [List.mem_append, List.mem_cons, List.mem_nil_iff, or_false, reduceCtorEq,
      false_or] at hfinmem
    have := hpub _ hfinmem
    simp [Event.stage] at this
  · simp only [List.mem_cons, List.mem_nil_iff, or_false, reduceCtorEq, false_or,
      Event.storeApply.injEq] at hfinmem
    subst hfinmem
    cases hall : rets.reduceOption ++ oerrs ++ aerrs with
    | nil => exact absurd hall hne
    | cons a l =>
      refine ⟨r, Err.aggregate (a :: l), by rw [hres, hall]; rfl, ?_⟩
      intro x hx
      show x ∈ a :: l
      rw [← hall, List.mem_append]
      rcases hx with hx | hx | hx
      · exact Or.inl (hcollected x (Or.inl hx))
      · exact Or.inl (hcollected x (Or.inr hx))
      · exact Or.inr hx
  · rw [hnil] at he; simp at he
  · rw [hnil] at he; simp at he

/-- C8 amended, at a pass in which two features and the overrides fail and
the pass reaches Apply, which fails too. -/
theorem reconcileInstanceV2_apply_aggregates_errors_witness :
    ∃ r agg, (reconcileInstanceV2 (scenarioEnv scenarioFeatureErrorsThenApply)
        agentWithCredentials ⟨0, []⟩).1 = some (r, some agg)
      ∧ ∀ x, ((∃ id, Event.ManageDependencies id (some x) ∈
              (reconcileInstanceV2 (scenarioEnv scenarioFeatureErrorsThenApply)
                agentWithCredentials ⟨0, []⟩).2.trace)
          ∨ (∃ oerrs, Event.overrideDependencies oerrs ∈
              (reconcileInstanceV2 (scenarioEnv scenarioFeatureErrorsThenApply)
                agentWithCredentials ⟨0, []⟩).2.trace ∧ x ∈ oerrs)
          ∨ x ∈ [Err.conflict "apply"]) → x ∈ agg.Errors :=
  reconcileInstanceV2_apply_aggregates_errors (scenarioEnv scenarioFeatureErrorsThenApply)
    agentWithCredentials 0 [Err.conflict "apply"] (Err.other "apm rbac") (by decide)
    (Or.inl ⟨"apm", by decide⟩)

/-! ## Short-circuit: claims C9 and C10 -/

/-- C9 fails as stated: a pass stopped by an error of the node list returns
that error without invoking the status publisher, and so does a pass stopped
by an error of the dependency store's Apply. -/
theorem stop_outside_workloads_skips_status_publish :
    (Event.getNodeList (some (Err.other "list nodes failed")) ∈
        (reconcileInstanceV2 (scenarioEnv scenarioNodeListFails) agentWithCredentials
          ⟨0, []⟩).2.trace
      ∧ (reconcileInstanceV2 (scenarioEnv scenarioNodeListFails) agentWithCredentials
          ⟨0, []⟩).1
          = some ({ Requeue := false, RequeueAfter := 0 }, some (Err.other "list nodes failed"))
      ∧ ∀ x ∈ (reconcileInstanceV2 (scenarioEnv scenarioNodeListFails) agentWithCredentials
          ⟨0, []⟩).2.trace, x.isPublish = false ∧ x.isStatusUpdate = false)
    ∧ (Event.storeApply [Err.conflict "apply"] ∈
        (reconcileInstanceV2 (scenarioEnv scenarioApplyFails) agentWithCredentials
          ⟨0, []⟩).2.trace
      ∧ (reconcileInstanceV2 (scenarioEnv scenarioApplyFails) agentWithCredentials
          ⟨0, []⟩).1
          = some ({ Requeue := false, RequeueAfter := 0 },
              some (Err.aggregate [Err.conflict "apply"]))
      ∧ ∀ x ∈ (reconcileInstanceV2 (scenarioEnv scenarioApplyFails) agentWithCredentials
          ⟨0, []⟩).2.trace, x.isPublish = false ∧ x.isStatusUpdate = false) := by
  decide

/-- C9, amended: for every pass of `reconcileInstanceV2` that a workload
stage stops (the cluster-agent, a node-agent or the cluster-checks-runner
reconcile returns an error or an explicit early-return result), the status
computed so far is published: right after that reconcile, and as the last
thing the pass does, `updateStatusIfNeededV2` is invoked with `newStatus` as
the reconcile left it and with its result and error, and the pass returns
what that invocation returns. -/
theorem reconcileInstanceV2_workload_stop_publishes (env : Env W) (inst : DatadogAgent)
    (w : W) (pre : List Event) (e : Event) (post : List Event)
    (htrace : (reconcileInstanceV2 env inst ⟨w, []⟩).2.trace = pre ++ e :: post)
    (hstop : e.workloadStop env = true) :
    ∃ ns r err w2, e.outcome = some (r, err, ns)
      ∧ post = publishEvents env inst ns r err w2
      ∧ Event.updateStatusIfNeededV2 ns r err ∈ post
      ∧ (reconcileInstanceV2 env inst ⟨w, []⟩).1
          = some (updateStatusIfNeededV2 env inst ns r err ⟨w2, []⟩).1 := by
  obtain ⟨evs, htr, hshape⟩ := reconcileInstanceV2_stop_shape env inst ⟨w, []⟩
  simp only [List.nil_append] at htr
  obtain ⟨ns, r, err, w2, hout, hpost, hres⟩ :=
    hshape.after_stop pre e post (by rw [← htr, htrace]) hstop
  refine ⟨ns, r, err, w2, hout, hpost, ?_, hres⟩
  rw [hpost]
  simp [publishEvents]

/-- C9 amended, at a pass in which the node-agent reconcile returns an
error. -/
theorem reconcileInstanceV2_workload_stop_publishes_witness :
    ∃ ns r err w2,
      (Event.reconcileV2Agent {} "" {} (some (Err.other "daemonset update failed")) {}).outcome
        = some (r, err, ns)
      ∧ (reconcileInstanceV2 (scenarioEnv scenarioAgentFails) agentWithCredentials
          ⟨0, []⟩).2.trace.drop 4
          = publishEvents (scenarioEnv scenarioAgentFails) agentWithCredentials ns r err w2
      ∧ Event.updateStatusIfNeededV2 ns r err ∈
          (reconcileInstanceV2 (scenarioEnv scenarioAgentFails) agentWithCredentials
            ⟨0, []⟩).2.trace.drop 4
      ∧ (reconcileInstanceV2 (scenarioEnv scenarioAgentFails) agentWithCredentials ⟨0, []⟩).1
          = some (updateStatusIfNeededV2 (scenarioEnv scenarioAgentFails) agentWithCredentials
              ns r err ⟨w2, []⟩).1 :=
  reconcileInstanceV2_workload_stop_publishes (scenarioEnv scenarioAgentFails)
    agentWithCredentials 0
    ((reconcileInstanceV2 (scenarioEnv scenarioAgentFails) agentWithCredentials
      ⟨0, []⟩).2.trace.take 3)
    (Event.reconcileV2Agent {} "" {} (some (Err.other "daemonset update failed")) {})
    ((reconcileInstanceV2 (scenarioEnv scenarioAgentFails) agentWithCredentials
      ⟨0, []⟩).2.trace.drop 4)
    (by decide) (by decide)

/-- C10: in every pass of `reconcileInstanceV2`, once a workload stage (the
cluster-agent, a node-agent for some profile and provider, or the
cluster-checks-runner) signals stop, no later stage runs in that pass: what
follows in the trace holds no workload reconcile, no cleanup of extraneous
DaemonSets, no dependency Apply and no dependency Cleanup. -/
theorem reconcileInstanceV2_no_stage_after_workload_stop (env : Env W)
    (inst : DatadogAgent) (w : W) (pre : List Event) (e : Event) (post : List Event)
    (htrace : (reconcileInstanceV2 env inst ⟨w, []⟩).2.trace = pre ++ e :: post)
    (hstop : e.workloadStop env = true) :
    ∀ x ∈ post, x.isLaterStage = false := by
  obtain ⟨evs, htr, hshape⟩ := reconcileInstanceV2_stop_shape env inst ⟨w, []⟩
  simp only [List.nil_append] at htr
  obtain ⟨ns, r, err, w2, -, hpost, -⟩ :=
    hshape.after_stop pre e post (by rw [← htr, htrace]) hstop
  intro x hx
  rw [hpost] at hx
  exact (publishEvents_quiet env inst ns r err w2 x hx).1

/-- C10, at a pass in which the cluster-checks-runner reconcile asks for a
requeue: what follows it is no stage. -/
theorem reconcileInstanceV2_no_stage_after_workload_stop_witness :
    (Event.reconcileV2ClusterChecksRunner { RequeueAfter := 5 } none {}).workloadStop
        (scenarioEnv scenarioRunnerRequeues) = true
    ∧ ∀ x ∈ (reconcileInstanceV2 (scenarioEnv scenarioRunnerRequeues) agentWithCredentials
        ⟨0, []⟩).2.trace.drop 6, x.isLaterStage = false :=
  ⟨by decide,
   reconcileInstanceV2_no_stage_after_workload_stop (scenarioEnv scenarioRunnerRequeues)
    agentWithCredentials 0
    ((reconcileInstanceV2 (scenarioEnv scenarioRunnerRequeues) agentWithCredentials
      ⟨0, []⟩).2.trace.take 5)
    (Event.reconcileV2ClusterChecksRunner { RequeueAfter := 5 } none {})
    ((reconcileInstanceV2 (scenarioEnv scenarioRunnerRequeues) agentWithCredentials
      ⟨0, []⟩).2.trace.drop 6)
    (by decide) (by decide)⟩

/-! ## Profile resolution failure: claim C11 -/

/-- C11 (the code at the failing input): with profiles enabled and the list of
the profiles failing, `profilesToApply` returns the error, yet the pass goes
on with an empty profile list: it cleans up extraneous DaemonSets, reconciles
the cluster-checks-runner, applies and cleans up the dependency store and
returns the default requeue with a nil error.  Line 166 tests `err`, the nil
error of the cluster-agent reconcile, where it means `e`. -/
theorem profile_list_error_is_ignored :
    Event.listProfiles (some (Err.other "list profiles failed")) ∈
      (reconcileInstanceV2 (scenarioEnv scenarioProfileListFails) agentWithCredentials
        ⟨0, []⟩).2.trace
    ∧ (profilesToApply (scenarioEnv scenarioProfileListFails) [] 0 ⟨2, []⟩).1.2.2
        = some (Err.other "list profiles failed")
    ∧ (reconcileInstanceV2 (scenarioEnv scenarioProfileListFails) agentWithCredentials
        ⟨0, []⟩).1 = some ({ Requeue := false, RequeueAfter := 15 * Second }, none)
    ∧ Event.cleanupExtraneousDaemonSets none ∈
      (reconcileInstanceV2 (scenarioEnv scenarioProfileListFails) agentWithCredentials
        ⟨0, []⟩).2.trace
    ∧ Event.storeApply [] ∈
      (reconcileInstanceV2 (scenarioEnv scenarioProfileListFails) agentWithCredentials
        ⟨0, []⟩).2.trace
    ∧ Event.storeCleanup [] ∈
      (reconcileInstanceV2 (scenarioEnv scenarioProfileListFails) agentWithCredentials
        ⟨0, []⟩).2.trace := by
  decide

/-! ## Fetch errors and the written object: claims C18 and C19 -/

/-- C18: when fetching the DatadogAgent returns a not-found error,
`internalReconcileV2` returns the zero result and a nil error; when the fetch
returns any other error, it returns the zero result and that same error; in
both cases the fetch is the only call of the pass. -/
theorem internalReconcileV2_fetch_error (env : Env W) (request : NamespacedName) (w : W)
    (err : Err) (hget : (env.clientGet request w).1 = .error err) :
    (internalReconcileV2 env request ⟨w, []⟩).1
        = some ({ Requeue := false, RequeueAfter := 0 },
            if IsNotFound err = true then none else some err)
    ∧ (internalReconcileV2 env request ⟨w, []⟩).2.trace = [Event.clientGet request]
    ∧ (internalReconcileV2 env request ⟨w, []⟩).2.world = (env.clientGet request w).2 := by
  unfold internalReconcileV2
  simp only [hget]
  by_cases h : IsNotFound err = true
  · rw [if_pos h, if_pos h]; exact ⟨rfl, rfl, rfl⟩
  · rw [if_neg h, if_neg h]; exact ⟨rfl, rfl, rfl⟩

/-- C18, at a fetch that finds no DatadogAgent. -/
theorem internalReconcileV2_fetch_error_witness :
    (internalReconcileV2 (scenarioEnv { fetched := .error (Err.notFound "datadog") })
        demoRequest ⟨0, []⟩).1
        = some ({ Requeue := false, RequeueAfter := 0 },
            if IsNotFound (Err.notFound "datadog") = true then none
            else some (Err.notFound "datadog"))
    ∧ (internalReconcileV2 (scenarioEnv { fetched := .error (Err.notFound "datadog") })
        demoRequest ⟨0, []⟩).2.trace = [Event.clientGet demoRequest] :=
  ⟨(internalReconcileV2_fetch_error (scenarioEnv { fetched := .error (Err.notFound "datadog") })
      demoRequest 0 (Err.notFound "datadog") rfl).1,
   (internalReconcileV2_fetch_error (scenarioEnv { fetched := .error (Err.notFound "datadog") })
      demoRequest 0 (Err.notFound "datadog") rfl).2.1⟩

/-- C19: for every call of `updateStatusIfNeededV2` that issues a status write,
the object submitted to `Status().Update` equals `agentdeployment` in every
field except `Status` (name, namespace, deletion marker and `Spec` are those
of `agentdeployment`), and its `Status` is `newStatus` as it stands at the
write, that is with the conditions upserted. -/
theorem updateStatusIfNeededV2_writes_status_only (env : Env W)
    (agentdeployment : DatadogAgent) (newStatus : DatadogAgentStatus) (result : Result)
    (currentError : Option Err) (w : W) (obj : DatadogAgent) (ret : Option Err)
    (hwrite : Event.statusUpdate obj ret ∈
      (updateStatusIfNeededV2 env agentdeployment newStatus result currentError ⟨w, []⟩).2.trace) :
    obj.Name = agentdeployment.Name
    ∧ obj.Namespace = agentdeployment.Namespace
    ∧ obj.DeletionTimestamp = agentdeployment.DeletionTimestamp
    ∧ obj.Spec = agentdeployment.Spec
    ∧ obj.Status = upsertedStatus env agentdeployment newStatus currentError w := by
  rw [updateStatusIfNeededV2_trace] at hwrite
  unfold publishEvents at hwrite
  by_cases h : SemanticDeepEqual agentdeployment.Status
      (upsertedStatus env agentdeployment newStatus currentError w) = true
  · simp [h] at hwrite
  · simp only [Bool.not_eq_true] at h
    simp only [h, Bool.false_eq_true, if_false, List.nil_append, List.mem_cons,
      List.mem_singleton, List.mem_nil_iff, or_false, false_or, reduceCtorEq,
      Event.statusUpdate.injEq] at hwrite
    obtain ⟨hobj, -⟩ := hwrite
    subst hobj
    exact ⟨rfl, rfl, rfl, rfl, rfl⟩

/-- C19, at a status write for a DatadogAgent whose status holds no condition
yet. -/
theorem updateStatusIfNeededV2_writes_status_only_witness :
    ({ agentWithCredentials with Status := { Conditions := [reconcileOkCondition] } }
        : DatadogAgent).Spec = agentWithCredentials.Spec
    ∧ ({ agentWithCredentials with Status := { Conditions := [reconcileOkCondition] } }
        : DatadogAgent).Status
        = upsertedStatus (scenarioEnv {}) agentWithCredentials {} none 0 :=
  ⟨(updateStatusIfNeededV2_writes_status_only (scenarioEnv {}) agentWithCredentials {} {}
      none 0 { agentWithCredentials with Status := { Conditions := [reconcileOkCondition] } }
      none (by decide)).2.2.2.1,
   (updateStatusIfNeededV2_writes_status_only (scenarioEnv {}) agentWithCredentials {} {}
      none 0 { agentWithCredentials with Status := { Conditions := [reconcileOkCondition] } }
      none (by decide)).2.2.2.2⟩

/-! ## Order of the stages -/

/-- A list whose events all lie in one phase is ordered by phase. -/
theorem pairwise_phase_const (l : List Event) (k : Nat) (h : ∀ x ∈ l, x.phase = k) :
    l.Pairwise (fun a b => a.phase ≤ b.phase) := by
  rw [List.pairwise_iff_forall_sublist]
  intro a b hab
  have ha := h a (hab.subset (by simp))
  have hb := h b (hab.subset (by simp))
  omega

/-- Two lists ordered by phase, the first below `k` and the second above it,
concatenate to a list ordered by phase. -/
theorem pairwise_phase_append (l₁ l₂ : List Event) (k : Nat)
    (h₁ : l₁.Pairwise (fun a b => a.phase ≤ b.phase))
    (h₂ : l₂.Pairwise (fun a b => a.phase ≤ b.phase))
    (hb₁ : ∀ x ∈ l₁, x.phase ≤ k) (hb₂ : ∀ y ∈ l₂, k ≤ y.phase) :
    (l₁ ++ l₂).Pairwise (fun a b => a.phase ≤ b.phase) := by
  rw [List.pairwise_append]
  refine ⟨h₁, h₂, ?_⟩
  intro a ha b hb
  have := hb₁ a ha
  have := hb₂ b hb
  omega

/-- The events of the status publisher lie in the last phase. -/
theorem publishEvents_phase (env : Env W) (agentdeployment : DatadogAgent)
    (newStatus : DatadogAgentStatus) (result : Result) (currentError : Option Err)
    (w : W) :
    ∀ e ∈ publishEvents env agentdeployment newStatus result currentError w, e.phase = 4 := by
  intro e he
  have := publishEvents_stage env agentdeployment newStatus result currentError w e he
  unfold Event.phase
  simp only [show ¬ e.stage ≤ 5 by omega, show ¬ e.stage ≤ 12 by omega,
    show ¬ e.stage = 13 by omega, show ¬ e.stage = 14 by omega, if_false]

/-- An event between the cluster-agent reconcile and the cluster-checks-runner
reconcile lies in phase 1. -/
theorem Event.phase_of_stage_workload (e : Event) (h : 6 ≤ e.stage ∧ e.stage ≤ 12) :
    e.phase = 1 := by
  unfold Event.phase
  simp only [show ¬ e.stage ≤ 5 by omega, show e.stage ≤ 12 by omega, if_false, if_true]

/-- The events of the pass prefix lie in phase 0. -/
theorem passPrefix_phase (env : Env W) (inst : DatadogAgent) (rets : List (Option Err))
    (oerrs : List Err) : ∀ x ∈ passPrefix env inst rets oerrs, x.phase = 0 := by
  intro x hx
  have := passPrefix_stage env inst rets oerrs x hx
  unfold Event.phase
  simp only [show x.stage ≤ 5 by omega, if_true]

/-- The events `finishPass` appends are ordered by phase and lie in phase 1
or later. -/
theorem FinishCases.finish_phase {env : Env W} {inst : DatadogAgent} {errs : List Err}
    {fin : List Event} {res : Option (Result × Option Err)}
    (h : FinishCases env inst errs fin res) :
    fin.Pairwise (fun a b => a.phase ≤ b.phase) ∧ ∀ x ∈ fin, 1 ≤ x.phase := by
  obtain ⟨c, r, e, ns, h⟩ := h
  rcases h with ⟨-, w, rfl, -⟩ | ⟨-, aerrs, -, rfl, -⟩ | ⟨-, -, cerrs, -, rfl, -⟩
    | ⟨-, -, w, rfl, -⟩
  · have hpub := publishEvents_phase env inst ns r e w
    constructor
    · refine pairwise_phase_append _ _ 1 (pairwise_phase_const _ 1 ?_)
        (pairwise_phase_const _ 4 hpub) ?_ ?_
      · intro x hx
        simp only [List.mem_cons, List.mem_nil_iff, or_false] at hx
        rcases hx with hx | hx <;> subst hx <;> rfl
      · intro x hx
        simp only [List.mem_cons, List.mem_nil_iff, or_false] at hx
        rcases hx with hx | hx <;> subst hx <;> simp [Event.phase, Event.stage]
      · intro x hx; rw [hpub x hx]; omega
    · intro x hx
      simp only [List.mem_append, List.mem_cons, List.mem_nil_iff, or_false] at hx
      rcases hx with (hx | hx) | hx
      · subst hx; simp [Event.phase, Event.stage]
      · subst hx; simp [Event.phase, Event.stage]
      · rw [hpub x hx]; omega
  · constructor
    · simp [List.pairwise_cons, Event.phase, Event.stage]
    · intro x hx
      simp only [List.mem_cons, List.mem_nil_iff, or_false] at hx
      rcases hx with hx | hx | hx <;> subst hx <;> simp [Event.phase, Event.stage]
  · constructor
    · simp [List.pairwise_cons, Event.phase, Event.stage]
    · intro x hx
      simp only [List.mem_cons, List.mem_nil_iff, or_false] at hx
      rcases hx with hx | hx | hx | hx <;> subst hx <;> simp [Event.phase, Event.stage]
  · have hpub := publishEvents_phase env inst ns (alwaysRequeue env r) e w
    constructor
    · refine pairwise_phase_append _ _ 3 ?_ (pairwise_phase_const _ 4 hpub) ?_ ?_
      · simp [List.pairwise_cons, Event.phase, Event.stage]
      · intro x hx
        simp only [List.mem_cons, List.mem_nil_iff, or_false] at hx
        rcases hx with hx | hx | hx | hx <;> subst hx <;> simp [Event.phase, Event.stage]
      · intro x hx; rw [hpub x hx]; omega
    · intro x hx
      simp only [List.mem_append, List.mem_cons, List.mem_nil_iff, or_false] at hx
      rcases hx with (hx | hx | hx | hx) | hx
      · subst hx; simp [Event.phase, Event.stage]
      · subst hx; simp [Event.phase, Event.stage]
      · subst hx; simp [Event.phase, Event.stage]
      · subst hx; simp [Event.phase, Event.stage]
      · rw [hpub x hx]; omega

/-- The events a pass appends after its prefix are ordered by phase and lie in
phase 1 or later. -/
theorem PassCases.rest_phase {env : Env W} {inst : DatadogAgent} {errs : List Err}
    {rest : List Event} {res : Option (Result × Option Err)}
    (h : PassCases env inst errs rest res) :
    rest.Pairwise (fun a b => a.phase ≤ b.phase) ∧ ∀ x ∈ rest, 1 ≤ x.phase := by
  rcases h with ⟨-, -, rfl⟩ | ⟨r, e, ns, h⟩
  · simp
  have hca : (Event.reconcileV2ClusterAgent r e ns).phase = 1 := rfl
  rcases h with ⟨-, w, rfl, -⟩ | ⟨-, sel, hsel, h⟩
  · have hpub := publishEvents_phase env inst ns r e w
    constructor
    · refine pairwise_phase_append [Event.reconcileV2ClusterAgent r e ns] _ 1
        (pairwise_phase_const _ 1 ?_) (pairwise_phase_const _ 4 hpub) ?_ ?_
      · intro x hx; simp only [List.mem_singleton] at hx; subst hx; rfl
      · intro x hx; simp only [List.mem_singleton] at hx; subst hx; rw [hca]
      · intro x hx; rw [hpub x hx]; omega
    · intro x hx
      simp only [List.mem_cons] at hx
      rcases hx with hx | hx
      · subst hx; rw [hca]
      · rw [hpub x hx]; omega
  have hselp : ∀ x ∈ sel, x.phase = 1 := fun x hx =>
    Event.phase_of_stage_workload x (by have := hsel x hx; omega)
  rcases h with ⟨ret, -, -, rfl⟩ | ⟨quiet, hq, h⟩
  · have hall : ∀ x ∈ Event.reconcileV2ClusterAgent r e ns :: sel, x.phase = 1 := by
      intro x hx
      simp only [List.mem_cons] at hx
      rcases hx with hx | hx
      · subst hx; rfl
      · exact hselp x hx
    exact ⟨pairwise_phase_const _ 1 hall, fun x hx => by rw [hall x hx]⟩
  have hqp : ∀ x ∈ quiet, x.phase = 1 := fun x hx =>
    Event.phase_of_stage_workload x (by have := hq x hx; omega)
  have hfront : ∀ x ∈ Event.reconcileV2ClusterAgent r e ns :: (sel ++ quiet), x.phase = 1 := by
    intro x hx
    simp only [List.mem_cons, List.mem_append] at hx
    rcases hx with hx | hx | hx
    · subst hx; rfl
    · exact hselp x hx
    · exact hqp x hx
  rcases h with ⟨prof, prov, r2, e2, ns2, w, -, rfl, -⟩ | ⟨fin, rfl, hfin⟩
  · have hpub := publishEvents_phase env inst ns2 r2 e2 w
    have heq : Event.reconcileV2ClusterAgent r e ns :: (sel ++ quiet
          ++ Event.reconcileV2Agent prof prov r2 e2 ns2 :: publishEvents env inst ns2 r2 e2 w)
        = (Event.reconcileV2ClusterAgent r e ns :: (sel ++ quiet)
            ++ [Event.reconcileV2Agent prof prov r2 e2 ns2])
          ++ publishEvents env inst ns2 r2 e2 w := by simp
    have hleft : ∀ x ∈ Event.reconcileV2ClusterAgent r e ns :: (sel ++ quiet)
        ++ [Event.reconcileV2Agent prof prov r2 e2 ns2], x.phase = 1 := by
      intro x hx
      rw [List.mem_append] at hx
      rcases hx with hx | hx
      · exact hfront x hx
      · simp only [List.mem_singleton] at hx; subst hx; rfl
    rw [heq]
    constructor
    · exact pairwise_phase_append _ _ 1 (pairwise_phase_const _ 1 hleft)
        (pairwise_phase_const _ 4 hpub) (fun x hx => by rw [hleft x hx])
        (fun x hx => by rw [hpub x hx]; omega)
    · intro x hx
      rw [List.mem_append] at hx
      rcases hx with hx | hx
      · rw [hleft x hx]
      · rw [hpub x hx]; omega
  · obtain ⟨hfp, hfb⟩ := hfin.finish_phase
    have heq : Event.reconcileV2ClusterAgent r e ns :: (sel ++ quiet ++ fin)
        = (Event.reconcileV2ClusterAgent r e ns :: (sel ++ quiet)) ++ fin := by simp
    rw [heq]
    constructor
    · exact pairwise_phase_append _ _ 1 (pairwise_phase_const _ 1 hfront) hfp
        (fun x hx => by rw [hfront x hx]) hfb
    · intro x hx
      rw [List.mem_append] at hx
      rcases hx with hx | hx
      · rw [hfront x hx]
      · exact hfb x hx

/-- The trace of a pass of `reconcileInstanceV2` is ordered by phase:
dependency declaration, workload reconciles, Apply, Cleanup, status
publish. -/
theorem reconcileInstanceV2_phase_sorted (env : Env W) (inst : DatadogAgent) (w : W) :
    (reconcileInstanceV2 env inst ⟨w, []⟩).2.trace.Pairwise
      (fun a b => a.phase ≤ b.phase) := by
  obtain ⟨rets, oerrs, rest, -, -, htr, hcases⟩ := reconcileInstanceV2_cases env inst ⟨w, []⟩
  simp only [List.nil_append] at htr
  rw [htr]
  obtain ⟨hp, hb⟩ := hcases.rest_phase
  have hpre := passPrefix_phase env inst rets oerrs
  exact pairwise_phase_append _ _ 0 (pairwise_phase_const _ 0 hpre) hp
    (fun x hx => by rw [hpre x hx]) (fun x _ => Nat.zero_le _)

/-- In a list ordered by phase, what follows an event lies in its phase or a
later one. -/
theorem phase_le_of_split (l pre post : List Event) (x : Event)
    (h : l.Pairwise (fun a b => a.phase ≤ b.phase)) (heq : l = pre ++ x :: post) :
    ∀ y ∈ post, x.phase ≤ y.phase := by
  subst heq
  rw [List.pairwise_append] at h
  exact (List.pairwise_cons.mp h.2.1).1

/-- Only `ManageDependencies`, the overrides and the Apply of the store can
report a dependency error. -/
theorem Event.reportsDependencyError_of_stage (e : Event)
    (h : e.stage ≠ 4 ∧ e.stage ≠ 5 ∧ e.stage ≠ 13) : e.reportsDependencyError = false := by
  cases e <;> simp [Event.stage] at h <;> rfl

/-- Only an event of stage 14 is a Cleanup of the store. -/
theorem Event.isStoreCleanup_of_stage (e : Event) (h : e.stage ≠ 14) :
    e.isStoreCleanup = false := by
  cases e <;> simp [Event.stage] at h <;> rfl

/-- The pass prefix reports no dependency error when no error was collected. -/
theorem passPrefix_reports_none (env : Env W) (inst : DatadogAgent)
    (rets : List (Option Err)) (oerrs : List Err)
    (h : rets.reduceOption ++ oerrs = []) :
    ∀ x ∈ passPrefix env inst rets oerrs, x.reportsDependencyError = false := by
  obtain ⟨hr, ho⟩ := List.append_eq_nil.mp h
  intro x hx
  cases x with
  | ManageDependencies id r =>
    cases r with
    | none => rfl
    | some e =>
      have := manageDependencies_error_collected env inst rets oerrs id e hx
      rw [hr] at this
      simp at this
  | overrideDependencies o =>
    have := overrideDependencies_mem_prefix env inst rets oerrs o hx
    rw [this, ho]; rfl
  | storeApply a =>
    have := passPrefix_stage env inst rets oerrs _ hx
    simp [Event.stage] at this
  | _ => rfl

/-- A pass either never calls the Cleanup of the dependency store, or calls it
once, right after an Apply that returned no error, in a trace that reports no
dependency error. -/
theorem reconcileInstanceV2_cleanup_cases (env : Env W) (inst : DatadogAgent) (w : W) :
    (∀ x ∈ (reconcileInstanceV2 env inst ⟨w, []⟩).2.trace, x.isStoreCleanup = false)
    ∨ ∃ (before : List Event) (cerrs : List Err) (after : List Event),
      (reconcileInstanceV2 env inst ⟨w, []⟩).2.trace
          = before ++ [Event.storeApply [], Event.storeCleanup cerrs] ++ after
      ∧ (∀ x ∈ before, x.isStoreCleanup = false ∧ x.reportsDependencyError = false)
      ∧ (∀ x ∈ after, x.isStoreCleanup = false ∧ x.reportsDependencyError = false) := by
  by_cases hnone : ∀ x ∈ (reconcileInstanceV2 env inst ⟨w, []⟩).2.trace,
      x.isStoreCleanup = false
  · exact Or.inl hnone
  right
  simp only [not_forall, Bool.not_eq_false] at hnone
  obtain ⟨x, hx, hxc⟩ := hnone
  have hx14 : x.stage = 14 := by
    cases x <;> simp [Event.isStoreCleanup] at hxc
    rfl
  obtain ⟨rets, oerrs, rest, -, -, htr, hcases⟩ := reconcileInstanceV2_cases env inst ⟨w, []⟩
  simp only [List.nil_append] at htr
  rw [htr] at hx ⊢
  have hxrest : x ∈ rest := by
    rw [List.mem_append] at hx
    rcases hx with h | h
    · have := passPrefix_stage env inst rets oerrs _ h; omega
    · exact h
  obtain ⟨front, fin, rfl, hfront, hfin⟩ :=
    hcases.reach_finish ⟨x, hxrest, by omega, by omega⟩
  have hxfin : x ∈ fin := by
    rw [List.mem_append] at hxrest
    rcases hxrest with h | h
    · have := hfront _ h; omega
    · exact h
  have hfrontq : ∀ y ∈ front, y.isStoreCleanup = false ∧ y.reportsDependencyError = false := by
    intro y hy
    have := hfront y hy
    exact ⟨Event.isStoreCleanup_of_stage y (by omega),
      Event.reportsDependencyError_of_stage y ⟨by omega, by omega, by omega⟩⟩
  have hprefq : rets.reduceOption ++ oerrs = [] →
      ∀ y ∈ passPrefix env inst rets oerrs,
        y.isStoreCleanup = false ∧ y.reportsDependencyError = false := by
    intro hnil y hy
    have := passPrefix_stage env inst rets oerrs y hy
    exact ⟨Event.isStoreCleanup_of_stage y (by omega),
      passPrefix_reports_none env inst rets oerrs hnil y hy⟩
  obtain ⟨c, r, e, ns, h⟩ := hfin
  rcases h with ⟨-, w2, rfl, -⟩ | ⟨-, aerrs, -, rfl, -⟩ | ⟨-, hnil, cerrs, -, rfl, -⟩
    | ⟨-, hnil, w2, rfl, -⟩
  · have hpub := publishEvents_stage env inst ns r e w2
    simp only [List.mem_append, List.mem_cons, List.mem_nil_iff, or_false] at hxfin
    rcases hxfin with (h | h) | h
    · subst h; simp [Event.stage] at hx14
    · subst h; simp [Event.stage] at hx14
    · have := hpub x h; omega
  · simp only [List.mem_cons, List.mem_nil_iff, or_false] at hxfin
    rcases hxfin with h | h | h <;> subst h <;> simp [Event.stage] at hx14
  · refine ⟨passPrefix env inst rets oerrs ++ front
        ++ [Event.cleanupExtraneousDaemonSets c, Event.reconcileV2ClusterChecksRunner r e ns],
      cerrs, [], by simp, ?_, by simp⟩
    simp only [List.forall_mem_append, List.forall_mem_cons, List.not_mem_nil, false_implies,
      implies_true, and_true]
    exact ⟨⟨hprefq hnil, hfrontq⟩, ⟨rfl, rfl⟩, rfl, rfl⟩
  · have hpub := publishEvents_stage env inst ns (alwaysRequeue env r) e w2
    refine ⟨passPrefix env inst rets oerrs ++ front
        ++ [Event.cleanupExtraneousDaemonSets c, Event.reconcileV2ClusterChecksRunner r e ns],
      [], publishEvents env inst ns (alwaysRequeue env r) e w2, by simp, ?_, ?_⟩
    · simp only [List.forall_mem_append, List.forall_mem_cons, List.not_mem_nil,
        false_implies, implies_true, and_true]
      exact ⟨⟨hprefq hnil, hfrontq⟩, ⟨rfl, rfl⟩, rfl, rfl⟩
    · intro y hy
      have := hpub y hy
      exact ⟨Event.isStoreCleanup_of_stage y (by omega),
        Event.reportsDependencyError_of_stage y ⟨by omega, by omega, by omega⟩⟩

/-! ## The dependency store and the order of the stages: claims C12 and C13 -/

/-- C12: in every pass of `reconcileInstanceV2` the Cleanup of the dependency
store is invoked at most once, only after the Apply of the store has returned
(an Apply without error precedes it in the trace), and only in a pass in
which no `ManageDependencies` call, no override and no Apply reported an
error: when any of them did, the trace holds no Cleanup. -/
theorem reconcileInstanceV2_cleanup_once_after_clean_apply (env : Env W)
    (inst : DatadogAgent) (w : W) :
    ((reconcileInstanceV2 env inst ⟨w, []⟩).2.trace.filter Event.isStoreCleanup).length ≤ 1
    ∧ (∀ pre cerrs post,
        (reconcileInstanceV2 env inst ⟨w, []⟩).2.trace
          = pre ++ Event.storeCleanup cerrs :: post →
        Event.storeApply [] ∈ pre)
    ∧ ((∃ x ∈ (reconcileInstanceV2 env inst ⟨w, []⟩).2.trace,
          x.reportsDependencyError = true) →
        ∀ y ∈ (reconcileInstanceV2 env inst ⟨w, []⟩).2.trace, y.isStoreCleanup = false) := by
  have hsorted := reconcileInstanceV2_phase_sorted env inst w
  rcases reconcileInstanceV2_cleanup_cases env inst w with hnone
    | ⟨before, c, after, htr, hbefore, hafter⟩
  · refine ⟨?_, ?_, fun _ => hnone⟩
    · rw [List.filter_eq_nil_iff.mpr (fun a ha => by simp [hnone a ha])]
      simp
    · intro pre cerrs post heq
      have := hnone (Event.storeCleanup cerrs) (by rw [heq]; simp)
      simp [Event.isStoreCleanup] at this
  · refine ⟨?_, ?_, ?_⟩
    · have hb : before.filter Event.isStoreCleanup = [] :=
        List.filter_eq_nil_iff.mpr (fun a ha => by simp [(hbefore a ha).1])
      have ha : after.filter Event.isStoreCleanup = [] :=
        List.filter_eq_nil_iff.mpr (fun a ha => by simp [(hafter a ha).1])
      rw [htr, List.filter_append, List.filter_append, hb, ha]
      simp [List.filter, Event.isStoreCleanup]
    · intro pre cerrs post heq
      have hle := phase_le_of_split _ pre post _ hsorted heq
      have hmem : Event.storeApply [] ∈ pre ++ Event.storeCleanup cerrs :: post := by
        rw [← heq, htr]; simp
      simp only [List.mem_append, List.mem_cons, reduceCtorEq, false_or] at hmem
      rcases hmem with h | h
      · exact h
      · have := hle _ h
        simp [Event.phase, Event.stage] at this
    · rintro ⟨x, hx, hxr⟩
      rw [htr] at hx
      simp only [List.mem_append, List.mem_cons, List.mem_nil_iff, or_false] at hx
      rcases hx with (h | h | h) | h
      · rw [(hbefore x h).2] at hxr; exact absurd hxr (by simp)
      · subst h; simp [Event.reportsDependencyError] at hxr
      · subst h; simp [Event.reportsDependencyError] at hxr
      · rw [(hafter x h).2] at hxr; exact absurd hxr (by simp)

/-- C12, at a complete pass with one feature: the Cleanup at position 8 of the
trace has the Apply before it. -/
theorem reconcileInstanceV2_cleanup_once_after_clean_apply_witness :
    ((reconcileInstanceV2 (scenarioEnv scenarioOneFeature) agentWithCredentials
        ⟨0, []⟩).2.trace.filter Event.isStoreCleanup).length ≤ 1
    ∧ Event.storeApply [] ∈
      (reconcileInstanceV2 (scenarioEnv scenarioOneFeature) agentWithCredentials
        ⟨0, []⟩).2.trace.take 8 :=
  ⟨(reconcileInstanceV2_cleanup_once_after_clean_apply (scenarioEnv scenarioOneFeature)
      agentWithCredentials 0).1,
   (reconcileInstanceV2_cleanup_once_after_clean_apply (scenarioEnv scenarioOneFeature)
      agentWithCredentials 0).2.1
      ((reconcileInstanceV2 (scenarioEnv scenarioOneFeature) agentWithCredentials
        ⟨0, []⟩).2.trace.take 8) []
      ((reconcileInstanceV2 (scenarioEnv scenarioOneFeature) agentWithCredentials
        ⟨0, []⟩).2.trace.drop 9) (by decide)⟩

/-- C13: in the trace of every pass of `reconcileInstanceV2` no
`ManageDependencies` call follows a workload reconcile (cluster-agent,
node-agent, cluster-checks-runner), no workload reconcile follows the Apply of
the dependency store, no Apply follows the Cleanup of the store, and no
Cleanup follows the invocation of the status publisher. -/
theorem reconcileInstanceV2_stage_order (env : Env W) (inst : DatadogAgent) (w : W)
    (pre : List Event) (x : Event) (post : List Event)
    (htrace : (reconcileInstanceV2 env inst ⟨w, []⟩).2.trace = pre ++ x :: post) :
    ∀ y ∈ post,
      (x.isWorkload = true → y.isManageDependencies = false)
      ∧ (x.isStoreApply = true → y.isWorkload = false)
      ∧ (x.isStoreCleanup = true → y.isStoreApply = false)
      ∧ (x.isPublish = true → y.isStoreCleanup = false) := by
  intro y hy
  have hle := phase_le_of_split _ pre post x
    (reconcileInstanceV2_phase_sorted env inst w) htrace y hy
  refine ⟨?_, ?_, ?_, ?_⟩
  · intro hx
    cases x <;> simp [Event.isWorkload] at hx <;>
      cases y <;> simp [Event.phase, Event.stage] at hle <;> rfl
  · intro hx
    cases x <;> simp [Event.isStoreApply] at hx
    cases y <;> simp [Event.phase, Event.stage] at hle <;> rfl
  · intro hx
    cases x <;> simp [Event.isStoreCleanup] at hx
    cases y <;> simp [Event.phase, Event.stage] at hle <;> rfl
  · intro hx
    cases x <;> simp [Event.isPublish] at hx
    cases y <;> simp [Event.phase, Event.stage] at hle <;> rfl

/-- C13, at a complete pass with one feature: the Cleanup that follows the
Apply (position 7 of the trace) is no workload reconcile. -/
theorem reconcileInstanceV2_stage_order_witness :
    Event.storeCleanup [] ∈
      (reconcileInstanceV2 (scenarioEnv scenarioOneFeature) agentWithCredentials
        ⟨0, []⟩).2.trace.drop 8
    ∧ (Event.storeCleanup []).isWorkload = false :=
  ⟨by decide,
   (reconcileInstanceV2_stage_order (scenarioEnv scenarioOneFeature) agentWithCredentials 0
      ((reconcileInstanceV2 (scenarioEnv scenarioOneFeature) agentWithCredentials
        ⟨0, []⟩).2.trace.take 7) (Event.storeApply [])
      ((reconcileInstanceV2 (scenarioEnv scenarioOneFeature) agentWithCredentials
        ⟨0, []⟩).2.trace.drop 8) (by decide) (Event.storeCleanup []) (by decide)).2.1 rfl⟩

/-! ## Profiles and introspection disabled: claim C20 -/

/-- With profiles and introspection disabled, lines 149-175 make no call and
yield the legacy provider and the empty profile. -/
theorem selectProvidersAndProfiles_disabled (env : Env W) (inst : DatadogAgent)
    (err : Option Err) (s : St W)
    (hprof : env.options.DatadogAgentProfileEnabled = false)
    (hintro : env.options.IntrospectionEnabled = false) :
    selectProvidersAndProfiles env inst err s
      = (.ok ([env.LegacyProvider], [({} : DatadogAgentProfile)]), s) := by
  unfold selectProvidersAndProfiles
  simp [hprof, hintro]

/-- With profiles and introspection disabled and `Spec.Global` present, a pass
whose cluster-agent reconcile does not signal stop reconciles the node agent
once, with the empty profile and the legacy provider, between the
cluster-agent reconcile and the later stages. -/
theorem reconcileInstanceV2_legacy (env : Env W) (inst : DatadogAgent) (s : St W)
    (g : GlobalConfig)
    (hprof : env.options.DatadogAgentProfileEnabled = false)
    (hintro : env.options.IntrospectionEnabled = false)
    (hglob : inst.Spec.Global = some g) :
    ∃ (pre : List Event) (r : Result) (e : Option Err) (ns : DatadogAgentStatus),
      (∀ x ∈ pre, x.stage ≤ 5)
      ∧ ((env.ShouldReturn r e = true ∧ ∃ pub,
          (reconcileInstanceV2 env inst s).2.trace
            = s.trace ++ pre ++ [Event.reconcileV2ClusterAgent r e ns] ++ pub)
        ∨ ∃ r2 e2 ns2 tail,
          (reconcileInstanceV2 env inst s).2.trace
            = s.trace ++ pre ++ [Event.reconcileV2ClusterAgent r e ns,
                Event.reconcileV2Agent {} env.LegacyProvider r2 e2 ns2] ++ tail
          ∧ ∀ x ∈ tail, 11 ≤ x.stage) := by
  unfold reconcileInstanceV2
  simp only [St.record_world, hglob]
  obtain ⟨md, hmd, hmdb⟩ := manageDependenciesLoop_trace env
    (env.BuildFeatures inst env.options).2 (env.BuildFeatures inst env.options).1 []
    (s.record s.world Event.BuildFeatures)
  revert hmd
  generalize manageDependenciesLoop env (env.BuildFeatures inst env.options).2
    (env.BuildFeatures inst env.options).1 [] (s.record s.world Event.BuildFeatures) = mdo
  intro hmd
  generalize env.overrideDependencies inst mdo.2.world = ov
  have hpre : (mdo.2.record ov.2 (Event.overrideDependencies ov.1)).trace
      = s.trace ++ (Event.BuildFeatures :: md ++ [Event.overrideDependencies ov.1]) := by
    simp [hmd]
  have hpreb : ∀ x ∈ Event.BuildFeatures :: md ++ [Event.overrideDependencies ov.1],
      x.stage ≤ 5 := by
    intro x hx
    simp only [List.cons_append, List.mem_cons, List.mem_append, List.mem_nil_iff,
      or_false] at hx
    rcases hx with hx | hx | hx
    · subst hx; simp [Event.stage]
    · rw [hmdb x hx]; omega
    · subst hx; simp [Event.stage]
  revert hpre
  generalize mdo.2.record ov.2 (Event.overrideDependencies ov.1) = s1
  intro hpre
  generalize (if (!(g.ClusterAgentToken.isSome || g.ClusterAgentTokenSecret.isSome))
      = true then
      (ensureAutoGeneratedTokenInStatus env inst (some inst.Status) ov.2).getD inst.Status
    else inst.Status) = ns0
  generalize env.reconcileV2ClusterAgent (env.BuildFeatures inst env.options).2
    (env.BuildFeatures inst env.options).1 inst ns0 ov.2 = ca
  refine ⟨_, ca.1.1, ca.1.2.1, ca.1.2.2, hpreb, ?_⟩
  by_cases hstop : env.ShouldReturn ca.1.1 ca.1.2.1 = true
  · left
    rw [if_pos hstop]
    exact ⟨hstop, publishEvents env inst ca.1.2.2 ca.1.1 ca.1.2.1 ca.2,
      by simp [updateStatusIfNeededV2_trace, hpre]⟩
  · right
    rw [if_neg hstop, selectProvidersAndProfiles_disabled env inst _ _ hprof hintro]
    simp only [reconcileProfiles, reconcileProviders, St.record_world]
    generalize env.reconcileV2Agent (env.BuildFeatures inst env.options).2
      (env.BuildFeatures inst env.options).1 inst ca.1.2.2 env.LegacyProvider
      [env.LegacyProvider] {} ca.2 = ag
    refine ⟨ag.1.1, ag.1.2.1, ag.1.2.2, ?_⟩
    by_cases hag : env.ShouldReturn ag.1.1 ag.1.2.1 = true
    · simp only [hag, if_true]
      have hpub := publishEvents_stage env inst ag.1.2.2 ag.1.1 ag.1.2.1 ag.2
      exact ⟨publishEvents env inst ag.1.2.2 ag.1.1 ag.1.2.1 ag.2,
        by simp [updateStatusIfNeededV2_trace, hpre],
        fun x hx => by have := hpub x hx; omega⟩
    · simp only [hag, Bool.false_eq_true, if_false]
      obtain ⟨fin, hfin, hcases⟩ := finishPass_cases env
        (env.BuildFeatures inst env.options).2 (env.BuildFeatures inst env.options).1 inst
        (mdo.1 ++ ov.1) [env.LegacyProvider] [{}] ag.1.2.2
        ((s1.record ca.2 (Event.reconcileV2ClusterAgent ca.1.1 ca.1.2.1 ca.1.2.2)).record ag.2
          (Event.reconcileV2Agent {} env.LegacyProvider ag.1.1 ag.1.2.1 ag.1.2.2))
      exact ⟨fin, by rw [hfin]; simp [hpre], hcases.finish_stage⟩

/-- C20: when both the profile option and the introspection option are
disabled and no workload stage stops the pass (with `Spec.Global` present, as
`internalReconcileV2` checks), `reconcileInstanceV2` reconciles the node agent
exactly once, with the empty profile and the provider `LegacyProvider`, and
never fetches the node list. -/
theorem reconcileInstanceV2_legacy_single_agent (env : Env W) (inst : DatadogAgent) (w : W)
    (g : GlobalConfig)
    (hprof : env.options.DatadogAgentProfileEnabled = false)
    (hintro : env.options.IntrospectionEnabled = false)
    (hglob : inst.Spec.Global = some g)
    (hquiet : ∀ x ∈ (reconcileInstanceV2 env inst ⟨w, []⟩).2.trace,
      x.workloadStop env = false) :
    (∃ r e ns, (reconcileInstanceV2 env inst ⟨w, []⟩).2.trace.filter Event.isNodeAgent
        = [Event.reconcileV2Agent {} env.LegacyProvider r e ns])
    ∧ ∀ x ∈ (reconcileInstanceV2 env inst ⟨w, []⟩).2.trace, x.isGetNodeList = false := by
  obtain ⟨pre, r, e, ns, hpre, h⟩ :=
    reconcileInstanceV2_legacy env inst ⟨w, []⟩ g hprof hintro hglob
  simp only [List.nil_append] at h
  rcases h with ⟨hstop, pub, htr⟩ | ⟨r2, e2, ns2, tail, htr, htail⟩
  · have := hquiet (Event.reconcileV2ClusterAgent r e ns) (by rw [htr]; simp)
    simp only [Event.workloadStop] at this
    rw [hstop] at this
    exact absurd this (by simp)
  · have hpren : ∀ x ∈ pre, x.isNodeAgent = false ∧ x.isGetNodeList = false := by
      intro x hx
      have := hpre x hx
      cases x <;> simp [Event.stage] at this <;> exact ⟨rfl, rfl⟩
    have htailn : ∀ x ∈ tail, x.isNodeAgent = false ∧ x.isGetNodeList = false := by
      intro x hx
      have := htail x hx
      cases x <;> simp [Event.stage] at this <;> exact ⟨rfl, rfl⟩
    constructor
    · refine ⟨r2, e2, ns2, ?_⟩
      have hp : pre.filter Event.isNodeAgent = [] :=
        List.filter_eq_nil_iff.mpr (fun a ha => by simp [(hpren a ha).1])
      have ht : tail.filter Event.isNodeAgent = [] :=
        List.filter_eq_nil_iff.mpr (fun a ha => by simp [(htailn a ha).1])
      rw [htr, List.filter_append, List.filter_append, hp, ht]
      simp [List.filter, Event.isNodeAgent]
    · intro x hx
      rw [htr] at hx
      simp only [List.mem_append, List.mem_cons, List.mem_nil_iff, or_false] at hx
      rcases hx with (hx | hx | hx) | hx
      · exact (hpren x hx).2
      · subst hx; rfl
      · subst hx; rfl
      · exact (htailn x hx).2

/-- C20, at a complete pass with the default options. -/
theorem reconcileInstanceV2_legacy_single_agent_witness :
    (∃ r e ns, (reconcileInstanceV2 (scenarioEnv {}) agentWithCredentials
        ⟨0, []⟩).2.trace.filter Event.isNodeAgent
        = [Event.reconcileV2Agent {} (scenarioEnv {}).LegacyProvider r e ns])
    ∧ ∀ x ∈ (reconcileInstanceV2 (scenarioEnv {}) agentWithCredentials ⟨0, []⟩).2.trace,
        x.isGetNodeList = false :=
  reconcileInstanceV2_legacy_single_agent (scenarioEnv {}) agentWithCredentials 0
    { Credentials := some { APIKey := some "key" } } rfl rfl rfl (by decide)

/-! ## Profile resolution -/

/-- The resolution handles every profile of the list. -/
theorem resolveAll_length
    (resolve : DatadogAgentProfile → List Node → NodeProfiles → Time →
      DatadogAgentProfile × NodeProfiles × Option Err)
    (nodeList : List Node) (now : Time) (profiles : List DatadogAgentProfile) :
    ∀ perNode, (resolveAll resolve nodeList now profiles perNode).1.length
      = profiles.length := by
  induction profiles with
  | nil => intro _; rfl
  | cons p rest ih => intro perNode; simp [resolveAll, ih]

/-- The loop of `profilesToApply` computes `resolveAll`: it appends the
accepted profiles to `acc`, ends with the final node map, and writes the
status of every resolved profile once, in order, whatever the writes return
(`rets`). -/
theorem profilesToApplyLoop_spec (env : Env W) (nodeList : List Node) (now : Time)
    (profiles : List DatadogAgentProfile) :
    ∀ (acc : List DatadogAgentProfile) (perNode : NodeProfiles) (s : St W),
      ∃ rets : List (Option Err), rets.length = profiles.length
        ∧ (profilesToApplyLoop env nodeList now profiles acc perNode s).1
            = (acc ++ acceptedProfiles
                (resolveAll env.ProfileToApply nodeList now profiles perNode).1,
               (resolveAll env.ProfileToApply nodeList now profiles perNode).2)
        ∧ (profilesToApplyLoop env nodeList now profiles acc perNode s).2.trace
            = s.trace ++ List.zipWith (fun pr ret => Event.updateDAPStatus pr.1 ret)
                (resolveAll env.ProfileToApply nodeList now profiles perNode).1 rets := by
  induction profiles with
  | nil =>
    intro acc perNode s
    exact ⟨[], rfl, by simp [profilesToApplyLoop, resolveAll, acceptedProfiles],
      by simp [profilesToApplyLoop, resolveAll]⟩
  | cons profile rest ih =>
    intro acc perNode s
    unfold profilesToApplyLoop
    simp only
    cases herr : (env.ProfileToApply profile nodeList perNode now).2.2 with
    | some err =>
      obtain ⟨rets, hlen, hval, htr⟩ := ih acc
        (env.ProfileToApply profile nodeList perNode now).2.1
        (updateDAPStatus env (env.ProfileToApply profile nodeList perNode now).1 s)
      refine ⟨(env.dapStatusUpdate (env.ProfileToApply profile nodeList perNode now).1
        s.world).1 :: rets, by simp [hlen], ?_, ?_⟩
      · rw [hval]; simp [resolveAll, acceptedProfiles, herr]
      · rw [htr]; simp [resolveAll]
    | none =>
      obtain ⟨rets, hlen, hval, htr⟩ := ih
        (acc ++ [(env.ProfileToApply profile nodeList perNode now).1])
        (env.ProfileToApply profile nodeList perNode now).2.1
        (updateDAPStatus env (env.ProfileToApply profile nodeList perNode now).1 s)
      refine ⟨(env.dapStatusUpdate (env.ProfileToApply profile nodeList perNode now).1
        s.world).1 :: rets, by simp [hlen], ?_, ?_⟩
      · rw [hval]; simp [resolveAll, acceptedProfiles, herr]
      · rw [htr]; simp [resolveAll]

/-- The method `profilesToApply`, when the list of the profiles succeeds,
returns what `ApplyDefaultProfile` makes of the accepted profiles and of the
final node map, with a nil error, after one profile status write per sorted
profile. -/
theorem profilesToApply_spec (env : Env W) (nodeList : List Node) (now : Time) (s : St W)
    (items : List DatadogAgentProfile)
    (hlist : (env.clientListProfiles s.world).1 = .ok items) :
    ∃ rets : List (Option Err), rets.length = (env.SortProfiles items).length
      ∧ (profilesToApply env nodeList now s).1
          = ((env.ApplyDefaultProfile
                (acceptedProfiles
                  (resolveAll env.ProfileToApply nodeList now (env.SortProfiles items) []).1)
                (resolveAll env.ProfileToApply nodeList now (env.SortProfiles items) []).2
                nodeList).1,
             (env.ApplyDefaultProfile
                (acceptedProfiles
                  (resolveAll env.ProfileToApply nodeList now (env.SortProfiles items) []).1)
                (resolveAll env.ProfileToApply nodeList now (env.SortProfiles items) []).2
                nodeList).2,
             none)
      ∧ (profilesToApply env nodeList now s).2.trace
          = s.trace ++ Event.listProfiles none
            :: List.zipWith (fun pr ret => Event.updateDAPStatus pr.1 ret)
                (resolveAll env.ProfileToApply nodeList now (env.SortProfiles items) []).1
                rets := by
  obtain ⟨rets, hlen, hval, htr⟩ := profilesToApplyLoop_spec env nodeList now
    (env.SortProfiles items) [] []
    (s.record (env.clientListProfiles s.world).2 (Event.listProfiles none))
  refine ⟨rets, hlen, ?_, ?_⟩
  · unfold profilesToApply
    simp only [hlist, hval, List.nil_append]
  · unfold profilesToApply
    simp only [hlist, htr, St.record_trace, List.append_assoc, List.singleton_append]

/-! ## Profile status writes and the applied list: claims C14 and C15 -/

/-- C14: for every profile of the sorted profile list, `profilesToApply`
attempts one status write (`updateDAPStatus`) after resolving it, accepted
or rejected alike: after the list of the profiles the trace holds one profile
status write per resolved profile, in order, whatever the writes return; and
what `profilesToApply` returns (applied list, node map, error) is the same
for every behaviour `f` of the status write, be it success, conflict or
failure. -/
theorem profilesToApply_status_writes_never_propagate (env : Env W)
    (nodeList : List Node) (now : Time) (s : St W) (items : List DatadogAgentProfile)
    (hlist : (env.clientListProfiles s.world).1 = .ok items) :
    (∃ rets : List (Option Err), rets.length = (env.SortProfiles items).length
      ∧ (resolveAll env.ProfileToApply nodeList now (env.SortProfiles items) []).1.length
          = (env.SortProfiles items).length
      ∧ (profilesToApply env nodeList now s).2.trace
          = s.trace ++ Event.listProfiles none
            :: List.zipWith (fun pr ret => Event.updateDAPStatus pr.1 ret)
                (resolveAll env.ProfileToApply nodeList now (env.SortProfiles items) []).1
                rets)
    ∧ ∀ f : DatadogAgentProfile → W → Option Err × W,
        (profilesToApply { env with dapStatusUpdate := f } nodeList now s).1
          = (profilesToApply env nodeList now s).1 := by
  obtain ⟨rets, hlen, hval, htr⟩ := profilesToApply_spec env nodeList now s items hlist
  refine ⟨⟨rets, hlen, resolveAll_length _ _ _ _ _, htr⟩, ?_⟩
  intro f
  obtain ⟨-, -, hval2, -⟩ :=
    profilesToApply_spec { env with dapStatusUpdate := f } nodeList now s items hlist
  rw [hval, hval2]

/-- C14, at two listed profiles whose status writes all conflict: the output
is that of the environment in which they succeed. -/
theorem profilesToApply_status_writes_never_propagate_witness :
    (profilesToApply
        { scenarioEnv scenarioTwoProfiles with
          dapStatusUpdate := fun _ w => (some (Err.conflict "stale"), w) } [] 0 ⟨0, []⟩).1
      = (profilesToApply (scenarioEnv scenarioTwoProfiles) [] 0 ⟨0, []⟩).1 :=
  (profilesToApply_status_writes_never_propagate (scenarioEnv scenarioTwoProfiles) [] 0
    ⟨0, []⟩ demoProfiles rfl).2 (fun _ w => (some (Err.conflict "stale"), w))

/-- C15: for every profile list and node list, the list `profilesToApply`
returns is what `ApplyDefaultProfile` makes of the accepted profiles: every
sorted profile is resolved, rejected or not; the accepted profiles are
exactly the resolved profiles for which `ProfileToApply` returned no error,
in the order of `SortProfiles`; a rejected profile is left out; and the error
returned is nil. -/
theorem profilesToApply_applies_accepted_profiles (env : Env W) (nodeList : List Node)
    (now : Time) (s : St W) (items : List DatadogAgentProfile)
    (hlist : (env.clientListProfiles s.world).1 = .ok items) :
    (profilesToApply env nodeList now s).1.1
        = (env.ApplyDefaultProfile
            (acceptedProfiles
              (resolveAll env.ProfileToApply nodeList now (env.SortProfiles items) []).1)
            (resolveAll env.ProfileToApply nodeList now (env.SortProfiles items) []).2
            nodeList).1
    ∧ (profilesToApply env nodeList now s).1.2.2 = none
    ∧ (resolveAll env.ProfileToApply nodeList now (env.SortProfiles items) []).1.length
        = (env.SortProfiles items).length
    ∧ (acceptedProfiles
          (resolveAll env.ProfileToApply nodeList now (env.SortProfiles items) []).1).Sublist
        ((resolveAll env.ProfileToApply nodeList now (env.SortProfiles items) []).1.map
          Prod.fst)
    ∧ ∀ p, p ∈ acceptedProfiles
          (resolveAll env.ProfileToApply nodeList now (env.SortProfiles items) []).1
        ↔ (p, none) ∈
          (resolveAll env.ProfileToApply nodeList now (env.SortProfiles items) []).1 := by
  obtain ⟨rets, -, hval, -⟩ := profilesToApply_spec env nodeList now s items hlist
  refine ⟨by rw [hval], by rw [hval], resolveAll_length _ _ _ _ _, ?_, ?_⟩
  · unfold acceptedProfiles
    exact (List.filter_sublist _).map _
  · intro p
    unfold acceptedProfiles
    simp only [List.mem_map, List.mem_filter, Prod.exists, exists_and_right, exists_eq_right]
    constructor
    · rintro ⟨e, hmem, hnone⟩
      cases e with
      | none => exact hmem
      | some err => simp at hnone
    · intro h
      exact ⟨none, h, rfl⟩

/-- C15, at two listed profiles. -/
theorem profilesToApply_applies_accepted_profiles_witness :
    (profilesToApply (scenarioEnv scenarioTwoProfiles) [] 0 ⟨0, []⟩).1.1
        = ((scenarioEnv scenarioTwoProfiles).ApplyDefaultProfile
            (acceptedProfiles
              (resolveAll (scenarioEnv scenarioTwoProfiles).ProfileToApply [] 0
                ((scenarioEnv scenarioTwoProfiles).SortProfiles demoProfiles) []).1)
            (resolveAll (scenarioEnv scenarioTwoProfiles).ProfileToApply [] 0
              ((scenarioEnv scenarioTwoProfiles).SortProfiles demoProfiles) []).2
            []).1
    ∧ (profilesToApply (scenarioEnv scenarioTwoProfiles) [] 0 ⟨0, []⟩).1.2.2 = none :=
  ⟨(profilesToApply_applies_accepted_profiles (scenarioEnv scenarioTwoProfiles) [] 0 ⟨0, []⟩
      demoProfiles rfl).1,
   (profilesToApply_applies_accepted_profiles (scenarioEnv scenarioTwoProfiles) [] 0 ⟨0, []⟩
      demoProfiles rfl).2.1⟩

/-! ## The order of the profiles -/

/-- Any two profiles are ordered one way or the other. -/
theorem profilePrecedes_total (p q : DatadogAgentProfile) :
    profilePrecedes p q ∨ profilePrecedes q p := by
  unfold profilePrecedes
  rcases lt_trichotomy p.CreationTimestamp q.CreationTimestamp with h | h | h
  · exact Or.inl (Or.inl h)
  · rcases le_total p.Name.toList q.Name.toList with hn | hn
    · exact Or.inl (Or.inr ⟨h, hn⟩)
    · exact Or.inr (Or.inr ⟨h.symm, hn⟩)
  · exact Or.inr (Or.inl h)

/-- The order of the profiles is transitive. -/
theorem profilePrecedes_trans (p q r : DatadogAgentProfile) (hpq : profilePrecedes p q)
    (hqr : profilePrecedes q r) : profilePrecedes p r := by
  unfold profilePrecedes at *
  rcases hpq with h | ⟨h, hn⟩
  · rcases hqr with h2 | ⟨h2, -⟩
    · exact Or.inl (lt_trans h h2)
    · exact Or.inl (h2 ▸ h)
  · rcases hqr with h2 | ⟨h2, hn2⟩
    · exact Or.inl (h ▸ h2)
    · exact Or.inr ⟨h.trans h2, le_trans hn hn2⟩

/-- Every profile precedes itself in the non-strict order. -/
theorem profilePrecedes_refl (p : DatadogAgentProfile) : profilePrecedes p p :=
  Or.inr ⟨rfl, le_refl _⟩

/-- The strict order excludes the converse. -/
theorem not_profilePrecedes_of_strictly (p q : DatadogAgentProfile)
    (hpq : profileStrictlyPrecedes p q) : ¬ profilePrecedes q p := by
  unfold profileStrictlyPrecedes at hpq
  unfold profilePrecedes
  rintro (h | ⟨h, hn⟩)
  · rcases hpq with h2 | ⟨h2, -⟩
    · exact absurd h (not_lt.mpr (le_of_lt h2))
    · exact absurd h (by rw [h2]; exact lt_irrefl _)
  · rcases hpq with h2 | ⟨-, hn2⟩
    · exact absurd h2 (by rw [h]; exact lt_irrefl _)
    · exact absurd hn (not_le.mpr hn2)

/-- The sorted profiles are in order. -/
theorem SortProfiles_sorted (items : List DatadogAgentProfile) :
    (SortProfiles items).Pairwise profilePrecedes := by
  haveI : IsTotal DatadogAgentProfile profilePrecedes := ⟨profilePrecedes_total⟩
  haveI : IsTrans DatadogAgentProfile profilePrecedes := ⟨profilePrecedes_trans⟩
  exact List.sorted_insertionSort profilePrecedes items

/-- The sorted profiles are the listed profiles. -/
theorem mem_SortProfiles (items : List DatadogAgentProfile) (p : DatadogAgentProfile) :
    p ∈ SortProfiles items ↔ p ∈ items :=
  (List.perm_insertionSort profilePrecedes items).mem_iff

/-- In a list in order, a profile that strictly precedes another one comes
before it. -/
theorem split_of_strictly_precedes (l : List DatadogAgentProfile)
    (hl : l.Pairwise profilePrecedes) (p q : DatadogAgentProfile) (hp : p ∈ l) (hq : q ∈ l)
    (hpq : profileStrictlyPrecedes p q) :
    ∃ l1 l2 l3, l = l1 ++ p :: (l2 ++ q :: l3) := by
  induction l with
  | nil => cases hp
  | cons a rest ih =>
    rw [List.pairwise_cons] at hl
    by_cases hqa : q = a
    · exfalso
      rcases List.mem_cons.mp hp with hpa | hpr
      · subst hqa; subst hpa
        exact not_profilePrecedes_of_strictly _ _ hpq (profilePrecedes_refl _)
      · subst hqa
        exact not_profilePrecedes_of_strictly _ _ hpq (hl.1 p hpr)
    · have hqr : q ∈ rest := (List.mem_cons.mp hq).resolve_left hqa
      rcases List.mem_cons.mp hp with hpa | hpr
      · subst hpa
        obtain ⟨l2, l3, h23⟩ := List.mem_iff_append.mp hqr
        exact ⟨[], l2, l3, by rw [h23]; rfl⟩
      · obtain ⟨l1, l2, l3, h⟩ := ih hl.2 hpr hqr
        exact ⟨a :: l1, l2, l3, by rw [h]; rfl⟩

/-! ## The node map -/

/-- The walk that claims nodes keeps every entry of the node map and gives
the owner the nodes of the list that had none. -/
theorem claimNodes_lookup (owner : NamespacedName) (k : String) :
    ∀ (nodes : List Node) (perNode : NodeProfiles),
      (claimNodes owner nodes perNode).lookup k
        = (perNode.lookup k).or
            (if nodes.any (fun node => node.Name == k) then some owner else none) := by
  intro nodes
  induction nodes with
  | nil => intro perNode; simp [claimNodes]
  | cons node rest ih =>
    intro perNode
    unfold claimNodes
    by_cases hk : node.Name = k
    · cases h : perNode.lookup node.Name with
      | none =>
        simp only [ih]
        rw [← hk, h]
        simp [List.lookup_cons]
      | some v =>
        simp only [ih]
        rw [← hk, h]
        simp
    · have hk2 : (k == node.Name) = false := by
        simp only [beq_eq_false_iff_ne, ne_eq]
        exact fun h => hk h.symm
      have hk3 : (node.Name == k) = false := by
        simp only [beq_eq_false_iff_ne, ne_eq]
        exact hk
      cases h : perNode.lookup node.Name with
      | none =>
        simp only [ih]
        simp [List.lookup_cons, hk2, hk3]
      | some v =>
        simp only [ih]
        simp [hk3]

/-- The nodes a profile matches hold a node of a given name when the profile
contests that name. -/
theorem any_filter_selects (profile : DatadogAgentProfile) (nodes : List Node) (k : String) :
    (nodes.filter (profileSelects profile)).any (fun node => node.Name == k)
      = contestsNode profile nodes k := by
  unfold contestsNode
  induction nodes with
  | nil => rfl
  | cons node rest ih =>
    cases hs : profileSelects profile node <;> simp [List.filter, hs, ih]

/-- The node map after `ProfileToApply`: every entry is kept, and a node the
profile contests that had no entry is given to the profile. -/
theorem ProfileToApply_lookup (profile : DatadogAgentProfile) (nodes : List Node)
    (perNode : NodeProfiles) (now : Time) (k : String) :
    (ProfileToApply profile nodes perNode now).2.1.lookup k
      = (perNode.lookup k).or
          (if contestsNode profile nodes k then some (profileKey profile) else none) := by
  unfold ProfileToApply
  simp only
  split
  · rename_i hc
    cases h : perNode.lookup k with
    | some v => simp
    | none =>
      have : contestsNode profile nodes k = false := by
        rw [← any_filter_selects]
        rw [Bool.eq_false_iff]
        intro hany
        obtain ⟨node, hmem, hname⟩ := List.any_eq_true.mp hany
        have hsome := List.all_eq_true.mp hc.2 node hmem
        have hname : node.Name = k := by simpa using hname
        rw [hname, h] at hsome
        cases hsome
      simp [this, h]
  · simp only [claimNodes_lookup, any_filter_selects]

/-- The profile `ProfileToApply` hands back is the one it was given, up to
its conditions. -/
theorem ProfileToApply_key (profile : DatadogAgentProfile) (nodes : List Node)
    (perNode : NodeProfiles) (now : Time) :
    profileKey (ProfileToApply profile nodes perNode now).1 = profileKey profile := by
  unfold ProfileToApply
  simp only
  split <;> rfl

/-- The resolved profiles carry the namespaced names of the profiles handed
to the resolution, in order. -/
theorem resolveAll_keys (nodes : List Node) (now : Time) :
    ∀ (profiles : List DatadogAgentProfile) (perNode : NodeProfiles),
      (resolveAll ProfileToApply nodes now profiles perNode).1.map
          (fun pr => profileKey pr.1)
        = profiles.map profileKey := by
  intro profiles
  induction profiles with
  | nil => intro perNode; rfl
  | cons p rest ih =>
    intro perNode
    unfold resolveAll
    simp only [List.map_cons, ih, ProfileToApply_key]

/-- With the resolver of the spec, `profilesToApply` returns the accepted
profiles followed by the default profile, and the node map of the resolution
completed with the default profile. -/
theorem profilesToApply_resolver (env : Env W) (nodeList : List Node) (now : Time)
    (s : St W) (items : List DatadogAgentProfile)
    (hlist : (env.clientListProfiles s.world).1 = .ok items) :
    (profilesToApply (withProfileResolver env) nodeList now s).1
      = (acceptedProfiles
            (resolveAll ProfileToApply nodeList now (SortProfiles items) []).1
          ++ [defaultProfile],
         claimNodes (profileKey defaultProfile) nodeList
           (resolveAll ProfileToApply nodeList now (SortProfiles items) []).2,
         none) := by
  obtain ⟨_, -, hval, -⟩ :=
    profilesToApply_spec (withProfileResolver env) nodeList now s items hlist
  rw [hval]
  rfl

/-- Every accepted profile carries the namespaced name of one of the profiles
handed to the resolution. -/
theorem acceptedProfiles_key (nodes : List Node) (now : Time)
    (profiles : List DatadogAgentProfile) (perNode : NodeProfiles) (a : DatadogAgentProfile)
    (ha : a ∈ acceptedProfiles (resolveAll ProfileToApply nodes now profiles perNode).1) :
    ∃ p ∈ profiles, profileKey p = profileKey a := by
  unfold acceptedProfiles at ha
  obtain ⟨pr, hpr, hfst⟩ := List.mem_map.mp ha
  have hmem : profileKey a
      ∈ (resolveAll ProfileToApply nodes now profiles perNode).1.map
          (fun pr => profileKey pr.1) :=
    List.mem_map.mpr ⟨pr, (List.mem_filter.mp hpr).1, by rw [hfst]⟩
  rw [resolveAll_keys] at hmem
  exact List.mem_map.mp hmem

/-! ## The default profile: claim C17 -/

/-- C17: for every node list, `profilesToApply` returns a nil error; when the
cluster holds no profile the applied list is exactly the default profile, and
every node of the list is assigned to it; in general the applied list is the
accepted explicit profiles followed by the default profile, one entry more
than the accepted profiles; and, no listed profile bearing the namespaced
name of the default profile, exactly one entry of the applied list is the
default profile. -/
theorem profilesToApply_default_profile_once (env : Env W) (nodeList : List Node)
    (now : Time) (s : St W) (items : List DatadogAgentProfile)
    (hlist : (env.clientListProfiles s.world).1 = .ok items) :
    (profilesToApply (withProfileResolver env) nodeList now s).1.2.2 = none
    ∧ (items = [] →
        (profilesToApply (withProfileResolver env) nodeList now s).1.1 = [defaultProfile]
        ∧ ∀ node ∈ nodeList,
            (profilesToApply (withProfileResolver env) nodeList now s).1.2.1.lookup node.Name
              = some (profileKey defaultProfile))
    ∧ (profilesToApply (withProfileResolver env) nodeList now s).1.1
        = acceptedProfiles (resolveAll ProfileToApply nodeList now (SortProfiles items) []).1
          ++ [defaultProfile]
    ∧ (profilesToApply (withProfileResolver env) nodeList now s).1.1.length
        = (acceptedProfiles
            (resolveAll ProfileToApply nodeList now (SortProfiles items) []).1).length + 1
    ∧ ((∀ p ∈ items, profileKey p ≠ profileKey defaultProfile) →
        ((profilesToApply (withProfileResolver env) nodeList now s).1.1.filter
          isDefaultProfile).length = 1) := by
  have hval := profilesToApply_resolver env nodeList now s items hlist
  refine ⟨by rw [hval], ?_, by rw [hval], by rw [hval]; simp, ?_⟩
  · intro hnil
    subst hnil
    rw [hval]
    refine ⟨rfl, ?_⟩
    intro node hnode
    have hany : nodeList.any (fun n => n.Name == node.Name) = true :=
      List.any_eq_true.mpr ⟨node, hnode, by simp⟩
    simp only [claimNodes_lookup, hany]
    rfl
  · intro hkeys
    rw [hval]
    have hnone : (acceptedProfiles
        (resolveAll ProfileToApply nodeList now (SortProfiles items) []).1).filter
          isDefaultProfile = [] := by
      rw [List.filter_eq_nil_iff]
      intro a ha
      obtain ⟨p, hp, hkey⟩ := acceptedProfiles_key nodeList now (SortProfiles items) [] a ha
      unfold isDefaultProfile
      rw [← hkey]
      simpa using hkeys p ((mem_SortProfiles items p).mp hp)
    simp only [List.filter_append, hnone, List.nil_append]
    rfl

/-- C17, at two nodes: with no profile in the cluster the applied list is the
default profile alone and the error is nil; with three listed profiles, one
of which is accepted, the default profile is in the applied list once. -/
theorem profilesToApply_default_profile_once_witness :
    ((profilesToApply (withProfileResolver (scenarioEnv scenarioNoProfiles)) demoNodes 0
        ⟨0, []⟩).1.2.2 = none
      ∧ (profilesToApply (withProfileResolver (scenarioEnv scenarioNoProfiles)) demoNodes 0
        ⟨0, []⟩).1.1 = [defaultProfile])
    ∧ ((profilesToApply (withProfileResolver (scenarioEnv scenarioContest)) demoNodes 0
        ⟨0, []⟩).1.1.filter isDefaultProfile).length = 1 :=
  ⟨⟨(profilesToApply_default_profile_once (scenarioEnv scenarioNoProfiles) demoNodes 0
        ⟨0, []⟩ [] rfl).1,
    ((profilesToApply_default_profile_once (scenarioEnv scenarioNoProfiles) demoNodes 0
        ⟨0, []⟩ [] rfl).2.1 rfl).1⟩,
   (profilesToApply_default_profile_once (scenarioEnv scenarioContest) demoNodes 0
      ⟨0, []⟩ contestingProfiles rfl).2.2.2.2 (by decide)⟩

/-! ## The reconcile-error condition and failed status writes: claims C21 and C26 -/

/-- C21: for every call of `updateStatusIfNeededV2`, the condition handed to
`UpdateDatadogAgentStatusConditions` for `newStatus` is of the reconcile-error
type, with status True and reason `DatadogAgent_reconcile_error` when
`currentError` is non-nil, and status False and reason
`DatadogAgent_reconcile_ok` when `currentError` is nil; the status so obtained,
after the metrics forwarder condition, is the status of every object the call
writes. -/
theorem updateStatusIfNeededV2_reconcile_error_condition (env : Env W)
    (agentdeployment : DatadogAgent) (newStatus : DatadogAgentStatus) (result : Result)
    (currentError : Option Err) (w : W) :
    upsertedStatus env agentdeployment newStatus currentError w
        = setMetricsForwarderStatusV2 env agentdeployment
            (env.UpdateDatadogAgentStatusConditions newStatus (env.timeNow w)
              env.DatadogAgentReconcileErrorConditionType
              (if currentError = none then ConditionStatus.ConditionFalse
                else ConditionStatus.ConditionTrue)
              (if currentError = none then "DatadogAgent_reconcile_ok"
                else "DatadogAgent_reconcile_error")
              (if currentError = none then "DatadogAgent reconcile ok"
                else "DatadogAgent reconcile error")
              false) w
    ∧ ∀ obj ret, Event.statusUpdate obj ret ∈
        (updateStatusIfNeededV2 env agentdeployment newStatus result currentError
          ⟨w, []⟩).2.trace →
        obj.Status = upsertedStatus env agentdeployment newStatus currentError w := by
  constructor
  · cases currentError <;> simp [upsertedStatus]
  · intro obj ret hwrite
    rw [updateStatusIfNeededV2_trace] at hwrite
    unfold publishEvents at hwrite
    by_cases h : SemanticDeepEqual agentdeployment.Status
        (upsertedStatus env agentdeployment newStatus currentError w) = true
    · simp [h] at hwrite
    · simp only [Bool.not_eq_true] at h
      simp only [h, Bool.false_eq_true, if_false, List.nil_append, List.mem_cons,
        List.mem_singleton, List.mem_nil_iff, or_false, false_or, reduceCtorEq,
        Event.statusUpdate.injEq] at hwrite
      obtain ⟨hobj, -⟩ := hwrite
      subst hobj
      rfl

/-- C21, at a pass that ended with an error and at one that ended without: the
condition written is True with the error reason, False with the ok reason. -/
theorem updateStatusIfNeededV2_reconcile_error_condition_witness :
    upsertedStatus (scenarioEnv {}) agentWithCredentials {} (some (Err.other "boom")) 0
        = { Conditions :=
            [{ CondType := "DatadogAgentReconcileError",
               Status := ConditionStatus.ConditionTrue, LastTransitionTime := 0,
               Reason := "DatadogAgent_reconcile_error",
               Message := "DatadogAgent reconcile error" }] }
    ∧ upsertedStatus (scenarioEnv {}) agentWithCredentials {} none 0
        = { Conditions :=
            [{ CondType := "DatadogAgentReconcileError",
               Status := ConditionStatus.ConditionFalse, LastTransitionTime := 0,
               Reason := "DatadogAgent_reconcile_ok",
               Message := "DatadogAgent reconcile ok" }] } :=
  ⟨(updateStatusIfNeededV2_reconcile_error_condition (scenarioEnv {}) agentWithCredentials
      {} {} (some (Err.other "boom")) 0).1.trans (by decide),
   (updateStatusIfNeededV2_reconcile_error_condition (scenarioEnv {}) agentWithCredentials
      {} {} none 0).1.trans (by decide)⟩

/-- C26: when the status write of a call of `updateStatusIfNeededV2` fails with
an error that is not a conflict, the call returns the zero result and that
error, whatever `result` and `currentError` it was given. -/
theorem updateStatusIfNeededV2_write_error_returned (env : Env W)
    (agentdeployment : DatadogAgent) (newStatus : DatadogAgentStatus) (result : Result)
    (currentError : Option Err) (w : W) (obj : DatadogAgent) (err : Err)
    (hwrite : Event.statusUpdate obj (some err) ∈
      (updateStatusIfNeededV2 env agentdeployment newStatus result currentError ⟨w, []⟩).2.trace)
    (hconflict : IsConflict err = false) :
    (updateStatusIfNeededV2 env agentdeployment newStatus result currentError ⟨w, []⟩).1
        = ({ Requeue := false, RequeueAfter := 0 }, some err) := by
  rw [updateStatusIfNeededV2_trace] at hwrite
  unfold publishEvents at hwrite
  by_cases h : SemanticDeepEqual agentdeployment.Status
      (upsertedStatus env agentdeployment newStatus currentError w) = true
  · simp [h] at hwrite
  · simp only [Bool.not_eq_true] at h
    simp only [h, Bool.false_eq_true, if_false, List.nil_append, List.mem_cons,
      List.mem_singleton, List.mem_nil_iff, or_false, false_or, reduceCtorEq,
      Event.statusUpdate.injEq] at hwrite
    obtain ⟨-, hret⟩ := hwrite
    simp [updateStatusIfNeededV2, h, ← hret, hconflict]

/-- C26, at a status write that fails while the pass itself ended with an
error and a requeue: the write error is returned alone. -/
theorem updateStatusIfNeededV2_write_error_returned_witness :
    (updateStatusIfNeededV2 (scenarioEnv { statusWrite := some (Err.other "etcd down") })
        agentWithCredentials {} { Requeue := true } (some (Err.other "boom")) ⟨0, []⟩).1
      = ({ Requeue := false, RequeueAfter := 0 }, some (Err.other "etcd down")) :=
  updateStatusIfNeededV2_write_error_returned
    (scenarioEnv { statusWrite := some (Err.other "etcd down") })
    agentWithCredentials {} { Requeue := true } (some (Err.other "boom")) 0
    { agentWithCredentials with
      Status := upsertedStatus (scenarioEnv { statusWrite := some (Err.other "etcd down") })
        agentWithCredentials {} (some (Err.other "boom")) 0 }
    (Err.other "etcd down") (by decide) (by decide)

/-! ## The generated token: claims C22 and C23 -/

/-- C22: for every instance whose `Status.ClusterAgent` holds a non-empty
`GeneratedToken`, `ensureAutoGeneratedTokenInStatus` leaves `newStatus` as it
is, nil or not, for every dependency store (every environment and world): the
store is not even consulted, and the status of the instance handed in as
`newStatus` comes back with the persisted token. -/
theorem ensureAutoGeneratedTokenInStatus_keeps_persisted_token (env : Env W)
    (inst : DatadogAgent) (newStatus : Option DatadogAgentStatus) (w : W)
    (ca : DeploymentStatus) (hca : inst.Status.ClusterAgent = some ca)
    (htoken : ca.GeneratedToken ≠ "") :
    ensureAutoGeneratedTokenInStatus env inst newStatus w = newStatus
    ∧ (∀ get : String → String → String → W → Option Secret,
        ensureAutoGeneratedTokenInStatus { env with StoreGet := get } inst newStatus w
          = newStatus)
    ∧ ((ensureAutoGeneratedTokenInStatus env inst (some inst.Status) w).bind
          DatadogAgentStatus.ClusterAgent).map DeploymentStatus.GeneratedToken
        = some ca.GeneratedToken := by
  have key : ∀ e : Env W, ensureAutoGeneratedTokenInStatus e inst newStatus w = newStatus := by
    intro e
    unfold ensureAutoGeneratedTokenInStatus
    simp [hca, htoken]
  refine ⟨key env, fun get => key _, ?_⟩
  unfold ensureAutoGeneratedTokenInStatus
  simp [hca, htoken]

/-- C23: for every instance without a generated token in its status and every
non-nil `newStatus`: when the dependency store holds the default cluster-agent
token secret, `newStatus` comes back with `ClusterAgent.GeneratedToken` equal
to the data of the secret under the default token key, the other fields of
`ClusterAgent` (those of a fresh `DeploymentStatus` when it was nil) and every
other field of `newStatus` being as before; when the store does not hold the
secret, `newStatus` comes back unchanged. -/
theorem ensureAutoGeneratedTokenInStatus_records_store_token (env : Env W)
    (inst : DatadogAgent) (st : DatadogAgentStatus) (w : W)
    (hnone : ∀ ca, inst.Status.ClusterAgent = some ca → ca.GeneratedToken = "") :
    (∀ tokenSecret,
      env.StoreGet env.SecretsKind inst.Namespace (env.GetDefaultDCATokenSecretName inst) w
        = some tokenSecret →
      ∃ st' ca', ensureAutoGeneratedTokenInStatus env inst (some st) w = some st'
        ∧ st'.ClusterAgent = some ca'
        ∧ ca'.GeneratedToken = mapLookup env.DefaultTokenKey tokenSecret.Data
        ∧ ca'.Replicas = (st.ClusterAgent.getD {}).Replicas
        ∧ ca'.ReadyReplicas = (st.ClusterAgent.getD {}).ReadyReplicas
        ∧ ca'.CurrentHash = (st.ClusterAgent.getD {}).CurrentHash
        ∧ ca'.State = (st.ClusterAgent.getD {}).State
        ∧ ca'.DeploymentName = (st.ClusterAgent.getD {}).DeploymentName
        ∧ st'.Conditions = st.Conditions
        ∧ st'.AgentList = st.AgentList
        ∧ st'.Agent = st.Agent
        ∧ st'.ClusterChecksRunner = st.ClusterChecksRunner)
    ∧ (env.StoreGet env.SecretsKind inst.Namespace (env.GetDefaultDCATokenSecretName inst) w
        = none →
      ensureAutoGeneratedTokenInStatus env inst (some st) w = some st) := by
  constructor
  · intro tokenSecret hget
    refine ⟨{ st with
        ClusterAgent := some { (st.ClusterAgent.getD {}) with
          GeneratedToken := mapLookup env.DefaultTokenKey tokenSecret.Data } },
      { (st.ClusterAgent.getD {}) with
          GeneratedToken := mapLookup env.DefaultTokenKey tokenSecret.Data },
      ?_, rfl, rfl, rfl, rfl, rfl, rfl, rfl, rfl, rfl, rfl, rfl⟩
    unfold ensureAutoGeneratedTokenInStatus
    cases hca : inst.Status.ClusterAgent with
    | none => simp [hget]
    | some ca => simp [hget, hnone ca hca]
  · intro hget
    unfold ensureAutoGeneratedTokenInStatus
    cases hca : inst.Status.ClusterAgent with
    | none => simp [hget]
    | some ca => simp [hget, hnone ca hca]

/-- C22, at an instance whose status holds a token while the store holds a
secret with another token: the status keeps the persisted token. -/
theorem ensureAutoGeneratedTokenInStatus_keeps_persisted_token_witness :
    ensureAutoGeneratedTokenInStatus envWithStoredToken agentWithToken
        (some agentWithToken.Status) 0 = some agentWithToken.Status :=
  (ensureAutoGeneratedTokenInStatus_keeps_persisted_token envWithStoredToken
    agentWithToken (some agentWithToken.Status) 0
    { GeneratedToken := "persisted" } rfl (by decide)).1

/-- C23, at an instance without a token: with the secret in the store the
token of the secret is recorded, without it the status is unchanged. -/
theorem ensureAutoGeneratedTokenInStatus_records_store_token_witness :
    (∃ st' ca', ensureAutoGeneratedTokenInStatus envWithStoredToken
          agentWithCredentials (some { Conditions := [reconcileOkCondition] }) 0 = some st'
        ∧ st'.ClusterAgent = some ca'
        ∧ ca'.GeneratedToken = "generated")
    ∧ ensureAutoGeneratedTokenInStatus (scenarioEnv {}) agentWithCredentials
        (some { Conditions := [reconcileOkCondition] }) 0
        = some { Conditions := [reconcileOkCondition] } :=
  ⟨(fun ⟨st', ca', h1, h2, h3, _⟩ => ⟨st', ca', h1, h2, h3⟩)
    ((ensureAutoGeneratedTokenInStatus_records_store_token envWithStoredToken
      agentWithCredentials { Conditions := [reconcileOkCondition] } 0 (by decide)).1
      storedTokenSecret rfl),
   (ensureAutoGeneratedTokenInStatus_records_store_token (scenarioEnv {})
      agentWithCredentials { Conditions := [reconcileOkCondition] } 0 (by decide)).2 rfl⟩

/-! ## Reads after writes in a Go map -/

/-- A read in a map whose entries at one key have been overwritten. -/
theorem lookup_map_overwrite (key k : String) (v : Value) (data : StringMap) :
    List.lookup k (data.map (fun kv => if kv.1 = key then (kv.1, v) else kv))
      = if k = key then (List.lookup k data).map (fun _ => v) else List.lookup k data := by
  induction data with
  | nil => simp
  | cons a rest ih =>
    obtain ⟨ak, av⟩ := a
    by_cases hka : k = ak
    · subst hka
      by_cases hk : k = key
      · simp [List.lookup_cons, hk]
      · simp [List.lookup_cons, hk]
    · have hb : (k == ak) = false := by simpa using hka
      by_cases hak : ak = key
      · subst hak
        simp only [List.map_cons, if_true, List.lookup_cons, hb, ih]
      · simp only [List.map_cons, if_neg hak, List.lookup_cons, hb, ih]

/-- A read after a write: the value written at the key written, the earlier
value at any other key. -/
theorem mapGet_mapSet (key k : String) (v : Value) (data : StringMap) :
    mapGet k (mapSet key v data) = if k = key then some v else mapGet k data := by
  unfold mapSet mapGet
  cases hget : List.lookup key data with
  | some old =>
    simp only [Option.isSome_some, if_true, lookup_map_overwrite]
    by_cases hk : k = key
    · subst hk; simp [hget]
    · simp [hk]
  | none =>
    simp only [Option.isSome_none, Bool.false_eq_true, if_false, List.lookup_append]
    by_cases hk : k = key
    · subst hk; simp [hget, List.lookup_cons]
    · have : (k == key) = false := by simpa using hk
      simp [List.lookup_cons, this, hk]

/-- A read after a delete: nothing at the key deleted, the earlier value at
any other key. -/
theorem mapGet_mapDelete (key k : String) (data : StringMap) :
    mapGet k (mapDelete key data) = if k = key then none else mapGet k data := by
  unfold mapDelete mapGet
  induction data with
  | nil => simp
  | cons a rest ih =>
    obtain ⟨ak, av⟩ := a
    by_cases hak : ak = key
    · subst hak
      simp only [List.filter_cons, bne_self_eq_false, Bool.false_eq_true, if_false, ih]
      by_cases hk : k = ak
      · simp [hk]
      · have : (k == ak) = false := by simpa using hk
        simp [List.lookup_cons, this, hk]
    · have hne : (ak != key) = true := by simpa using hak
      simp only [List.filter_cons, hne, if_true, List.lookup_cons]
      by_cases hk : k = ak
      · subst hk; simp [hak]
      · have : (k == ak) = false := by simpa using hk
        simp only [this, ih]

/-- A read after lines 40-44 of `additionalProperties`. -/
theorem mapGet_closeObject (k : String) (data : StringMap) (skip : Bool) :
    mapGet k (closeObject data skip)
      = if k = "additionalProperties" ∧ (mapGet "properties" data).isSome = true
            ∧ skip = false ∧ (mapGet "additionalProperties" data).isSome = false
        then some (.bool false) else mapGet k data := by
  unfold closeObject
  cases hp : (mapGet "properties" data).isSome <;> cases skip <;>
    cases ha : mapGet "additionalProperties" data <;>
    simp [ha, mapGet_mapSet]

/-- A read after lines 56-62 of `replaceIntOrString`. -/
theorem mapGet_openIntOrString (k : String) (data : StringMap) :
    mapGet k (openIntOrString data)
      = if isIntOrString data = true then
          (if k = "format" then none
           else if k = "oneOf" then some stringOrInteger else mapGet k data)
        else mapGet k data := by
  unfold openIntOrString
  cases isIntOrString data <;> simp [mapGet_mapDelete, mapGet_mapSet]

/-- A read in a map whose values have been transformed. -/
theorem lookup_map_values (f : Value → Value) (k : String) (data : StringMap) :
    List.lookup k (data.map (fun kv => (kv.1, f kv.2))) = (List.lookup k data).map f := by
  induction data with
  | nil => rfl
  | cons a rest ih =>
    obtain ⟨ak, av⟩ := a
    simp only [List.map_cons, List.lookup_cons]
    cases k == ak <;> simp [ih]

/-! ## One level of the two functions -/

/-- The function `additionalProperties` is lines 40-44 followed by the loop
over the entries. -/
theorem additionalProperties_eq (data : StringMap) (skip : Bool) :
    additionalProperties data skip
      = (closeObject data skip).map (fun kv => (kv.1, additionalPropertiesValue false kv.2)) := by
  rw [additionalProperties, ← List.attach_map_coe (closeObject data skip)
    (fun kv => (kv.1, additionalPropertiesValue false kv.2))]
  apply List.map_congr_left
  intro kv _
  obtain ⟨⟨k, v⟩, h⟩ := kv
  cases v <;> rfl

/-- The function `replaceIntOrString` is lines 56-62 followed by the loop over
the entries. -/
theorem replaceIntOrString_eq (data : StringMap) :
    replaceIntOrString data
      = (openIntOrString data).map (fun kv => (kv.1, replaceIntOrStringValue kv.2)) := by
  rw [replaceIntOrString, ← List.attach_map_coe (openIntOrString data)
    (fun kv => (kv.1, replaceIntOrStringValue kv.2))]
  apply List.map_congr_left
  intro kv _
  obtain ⟨⟨k, v⟩, h⟩ := kv
  cases v <;> rfl

/-- A read in the map `additionalProperties` returns. -/
theorem mapGet_additionalProperties (k : String) (data : StringMap) (skip : Bool) :
    mapGet k (additionalProperties data skip)
      = (mapGet k (closeObject data skip)).map (additionalPropertiesValue false) := by
  rw [additionalProperties_eq]
  exact lookup_map_values _ k _

/-- A read in the map `replaceIntOrString` returns. -/
theorem mapGet_replaceIntOrString (k : String) (data : StringMap) :
    mapGet k (replaceIntOrString data)
      = (mapGet k (openIntOrString data)).map replaceIntOrStringValue := by
  rw [replaceIntOrString_eq]
  exact lookup_map_values _ k _

/-! ## Paths -/

/-- The empty path reaches the value itself. -/
theorem Value.reach_nil (v : Value) : v.reach [] = some v := by
  cases v <;> rfl

/-- A path from a map starts with a read of the map. -/
theorem Value.reach_map_cons (data : StringMap) (k : String) (rest : List String) :
    (Value.map data).reach (k :: rest) = (mapGet k data).bind (fun v => v.reach rest) := by
  simp only [Value.reach]
  cases mapGet k data <;> rfl

/-- No path leads out of a value that is no map. -/
theorem Value.reach_cons_of_not_map (v : Value) (k : String) (rest : List String)
    (h : v.isMap = false) : v.reach (k :: rest) = none := by
  cases v <;> first | rfl | cases h

/-- On a map the loop of `additionalProperties` is the function itself. -/
theorem additionalPropertiesValue_map (skip : Bool) (data : StringMap) :
    additionalPropertiesValue skip (.map data) = .map (additionalProperties data skip) := rfl

/-- The loop of `additionalProperties` leaves a value that is no map. -/
theorem additionalPropertiesValue_of_not_map (skip : Bool) (v : Value)
    (h : v.isMap = false) : additionalPropertiesValue skip v = v := by
  cases v <;> first | rfl | cases h

/-- The loop of `additionalProperties` turns maps into maps and nothing else
into a map. -/
theorem isMap_additionalPropertiesValue (skip : Bool) (v : Value) :
    (additionalPropertiesValue skip v).isMap = v.isMap := by
  cases v <;> rfl

/-- The loop leaves the look of a value from outside as it is. -/
theorem shallow_additionalPropertiesValue (skip : Bool) (v : Value) :
    (additionalPropertiesValue skip v).shallow = v.shallow := by
  cases v <;> rfl

/-! ## Paths through `additionalProperties` -/

/-- One level of `additionalProperties`: the reads at every key of the map it
returns. -/
theorem additionalProperties_level (m : StringMap) (skip : Bool) :
    (∀ k, k ≠ "additionalProperties" →
      (mapGet k (additionalProperties m skip)).map Value.shallow
        = (mapGet k m).map Value.shallow)
    ∧ ((mapGet "properties" m).isSome = true → skip = false →
        (mapGet "additionalProperties" m).isSome = false →
        mapGet "additionalProperties" (additionalProperties m skip) = some (.bool false))
    ∧ (((mapGet "additionalProperties" m).isSome = true ∨ skip = true
          ∨ (mapGet "properties" m).isSome = false) →
        (mapGet "additionalProperties" (additionalProperties m skip)).map Value.shallow
          = (mapGet "additionalProperties" m).map Value.shallow) := by
  refine ⟨?_, ?_, ?_⟩
  · intro k hk
    rw [mapGet_additionalProperties, mapGet_closeObject, if_neg (fun h => hk h.1)]
    cases mapGet k m <;> simp [shallow_additionalPropertiesValue]
  · intro hp hs ha
    rw [mapGet_additionalProperties, mapGet_closeObject, if_pos ⟨rfl, hp, hs, ha⟩]
    rfl
  · intro h
    rw [mapGet_additionalProperties, mapGet_closeObject, if_neg]
    · cases mapGet "additionalProperties" m <;> simp [shallow_additionalPropertiesValue]
    · rintro ⟨-, hp, hs, ha⟩
      rcases h with h | h | h
      · rw [ha] at h; cases h
      · rw [hs] at h; cases h
      · rw [hp] at h; cases h

/-- Every value of the tree is found at the same path after
`additionalProperties`, transformed by the loop (by the call on the root when
the path is empty). -/
theorem reach_additionalProperties (p : List String) :
    ∀ (v : Value) (skip : Bool) (u : Value), v.reach p = some u →
      (additionalPropertiesValue skip v).reach p
        = some (additionalPropertiesValue (skip && p.isEmpty) u) := by
  induction p with
  | nil =>
    intro v skip u h
    rw [Value.reach_nil] at h
    injection h with h
    subst h
    rw [Value.reach_nil]
    simp
  | cons k rest ih =>
    intro v skip u h
    cases hv : v.isMap with
    | false => rw [Value.reach_cons_of_not_map v k rest hv] at h; cases h
    | true =>
      obtain ⟨data, rfl⟩ : ∃ data, v = Value.map data := by
        cases v <;> first | exact ⟨_, rfl⟩ | cases hv
      rw [Value.reach_map_cons] at h
      cases hget : mapGet k data with
      | none => rw [hget] at h; cases h
      | some x =>
        rw [hget] at h
        have hres : mapGet k (additionalProperties data skip)
            = some (additionalPropertiesValue false x) := by
          rw [mapGet_additionalProperties, mapGet_closeObject, if_neg, hget]
          · rfl
          · rintro ⟨hk, -, -, ha⟩
            rw [hk] at hget
            rw [hget] at ha
            cases ha
        rw [additionalPropertiesValue_map, Value.reach_map_cons, hres]
        have := ih x false u h
        simpa using this

/-- Every map of the tree after `additionalProperties` stands at a path at
which the tree held a map before. -/
theorem reach_additionalProperties_inv (p : List String) :
    ∀ (v : Value) (skip : Bool) (u' : Value),
      (additionalPropertiesValue skip v).reach p = some u' → u'.isMap = true →
      ∃ u, v.reach p = some u ∧ u.isMap = true := by
  induction p with
  | nil =>
    intro v skip u' h hmap
    rw [Value.reach_nil] at h
    injection h with h
    subst h
    rw [isMap_additionalPropertiesValue] at hmap
    exact ⟨v, Value.reach_nil v, hmap⟩
  | cons k rest ih =>
    intro v skip u' h hmap
    cases hv : v.isMap with
    | false =>
      rw [additionalPropertiesValue_of_not_map skip v hv,
        Value.reach_cons_of_not_map v k rest hv] at h
      cases h
    | true =>
      obtain ⟨data, rfl⟩ : ∃ data, v = Value.map data := by
        cases v <;> first | exact ⟨_, rfl⟩ | cases hv
      rw [additionalPropertiesValue_map, Value.reach_map_cons, mapGet_additionalProperties,
        mapGet_closeObject] at h
      split at h
      · cases rest with
        | nil =>
          simp only [Option.map_some', Option.some_bind, Value.reach_nil,
            Option.some.injEq] at h
          subst h
          cases hmap
        | cons k2 rest2 =>
          simp only [Option.map_some', Option.some_bind] at h
          rw [Value.reach_cons_of_not_map (additionalPropertiesValue false (Value.bool false))
            k2 rest2 rfl] at h
          cases h
      · cases hget : mapGet k data with
        | none => rw [hget] at h; cases h
        | some x =>
          rw [hget] at h
          simp only [Option.map_some', Option.some_bind] at h
          obtain ⟨u, hu, humap⟩ := ih x false u' h hmap
          exact ⟨u, by rw [Value.reach_map_cons, hget]; exact hu, humap⟩

/-- The keys of the map `additionalProperties` returns are those lines 40-44
leave. -/
theorem keys_additionalProperties (data : StringMap) (skip : Bool) :
    (additionalProperties data skip).map Prod.fst = (closeObject data skip).map Prod.fst := by
  rw [additionalProperties_eq, List.map_map]
  rfl

/-! ## Closing the object schemas: claim C27 -/

/-- C27: for every schema tree `data`, after `additionalProperties(data,
true)`: every map `m` reachable from the root through map-valued entries is
found at the same path as a map `m'` that reads as `m` at every key other
than `additionalProperties` (same keys, same values, maps counting as maps);
when `m` is not the root and has a `properties` key, `m'` has an
`additionalProperties` key, with value `false` where `m` had none and with the
earlier value where `m` had one; when `m` is the root or has no `properties`
key, `m'` reads as `m` at `additionalProperties` too, so that the root gains
no such key; and every map reachable afterwards stands at a path that held a
map before. -/
theorem additionalProperties_closes_every_object (data : StringMap) :
    (∀ p m, (Value.map data).reach p = some (.map m) →
      ∃ m', (Value.map (additionalProperties data true)).reach p = some (.map m')
        ∧ (∀ k, k ≠ "additionalProperties" →
            (mapGet k m').map Value.shallow = (mapGet k m).map Value.shallow)
        ∧ (p ≠ [] → (mapGet "properties" m).isSome = true →
            (mapGet "properties" m').isSome = true
            ∧ (mapGet "additionalProperties" m').isSome = true
            ∧ ((mapGet "additionalProperties" m).isSome = false →
                mapGet "additionalProperties" m' = some (.bool false))
            ∧ ((mapGet "additionalProperties" m).isSome = true →
                (mapGet "additionalProperties" m').map Value.shallow
                  = (mapGet "additionalProperties" m).map Value.shallow))
        ∧ ((p = [] ∨ (mapGet "properties" m).isSome = false) →
            (mapGet "additionalProperties" m').map Value.shallow
              = (mapGet "additionalProperties" m).map Value.shallow))
    ∧ (∀ p m', (Value.map (additionalProperties data true)).reach p = some (.map m') →
        ∃ m, (Value.map data).reach p = some (.map m)) := by
  constructor
  · intro p m hreach
    have h := reach_additionalProperties p (.map data) true (.map m) hreach
    rw [additionalPropertiesValue_map, additionalPropertiesValue_map] at h
    obtain ⟨hother, hadd, hkeep⟩ := additionalProperties_level m (true && p.isEmpty)
    refine ⟨_, h, hother, ?_, ?_⟩
    · intro hp hprops
      have hskip : (true && p.isEmpty) = false := by
        cases p with
        | nil => exact absurd rfl hp
        | cons _ _ => rfl
      have hprops' : (mapGet "properties" (additionalProperties m (true && p.isEmpty))).isSome
          = true := by
        have := hother "properties" (by decide)
        cases h1 : mapGet "properties" m with
        | none => rw [h1] at hprops; cases hprops
        | some v =>
          rw [h1] at this
          cases h2 : mapGet "properties" (additionalProperties m (true && p.isEmpty)) with
          | none => rw [h2] at this; cases this
          | some _ => rfl
      refine ⟨hprops', ?_, fun ha => hadd hprops hskip ha, fun ha => hkeep (Or.inl ha)⟩
      cases ha : (mapGet "additionalProperties" m).isSome with
      | false => rw [hadd hprops hskip ha]; rfl
      | true =>
        have := hkeep (Or.inl ha)
        cases h1 : mapGet "additionalProperties" m with
        | none => rw [h1] at ha; cases ha
        | some v =>
          rw [h1] at this
          cases h2 : mapGet "additionalProperties"
              (additionalProperties m (true && p.isEmpty)) with
          | none => rw [h2] at this; cases this
          | some _ => rfl
    · rintro (hp | hprops)
      · subst hp
        exact hkeep (Or.inr (Or.inl rfl))
      · exact hkeep (Or.inr (Or.inr hprops))
  · intro p m' hreach
    have hreach' : (additionalPropertiesValue true (.map data)).reach p = some (.map m') := by
      rw [additionalPropertiesValue_map]; exact hreach
    obtain ⟨u, hu, humap⟩ := reach_additionalProperties_inv p (.map data) true (.map m')
      hreach' rfl
    cases u with
    | map m => exact ⟨m, hu⟩
    | null => cases humap
    | bool b => cases humap
    | int n => cases humap
    | float t => cases humap
    | string s => cases humap
    | slice xs => cases humap

/-- C27, at the schema of an object with a nested object `spec`: the nested
object gets `additionalProperties: false`, the root does not. -/
theorem additionalProperties_closes_every_object_witness :
    (∃ m', (Value.map (additionalProperties nestedSchema true)).reach ["properties", "spec"]
          = some (.map m')
        ∧ mapGet "additionalProperties" m' = some (.bool false))
    ∧ (∃ m', (Value.map (additionalProperties nestedSchema true)).reach [] = some (.map m')
        ∧ (mapGet "additionalProperties" m').map Value.shallow = none) :=
  ⟨(fun ⟨m', h1, _, h3, _⟩ => ⟨m', h1, (h3 (by decide) rfl).2.2.1 rfl⟩)
    ((additionalProperties_closes_every_object nestedSchema).1 ["properties", "spec"]
      [("type", .string "object"),
       ("properties", .map [("replicas", .map [("type", .string "integer")])])] rfl),
   (fun ⟨m', h1, _, _, h4⟩ => ⟨m', h1, h4 (Or.inl rfl)⟩)
    ((additionalProperties_closes_every_object nestedSchema).1 [] nestedSchema rfl)⟩

/-! ## Property names: claim C29 -/

/-- C29 fails at an object that declares a property named `properties`: the
map of its declared properties has the key `properties`, so that
`additionalProperties(data, true)` takes it for an object schema and adds the
key `additionalProperties` to it; the declared property names, `properties`
alone before the call, are `properties` and `additionalProperties` after it. -/
theorem additionalProperties_adds_property_name :
    (mapGet "properties" schemaWithPropertyNamedProperties).map Value.keys
        = some ["properties"]
    ∧ (mapGet "properties"
          (additionalProperties schemaWithPropertyNamedProperties true)).map Value.keys
        = some ["properties", "additionalProperties"] := by
  constructor
  · rfl
  · have hget : mapGet "properties" (closeObject schemaWithPropertyNamedProperties true)
        = some (.map [("properties", .map [("type", .string "string")])]) := rfl
    rw [mapGet_additionalProperties, hget]
    simp only [Option.map_some', additionalPropertiesValue_map, Value.keys,
      keys_additionalProperties]
    rfl

/-! ## Paths through `replaceIntOrString` -/

/-- On a map the loop of `replaceIntOrString` is the function itself. -/
theorem replaceIntOrStringValue_map (data : StringMap) :
    replaceIntOrStringValue (.map data) = .map (replaceIntOrString data) := rfl

/-- The loop of `replaceIntOrString` leaves a value that is no map. -/
theorem replaceIntOrStringValue_of_not_map (v : Value) (h : v.isMap = false) :
    replaceIntOrStringValue v = v := by
  cases v <;> first | rfl | cases h

/-- The loop of `replaceIntOrString` turns maps into maps and nothing else
into a map. -/
theorem isMap_replaceIntOrStringValue (v : Value) :
    (replaceIntOrStringValue v).isMap = v.isMap := by
  cases v <;> rfl

/-- The loop of `replaceIntOrString` leaves the look of a value from outside
as it is. -/
theorem shallow_replaceIntOrStringValue (v : Value) :
    (replaceIntOrStringValue v).shallow = v.shallow := by
  cases v <;> rfl

/-- A map whose `format` is `int-or-string` holds that string under
`format`. -/
theorem mapGet_format_of_isIntOrString (m : StringMap) (h : isIntOrString m = true) :
    mapGet "format" m = some (.string "int-or-string") := by
  unfold isIntOrString at h
  split at h
  · rename_i s hs
    rw [hs]
    have : s = "int-or-string" := by simpa using h
    rw [this]
  · cases h

/-- One level of `replaceIntOrString`: the reads at every key of the map it
returns. -/
theorem replaceIntOrString_level (m : StringMap) :
    (isIntOrString m = true →
      mapGet "format" (replaceIntOrString m) = none
      ∧ mapGet "oneOf" (replaceIntOrString m) = some stringOrInteger
      ∧ ∀ k, k ≠ "format" → k ≠ "oneOf" →
          (mapGet k (replaceIntOrString m)).map Value.shallow
            = (mapGet k m).map Value.shallow)
    ∧ (isIntOrString m = false →
        ∀ k, (mapGet k (replaceIntOrString m)).map Value.shallow
          = (mapGet k m).map Value.shallow)
    ∧ isIntOrString (replaceIntOrString m) = false := by
  have hshallow : ∀ o : Option Value,
      (o.map replaceIntOrStringValue).map Value.shallow = o.map Value.shallow := by
    intro o
    cases o <;> simp [shallow_replaceIntOrStringValue]
  refine ⟨?_, ?_, ?_⟩
  · intro h
    refine ⟨?_, ?_, ?_⟩
    · rw [mapGet_replaceIntOrString, mapGet_openIntOrString, if_pos h, if_pos rfl]
      rfl
    · rw [mapGet_replaceIntOrString, mapGet_openIntOrString, if_pos h,
        if_neg (by decide), if_pos rfl]
      rfl
    · intro k hf ho
      rw [mapGet_replaceIntOrString, mapGet_openIntOrString, if_pos h, if_neg hf, if_neg ho]
      exact hshallow _
  · intro h k
    rw [mapGet_replaceIntOrString, mapGet_openIntOrString, h]
    exact hshallow _
  · cases h : isIntOrString m with
    | true =>
      unfold isIntOrString
      rw [mapGet_replaceIntOrString, mapGet_openIntOrString, if_pos h, if_pos rfl]
      rfl
    | false =>
      have hget : mapGet "format" (replaceIntOrString m)
          = (mapGet "format" m).map replaceIntOrStringValue := by
        rw [mapGet_replaceIntOrString, mapGet_openIntOrString, h]
        rfl
      unfold isIntOrString at h ⊢
      rw [hget]
      cases hf : mapGet "format" m with
      | none => rfl
      | some v =>
        rw [hf] at h
        cases v <;> first | rfl | exact h

/-- Every map of the tree after `replaceIntOrString` stands at a path at which
the tree held a map before, and is what the function makes of that map. -/
theorem reach_replaceIntOrString_inv (p : List String) :
    ∀ (v u' : Value), (replaceIntOrStringValue v).reach p = some u' → u'.isMap = true →
      ∃ u, v.reach p = some u ∧ u' = replaceIntOrStringValue u := by
  induction p with
  | nil =>
    intro v u' h _
    rw [Value.reach_nil] at h
    injection h with h
    exact ⟨v, Value.reach_nil v, h.symm⟩
  | cons k rest ih =>
    intro v u' h hmap
    cases hv : v.isMap with
    | false =>
      rw [replaceIntOrStringValue_of_not_map v hv,
        Value.reach_cons_of_not_map v k rest hv] at h
      cases h
    | true =>
      obtain ⟨data, rfl⟩ : ∃ data, v = Value.map data := by
        cases v <;> first | exact ⟨_, rfl⟩ | cases hv
      rw [replaceIntOrStringValue_map, Value.reach_map_cons, mapGet_replaceIntOrString,
        mapGet_openIntOrString] at h
      have hcut : ∀ w : Value, w.isMap = false → replaceIntOrStringValue w = w →
          (some w).bind (fun x => x.reach rest) = some u' → False := by
        intro w hw _ hreach
        cases rest with
        | nil =>
          simp only [Option.some_bind, Value.reach_nil, Option.some.injEq] at hreach
          rw [← hreach, hw] at hmap
          cases hmap
        | cons k2 rest2 =>
          simp only [Option.some_bind] at hreach
          rw [Value.reach_cons_of_not_map w k2 rest2 hw] at hreach
          cases hreach
      have hstep : (Option.map replaceIntOrStringValue (mapGet k data)).bind
          (fun x => x.reach rest) = some u' →
          ∃ u, (Value.map data).reach (k :: rest) = some u
            ∧ u' = replaceIntOrStringValue u := by
        intro h
        cases hget : mapGet k data with
        | none => rw [hget] at h; cases h
        | some x =>
          rw [hget] at h
          simp only [Option.map_some', Option.some_bind] at h
          obtain ⟨u, hu, hu'⟩ := ih x u' h hmap
          exact ⟨u, by rw [Value.reach_map_cons, hget]; exact hu, hu'⟩
      split at h
      · split at h
        · cases h
        · split at h
          · exact absurd h (hcut stringOrInteger rfl rfl)
          · exact hstep h
      · exact hstep h

/-- Every map of the tree is found at the same path after
`replaceIntOrString`, transformed by the function, unless its path goes
through the `oneOf` entry of a map whose `format` was `int-or-string`. -/
theorem reach_replaceIntOrString (p : List String) :
    ∀ (v u : Value), v.reach p = some u → u.isMap = true →
      (replaceIntOrStringValue v).reach p = some (replaceIntOrStringValue u)
      ∨ ∃ q rest owner, p = q ++ "oneOf" :: rest ∧ v.reach q = some (.map owner)
          ∧ isIntOrString owner = true := by
  induction p with
  | nil =>
    intro v u h _
    rw [Value.reach_nil] at h
    injection h with h
    subst h
    exact Or.inl (Value.reach_nil _)
  | cons k rest ih =>
    intro v u h hmap
    cases hv : v.isMap with
    | false => rw [Value.reach_cons_of_not_map v k rest hv] at h; cases h
    | true =>
      obtain ⟨data, rfl⟩ : ∃ data, v = Value.map data := by
        cases v <;> first | exact ⟨_, rfl⟩ | cases hv
      rw [Value.reach_map_cons] at h
      cases hget : mapGet k data with
      | none => rw [hget] at h; cases h
      | some x =>
        rw [hget] at h
        simp only [Option.some_bind] at h
        have hgo : mapGet k (replaceIntOrString data) = some (replaceIntOrStringValue x) →
            (replaceIntOrStringValue (.map data)).reach (k :: rest)
                = some (replaceIntOrStringValue u)
            ∨ ∃ q rest' owner, k :: rest = q ++ "oneOf" :: rest'
                ∧ (Value.map data).reach q = some (.map owner)
                ∧ isIntOrString owner = true := by
          intro hres
          rcases ih x u h hmap with hl | ⟨q, rest', owner, hp, hq, hown⟩
          · left
            rw [replaceIntOrStringValue_map, Value.reach_map_cons, hres]
            exact hl
          · right
            refine ⟨k :: q, rest', owner, by rw [hp]; rfl, ?_, hown⟩
            rw [Value.reach_map_cons, hget]
            exact hq
        cases hios : isIntOrString data with
        | false =>
          apply hgo
          rw [mapGet_replaceIntOrString, mapGet_openIntOrString, hios, hget]
          rfl
        | true =>
          by_cases hko : k = "oneOf"
          · right
            exact ⟨[], rest, data, by rw [hko]; rfl, Value.reach_nil _, hios⟩
          · by_cases hkf : k = "format"
            · exfalso
              rw [hkf, mapGet_format_of_isIntOrString data hios] at hget
              injection hget with hget
              subst hget
              cases rest with
              | nil =>
                rw [Value.reach_nil] at h
                injection h with h
                subst h
                cases hmap
              | cons k2 rest2 =>
                rw [Value.reach_cons_of_not_map (Value.string "int-or-string") k2 rest2
                  rfl] at h
                cases h
            · apply hgo
              rw [mapGet_replaceIntOrString, mapGet_openIntOrString, if_pos hios,
                if_neg hkf, if_neg hko, hget]
              rfl

/-! ## The int-or-string values: claim C28 -/

/-- C28 (amended): for every schema tree `data`, after `replaceIntOrString`:
no map reachable from the root through map-valued entries has `format` equal
to `int-or-string`; every such map `m'` stands at a path that held a map `m`
before; when `m` had the format, `m'` has no `format` key, has `oneOf` equal
to the list of `type: string` and `type: integer`, in that order, and reads as
`m` at every other key; when `m` did not have it, `m'` reads as `m` at every
key (same keys, same values, maps counting as maps); and every map of the
tree before the call is still found at its path, unless the path goes through
the `oneOf` entry of a map that had the format: line 57 overwrites that entry,
and what stood under it is dropped as it was. -/
theorem replaceIntOrString_replaces_every_format (data : StringMap) :
    (∀ p m', (Value.map (replaceIntOrString data)).reach p = some (.map m') →
      isIntOrString m' = false
      ∧ ∃ m, (Value.map data).reach p = some (.map m)
          ∧ (isIntOrString m = true →
              mapGet "format" m' = none
              ∧ mapGet "oneOf" m' = some stringOrInteger
              ∧ ∀ k, k ≠ "format" → k ≠ "oneOf" →
                  (mapGet k m').map Value.shallow = (mapGet k m).map Value.shallow)
          ∧ (isIntOrString m = false →
              ∀ k, (mapGet k m').map Value.shallow = (mapGet k m).map Value.shallow))
    ∧ (∀ p m, (Value.map data).reach p = some (.map m) →
        (∃ m', (Value.map (replaceIntOrString data)).reach p = some (.map m'))
        ∨ ∃ q rest owner, p = q ++ "oneOf" :: rest
            ∧ (Value.map data).reach q = some (.map owner)
            ∧ isIntOrString owner = true) := by
  constructor
  · intro p m' hreach
    have hreach' : (replaceIntOrStringValue (.map data)).reach p = some (.map m') := by
      rw [replaceIntOrStringValue_map]; exact hreach
    obtain ⟨u, hu, hu'⟩ := reach_replaceIntOrString_inv p (.map data) (.map m') hreach' rfl
    have humap : u.isMap = true := by
      have := isMap_replaceIntOrStringValue u
      rw [← hu'] at this
      exact this.symm
    obtain ⟨m, rfl⟩ : ∃ m, u = Value.map m := by
      cases u <;> first | exact ⟨_, rfl⟩ | cases humap
    rw [replaceIntOrStringValue_map] at hu'
    injection hu' with hu'
    subst hu'
    obtain ⟨hyes, hno, hclean⟩ := replaceIntOrString_level m
    exact ⟨hclean, m, hu, hyes, hno⟩
  · intro p m hreach
    rcases reach_replaceIntOrString p (.map data) (.map m) hreach rfl with h | h
    · left
      rw [replaceIntOrStringValue_map, replaceIntOrStringValue_map] at h
      exact ⟨_, h⟩
    · exact Or.inr h

/-- C28 (amended), at the schema of an object with an int-or-string property `port`:
after the call the map of `port` has no `format` and the `oneOf` of a string
and an integer. -/
theorem replaceIntOrString_replaces_every_format_witness :
    ∃ m', (Value.map (replaceIntOrString portSchema)).reach ["properties", "port"]
        = some (.map m')
      ∧ isIntOrString m' = false
      ∧ mapGet "format" m' = none
      ∧ mapGet "oneOf" m' = some stringOrInteger :=
  ((replaceIntOrString_replaces_every_format portSchema).2 ["properties", "port"]
      [("format", .string "int-or-string"), ("description", .string "a port")] rfl).elim
    (fun ⟨m', h⟩ =>
      match (replaceIntOrString_replaces_every_format portSchema).1 ["properties", "port"] m' h
      with
      | ⟨hclean, m, hm, hyes, _⟩ =>
        have hmeq : m = [("format", .string "int-or-string"),
            ("description", .string "a port")] := by
          have : (Value.map portSchema).reach ["properties", "port"]
              = some (.map [("format", .string "int-or-string"),
                  ("description", .string "a port")]) := rfl
          rw [this] at hm
          injection hm with hm
          injection hm with hm
          exact hm.symm
        ⟨m', h, hclean, (hyes (by rw [hmeq]; rfl)).1, (hyes (by rw [hmeq]; rfl)).2.1⟩)
    (fun ⟨q, rest, owner, hp, hq, hown⟩ => by
      exfalso
      rcases q with _ | ⟨a, _ | ⟨b, _ | ⟨c, q⟩⟩⟩
      · simp at hp
      · simp at hp
      · simp at hp
      · simp at hp)

/-! ## Unchecked type assertions: claim C30 -/

/-- C30 fails: an entry of `versions` that is no map, a version with a schema
and no string `name`, and a spec without a `names` map each end
`extractSchema` with a failed type assertion (lines 17, 20 and 31), where the
claim has them skipped.  In the first case the file of the version before the
entry is written and the run stops there. -/
theorem extractSchema_panics_on_unchecked_assertions :
    ((extractSchema "crds" specWithStringVersion).2
        = some "interface conversion: version is not a map"
      ∧ (extractSchema "crds" specWithStringVersion).1.length = 1)
    ∧ extractSchema "crds" specWithUnnamedVersion
        = ([], some "interface conversion: name is not a string")
    ∧ extractSchema "crds" specWithoutNames
        = ([], some "interface conversion: names is not a map") :=
  ⟨⟨rfl, rfl⟩, rfl, rfl⟩

/-! ## The ASM feature -/

/-- The variable written is in the list afterwards. -/
theorem mem_addEnvVar_self (e : EnvVar) (envs : List EnvVar) : e ∈ addEnvVar e envs := by
  unfold addEnvVar
  split
  · rename_i h
    obtain ⟨x, hx, hname⟩ := List.any_eq_true.mp h
    exact List.mem_map.mpr ⟨x, hx, by simp [hname]⟩
  · simp

/-- A variable of the list is still in it after a write, if the write, when
it has the name of the variable, writes the variable itself. -/
theorem mem_addEnvVar_of_mem (e x : EnvVar) (envs : List EnvVar) (hx : x ∈ envs)
    (hsame : x.Name = e.Name → x = e) : x ∈ addEnvVar e envs := by
  by_cases hname : x.Name = e.Name
  · rw [hsame hname]; exact mem_addEnvVar_self e envs
  · unfold addEnvVar
    split
    · exact List.mem_map.mpr ⟨x, hx, by simp [hname]⟩
    · exact List.mem_append_left _ hx

/-- A variable with value `true` stays in the list when another variable is
written with value `true`. -/
theorem mem_addEnvVar_true (n1 n2 : String) (envs : List EnvVar)
    (h : ({ Name := n1, Value := "true" } : EnvVar) ∈ envs) :
    ({ Name := n1, Value := "true" } : EnvVar)
      ∈ addEnvVar { Name := n2, Value := "true" } envs := by
  apply mem_addEnvVar_of_mem _ _ _ h
  intro hname
  simp only at hname
  rw [hname]

/-- The method `ManageClusterAgent` leaves, on the cluster-agent container,
the variable of every enabled toggle with value `true`. -/
theorem ManageClusterAgent_sets_enabled (names : ASMNames) (f : asmFeature)
    (managers : PodTemplateManagers) :
    (f.threatsEnabled = true →
      ({ Name := names.DDAdmissionControllerAppsecEnabled, Value := "true" } : EnvVar) ∈
        (f.ManageClusterAgent names managers).EnvVarsByC names.ClusterAgentContainerName)
    ∧ (f.scaEnabled = true →
      ({ Name := names.DDAdmissionControllerAppsecSCAEnabled, Value := "true" } : EnvVar) ∈
        (f.ManageClusterAgent names managers).EnvVarsByC names.ClusterAgentContainerName)
    ∧ (f.iastEnabled = true →
      ({ Name := names.DDAdmissionControllerIASTEnabled, Value := "true" } : EnvVar) ∈
        (f.ManageClusterAgent names managers).EnvVarsByC names.ClusterAgentContainerName) := by
  obtain ⟨t, s, i⟩ := f
  refine ⟨?_, ?_, ?_⟩ <;> intro h <;> simp only at h <;> subst h
  · cases s <;> cases i <;>
      simp [asmFeature.ManageClusterAgent, PodTemplateManagers.AddEnvVarToContainer,
        mem_addEnvVar_true, mem_addEnvVar_self]
  · cases t <;> cases i <;>
      simp [asmFeature.ManageClusterAgent, PodTemplateManagers.AddEnvVarToContainer,
        mem_addEnvVar_true, mem_addEnvVar_self]
  · cases t <;> cases s <;>
      simp [asmFeature.ManageClusterAgent, PodTemplateManagers.AddEnvVarToContainer,
        mem_addEnvVar_true, mem_addEnvVar_self]

/-- The check `assertEnv` passes for the variables of the enabled toggles
after `ManageClusterAgent`. -/
theorem assertEnv_expectedEnv (names : ASMNames) (threats sca iast : Bool)
    (managers : PodTemplateManagers) :
    assertEnv names (expectedEnv names threats sca iast)
      ((buildASMFeature.Configure (WithASMEnabled threats sca iast)).1.ManageClusterAgent
        names managers) = true := by
  obtain ⟨ht, hs, hi⟩ := ManageClusterAgent_sets_enabled names
    (buildASMFeature.Configure (WithASMEnabled threats sca iast)).1 managers
  unfold assertEnv expectedEnv
  simp only [List.all_eq_true, List.mem_append]
  intro ev hev
  rcases hev with (hev | hev) | hev
  · cases threats with
    | false => simp at hev
    | true =>
      simp only [if_true, List.mem_singleton] at hev
      subst hev
      simpa using ht rfl
  · cases sca with
    | false => simp at hev
    | true =>
      simp only [if_true, List.mem_singleton] at hev
      subst hev
      simpa using hs rfl
  · cases iast with
    | false => simp at hev
    | true =>
      simp only [if_true, List.mem_singleton] at hev
      subst hev
      simpa using hi rfl

/-- The modelled feature passes the five cases of `TestASMFeature`. -/
theorem TestASMFeature_passes (names : ASMNames) :
    (TestASMFeature names).all (runFeatureTest names) = true := by
  have h1 := assertEnv_expectedEnv names true false false { EnvVarsByC := fun _ => [] }
  have h2 := assertEnv_expectedEnv names false true false { EnvVarsByC := fun _ => [] }
  have h3 := assertEnv_expectedEnv names false false true { EnvVarsByC := fun _ => [] }
  have h4 := assertEnv_expectedEnv names true true true { EnvVarsByC := fun _ => [] }
  simp only [expectedEnv, if_true, Bool.false_eq_true, if_false, List.append_nil,
    List.nil_append, List.singleton_append, List.cons_append] at h1 h2 h3 h4
  simp only [TestASMFeature, List.all_cons, List.all_nil, Bool.and_true, Bool.and_eq_true]
  refine ⟨rfl, ?_, ?_, ?_, ?_⟩
  · simp only [runFeatureTest, h1]; rfl
  · simp only [runFeatureTest, h2]; rfl
  · simp only [runFeatureTest, h3]; rfl
  · simp only [runFeatureTest, h4]; rfl

/-! ## The ASM toggles: claims C24 and C25 -/

/-- C24: for every choice of the three ASM toggles, the feature built by
`buildASMFeature` is configured exactly when at least one toggle is enabled;
with all three disabled, or absent, it is not configured. -/
theorem asmFeature_configured_iff_some_toggle (threats sca iast : Bool) :
    ((buildASMFeature.Configure (WithASMEnabled threats sca iast)).2 = true
      ↔ (threats = true ∨ sca = true ∨ iast = true))
    ∧ (buildASMFeature.Configure (WithASMEnabled false false false)).2 = false
    ∧ (buildASMFeature.Configure {}).2 = false := by
  refine ⟨?_, rfl, rfl⟩
  cases threats <;> cases sca <;> cases iast <;> decide

/-- C25: for every choice of the three ASM toggles with at least one enabled,
the feature is configured and `ManageClusterAgent`, on any managers, leaves on
the cluster-agent container, for each enabled toggle, its environment variable
with value `true`: `DDAdmissionControllerAppsecEnabled` for threats,
`DDAdmissionControllerAppsecSCAEnabled` for SCA and
`DDAdmissionControllerIASTEnabled` for IAST; the check `assertEnv` of the test
passes for the variables of the enabled toggles. -/
theorem asmFeature_sets_env_of_enabled_toggles (names : ASMNames)
    (threats sca iast : Bool) (managers : PodTemplateManagers)
    (hsome : threats = true ∨ sca = true ∨ iast = true) :
    (buildASMFeature.Configure (WithASMEnabled threats sca iast)).2 = true
    ∧ (threats = true →
        ({ Name := names.DDAdmissionControllerAppsecEnabled, Value := "true" } : EnvVar) ∈
          ((buildASMFeature.Configure (WithASMEnabled threats sca iast)).1.ManageClusterAgent
            names managers).EnvVarsByC names.ClusterAgentContainerName)
    ∧ (sca = true →
        ({ Name := names.DDAdmissionControllerAppsecSCAEnabled, Value := "true" } : EnvVar) ∈
          ((buildASMFeature.Configure (WithASMEnabled threats sca iast)).1.ManageClusterAgent
            names managers).EnvVarsByC names.ClusterAgentContainerName)
    ∧ (iast = true →
        ({ Name := names.DDAdmissionControllerIASTEnabled, Value := "true" } : EnvVar) ∈
          ((buildASMFeature.Configure (WithASMEnabled threats sca iast)).1.ManageClusterAgent
            names managers).EnvVarsByC names.ClusterAgentContainerName)
    ∧ assertEnv names (expectedEnv names threats sca iast)
        ((buildASMFeature.Configure (WithASMEnabled threats sca iast)).1.ManageClusterAgent
          names managers) = true := by
  obtain ⟨ht, hs, hi⟩ := ManageClusterAgent_sets_enabled names
    (buildASMFeature.Configure (WithASMEnabled threats sca iast)).1 managers
  refine ⟨?_, ht, hs, hi, assertEnv_expectedEnv names threats sca iast managers⟩
  rcases hsome with h | h | h <;> subst h <;>
    simp [asmFeature.Configure, WithASMEnabled, BoolValue]

/-- C25, at threats and IAST enabled, SCA disabled, on managers that hold
another variable already. -/
theorem asmFeature_sets_env_of_enabled_toggles_witness :
    ({ Name := "DD_APPSEC_ENABLED", Value := "true" } : EnvVar) ∈
        ((buildASMFeature.Configure (WithASMEnabled true false true)).1.ManageClusterAgent
          demoASMNames { EnvVarsByC := fun _ => [{ Name := "DD_SITE", Value := "eu" }] }).EnvVarsByC
          "cluster-agent"
    ∧ ({ Name := "DD_IAST_ENABLED", Value := "true" } : EnvVar) ∈
        ((buildASMFeature.Configure (WithASMEnabled true false true)).1.ManageClusterAgent
          demoASMNames { EnvVarsByC := fun _ => [{ Name := "DD_SITE", Value := "eu" }] }).EnvVarsByC
          "cluster-agent" :=
  ⟨(asmFeature_sets_env_of_enabled_toggles demoASMNames true false true
      { EnvVarsByC := fun _ => [{ Name := "DD_SITE", Value := "eu" }] } (Or.inl rfl)).2.1 rfl,
   (asmFeature_sets_env_of_enabled_toggles demoASMNames true false true
      { EnvVarsByC := fun _ => [{ Name := "DD_SITE", Value := "eu" }] }
      (Or.inl rfl)).2.2.2.1 rfl⟩

/-! ## The resolution, turn by turn -/

/-- The resolution of a list in two parts: the second part starts from the
map the first part leaves. -/
theorem resolveAll_append
    (resolve : DatadogAgentProfile → List Node → NodeProfiles → Time →
      DatadogAgentProfile × NodeProfiles × Option Err)
    (nodeList : List Node) (now : Time) (front : List DatadogAgentProfile) :
    ∀ (back : List DatadogAgentProfile) (perNode : NodeProfiles),
      (resolveAll resolve nodeList now (front ++ back) perNode).2
        = (resolveAll resolve nodeList now back
            (resolveAll resolve nodeList now front perNode).2).2 := by
  induction front with
  | nil => intro back perNode; rfl
  | cons a rest ih =>
    intro back perNode
    simp only [List.cons_append, resolveAll]
    exact ih back _

/-- When no turn reassigns a claimed node, the resolution of a list keeps
every entry of the map it starts from. -/
theorem resolveAll_keeps
    (resolve : DatadogAgentProfile → List Node → NodeProfiles → Time →
      DatadogAgentProfile × NodeProfiles × Option Err)
    (nodeList : List Node) (now : Time)
    (hkeep : ∀ profile perNode k v, List.lookup k perNode = some v →
      List.lookup k (resolve profile nodeList perNode now).2.1 = some v)
    (profiles : List DatadogAgentProfile) :
    ∀ (perNode : NodeProfiles) (k : String) (v : NamespacedName),
      List.lookup k perNode = some v →
      List.lookup k (resolveAll resolve nodeList now profiles perNode).2 = some v := by
  induction profiles with
  | nil => intro perNode k v h; exact h
  | cons a rest ih =>
    intro perNode k v h
    simp only [resolveAll]
    exact ih _ k v (hkeep a perNode k v h)

/-- The all-or-nothing resolver: the node map after a turn. -/
theorem ProfileToApplyWhole_lookup (profile : DatadogAgentProfile) (nodes : List Node)
    (perNode : NodeProfiles) (now : Time) (k : String) :
    ((ProfileToApplyWhole profile nodes perNode now).2.2 = none →
      List.lookup k (ProfileToApplyWhole profile nodes perNode now).2.1
        = (List.lookup k perNode).or
            (if contestsNode profile nodes k then some (profileKey profile) else none))
    ∧ ((ProfileToApplyWhole profile nodes perNode now).2.2 ≠ none →
      (ProfileToApplyWhole profile nodes perNode now).2.1 = perNode) := by
  by_cases hc : ((nodes.filter (profileSelects profile)).any
      (fun node => (List.lookup node.Name perNode).isSome)) = true
  · have h1 : (ProfileToApplyWhole profile nodes perNode now).2.2
        = some (Err.other "conflict with existing profile") := by
      simp [ProfileToApplyWhole, hc]
    have h2 : (ProfileToApplyWhole profile nodes perNode now).2.1 = perNode := by
      simp [ProfileToApplyWhole, hc]
    exact ⟨fun h => absurd (h1.symm.trans h) (by simp), fun _ => h2⟩
  · have h1 : (ProfileToApplyWhole profile nodes perNode now).2.2 = none := by
      simp [ProfileToApplyWhole, hc]
    have h2 : (ProfileToApplyWhole profile nodes perNode now).2.1
        = claimNodes (profileKey profile) (nodes.filter (profileSelects profile)) perNode := by
      simp [ProfileToApplyWhole, hc]
    refine ⟨fun _ => ?_, fun h => absurd h1 h⟩
    rw [h2, claimNodes_lookup, any_filter_selects]

/-- The contract both claiming policies meet, for the all-or-nothing
resolver: a claimed node is never reassigned, an accepted profile leaves
every node it contests claimed, and a node it claims is claimed for
itself. -/
theorem ProfileToApplyWhole_contract (nodes : List Node) (now : Time) :
    (∀ profile perNode k v, List.lookup k perNode = some v →
      List.lookup k (ProfileToApplyWhole profile nodes perNode now).2.1 = some v)
    ∧ (∀ profile perNode k, contestsNode profile nodes k = true →
        (ProfileToApplyWhole profile nodes perNode now).2.2 = none →
        (List.lookup k (ProfileToApplyWhole profile nodes perNode now).2.1).isSome = true)
    ∧ (∀ profile perNode k v, List.lookup k perNode = none →
        List.lookup k (ProfileToApplyWhole profile nodes perNode now).2.1 = some v →
        v = profileKey profile) := by
  refine ⟨?_, ?_, ?_⟩
  · intro profile perNode k v h
    cases herr : (ProfileToApplyWhole profile nodes perNode now).2.2 with
    | none =>
      rw [(ProfileToApplyWhole_lookup profile nodes perNode now k).1 herr, h]
      rfl
    | some e =>
      rw [(ProfileToApplyWhole_lookup profile nodes perNode now k).2 (by rw [herr]; simp)]
      exact h
  · intro profile perNode k hc herr
    rw [(ProfileToApplyWhole_lookup profile nodes perNode now k).1 herr, hc]
    cases List.lookup k perNode <;> rfl
  · intro profile perNode k v h hv
    cases herr : (ProfileToApplyWhole profile nodes perNode now).2.2 with
    | none =>
      rw [(ProfileToApplyWhole_lookup profile nodes perNode now k).1 herr, h] at hv
      cases hc : contestsNode profile nodes k with
      | true =>
        rw [hc] at hv
        simp only [Option.none_or, if_true, Option.some.injEq] at hv
        exact hv.symm
      | false => rw [hc] at hv; simp at hv
    | some e =>
      rw [(ProfileToApplyWhole_lookup profile nodes perNode now k).2 (by rw [herr]; simp),
        h] at hv
      cases hv

/-- The contract both claiming policies meet, for the node-by-node resolver. -/
theorem ProfileToApply_contract (nodes : List Node) (now : Time) :
    (∀ profile perNode k v, List.lookup k perNode = some v →
      List.lookup k (ProfileToApply profile nodes perNode now).2.1 = some v)
    ∧ (∀ profile perNode k, contestsNode profile nodes k = true →
        (ProfileToApply profile nodes perNode now).2.2 = none →
        (List.lookup k (ProfileToApply profile nodes perNode now).2.1).isSome = true)
    ∧ (∀ profile perNode k v, List.lookup k perNode = none →
        List.lookup k (ProfileToApply profile nodes perNode now).2.1 = some v →
        v = profileKey profile) := by
  refine ⟨?_, ?_, ?_⟩
  · intro profile perNode k v h
    rw [ProfileToApply_lookup, h]
    rfl
  · intro profile perNode k hc _
    rw [ProfileToApply_lookup, hc]
    cases List.lookup k perNode <;> rfl
  · intro profile perNode k v h hv
    rw [ProfileToApply_lookup, h] at hv
    cases hc : contestsNode profile nodes k with
    | true =>
      rw [hc] at hv
      simp only [Option.none_or, if_true, Option.some.injEq] at hv
      exact hv.symm
    | false => rw [hc] at hv; simp at hv

/-- The default profile takes no node that is claimed. -/
theorem ApplyDefaultProfile_keeps (profiles : List DatadogAgentProfile)
    (perNode : NodeProfiles) (nodes : List Node) (k : String) (v : NamespacedName)
    (h : List.lookup k perNode = some v) :
    List.lookup k (ApplyDefaultProfile profiles perNode nodes).2 = some v := by
  unfold ApplyDefaultProfile
  simp only [claimNodes_lookup, h]
  rfl

/-! ## Precedence among contesting profiles: claim C16 -/

/-- C16: for any two listed profiles `p` and `q` that contest a node, `p`
being the older or, at identical creation timestamps, the one whose name is
alphabetically first, `profilesToApply` offers the node map to `p` first: the
sorted list it goes through holds `p` before `q`.  At every such place, what
the node map holds for a node when the turn of `p` ends is what the map
offered to `q`, the map after the turn of `q` and the returned map hold for
it, and it is `p` that holds the node if the node was free when `p` was
offered the map; a node contested by `p` and `q` is claimed when the turn of
an accepted `p` ends, so that the returned map assigns it as that turn left
it and never to the claim of the younger profile.  The list of the profiles
is arbitrary, so the order in which they are listed plays no role.  The
package `agentprofile` enters through the order of the spec for
`SortProfiles` and through the contract both claiming policies meet: a
claimed node is never reassigned, an accepted profile leaves every node it
contests claimed, and a node it claims is claimed for itself. -/
theorem profilesToApply_older_profile_keeps_contested_node (env : Env W)
    (nodeList : List Node) (now : Time) (s : St W) (items : List DatadogAgentProfile)
    (p q : DatadogAgentProfile)
    (hlist : (env.clientListProfiles s.world).1 = .ok items)
    (hsorted : (env.SortProfiles items).Pairwise profilePrecedes)
    (hmem : ∀ x, x ∈ items → x ∈ env.SortProfiles items)
    (hkeep : ∀ profile perNode k v, List.lookup k perNode = some v →
      List.lookup k (env.ProfileToApply profile nodeList perNode now).2.1 = some v)
    (hclaim : ∀ profile perNode k, contestsNode profile nodeList k = true →
      (env.ProfileToApply profile nodeList perNode now).2.2 = none →
      (List.lookup k (env.ProfileToApply profile nodeList perNode now).2.1).isSome = true)
    (hown : ∀ profile perNode k v, List.lookup k perNode = none →
      List.lookup k (env.ProfileToApply profile nodeList perNode now).2.1 = some v →
      v = profileKey profile)
    (hdefault : ∀ profiles perNode k v, List.lookup k perNode = some v →
      List.lookup k (env.ApplyDefaultProfile profiles perNode nodeList).2 = some v)
    (hp : p ∈ items) (hq : q ∈ items) (hpq : profileStrictlyPrecedes p q) :
    (∃ l1 l2 l3, env.SortProfiles items = l1 ++ p :: (l2 ++ q :: l3))
    ∧ ∀ l1 l2 l3, env.SortProfiles items = l1 ++ p :: (l2 ++ q :: l3) →
        ∀ k,
          (∀ v,
            List.lookup k (env.ProfileToApply p nodeList
              (resolveAll env.ProfileToApply nodeList now l1 []).2 now).2.1 = some v →
            List.lookup k (resolveAll env.ProfileToApply nodeList now (l1 ++ p :: l2) []).2
                = some v
            ∧ List.lookup k (env.ProfileToApply q nodeList
                (resolveAll env.ProfileToApply nodeList now (l1 ++ p :: l2) []).2 now).2.1
                = some v
            ∧ List.lookup k (profilesToApply env nodeList now s).1.2.1 = some v
            ∧ (List.lookup k (resolveAll env.ProfileToApply nodeList now l1 []).2 = none →
                v = profileKey p))
          ∧ (contestsNode p nodeList k = true → contestsNode q nodeList k = true →
              (env.ProfileToApply p nodeList
                (resolveAll env.ProfileToApply nodeList now l1 []).2 now).2.2 = none →
              ∃ v,
                List.lookup k (env.ProfileToApply p nodeList
                  (resolveAll env.ProfileToApply nodeList now l1 []).2 now).2.1 = some v
                ∧ List.lookup k (profilesToApply env nodeList now s).1.2.1 = some v
                ∧ (List.lookup k (resolveAll env.ProfileToApply nodeList now l1 []).2 = none →
                    v = profileKey p)) := by
  refine ⟨split_of_strictly_precedes _ hsorted p q (hmem p hp) (hmem q hq) hpq, ?_⟩
  intro l1 l2 l3 hsplit k
  have hoffered : (resolveAll env.ProfileToApply nodeList now (l1 ++ p :: l2) []).2
      = (resolveAll env.ProfileToApply nodeList now l2
          (env.ProfileToApply p nodeList
            (resolveAll env.ProfileToApply nodeList now l1 []).2 now).2.1).2 := by
    rw [resolveAll_append]
    rfl
  have hfinal : (resolveAll env.ProfileToApply nodeList now (env.SortProfiles items) []).2
      = (resolveAll env.ProfileToApply nodeList now l3
          (env.ProfileToApply q nodeList
            (resolveAll env.ProfileToApply nodeList now (l1 ++ p :: l2) []).2 now).2.1).2 := by
    have hshape : l1 ++ p :: (l2 ++ q :: l3) = (l1 ++ p :: l2) ++ q :: l3 := by simp
    rw [hsplit, hshape, resolveAll_append]
    rfl
  have hret : (profilesToApply env nodeList now s).1.2.1
      = (env.ApplyDefaultProfile
          (acceptedProfiles
            (resolveAll env.ProfileToApply nodeList now (env.SortProfiles items) []).1)
          (resolveAll env.ProfileToApply nodeList now (env.SortProfiles items) []).2
          nodeList).2 := by
    obtain ⟨_, -, hval, -⟩ := profilesToApply_spec env nodeList now s items hlist
    rw [hval]
  have hstay : ∀ v,
      List.lookup k (env.ProfileToApply p nodeList
        (resolveAll env.ProfileToApply nodeList now l1 []).2 now).2.1 = some v →
      List.lookup k (resolveAll env.ProfileToApply nodeList now (l1 ++ p :: l2) []).2 = some v
      ∧ List.lookup k (env.ProfileToApply q nodeList
          (resolveAll env.ProfileToApply nodeList now (l1 ++ p :: l2) []).2 now).2.1 = some v
      ∧ List.lookup k (profilesToApply env nodeList now s).1.2.1 = some v
      ∧ (List.lookup k (resolveAll env.ProfileToApply nodeList now l1 []).2 = none →
          v = profileKey p) := by
    intro v hv
    have h1 : List.lookup k
        (resolveAll env.ProfileToApply nodeList now (l1 ++ p :: l2) []).2 = some v := by
      rw [hoffered]
      exact resolveAll_keeps env.ProfileToApply nodeList now hkeep l2 _ k v hv
    have h2 := hkeep q _ k v h1
    refine ⟨h1, h2, ?_, fun hfree => hown p _ k v hfree hv⟩
    rw [hret]
    apply hdefault
    rw [hfinal]
    exact resolveAll_keeps env.ProfileToApply nodeList now hkeep l3 _ k v h2
  refine ⟨hstay, ?_⟩
  intro hcp _ hacc
  have hsome := hclaim p _ k hcp hacc
  cases hv : List.lookup k (env.ProfileToApply p nodeList
      (resolveAll env.ProfileToApply nodeList now l1 []).2 now).2.1 with
  | none => rw [hv] at hsome; cases hsome
  | some v =>
    obtain ⟨-, -, h3, h4⟩ := hstay v hv
    exact ⟨v, rfl, h3, h4⟩

/-- C16, under both claiming policies.  Node by node, at two profiles of the
same age listed in reverse alphabetical order: the contested node goes to the
one whose name is alphabetically first.  All or nothing, at a young profile
matching every node listed before an older profile matching one pool: the
contested node goes to the older profile. -/
theorem profilesToApply_older_profile_keeps_contested_node_witness :
    List.lookup "node-1"
        (profilesToApply (withProfileResolver (scenarioEnv scenarioTwins)) demoNodes 0
          ⟨0, []⟩).1.2.1 = some (profileKey alphaProfile)
    ∧ List.lookup "node-1"
        (profilesToApply (withWholeProfileResolver (scenarioEnv scenarioPartlyContested))
          demoNodes 0 ⟨0, []⟩).1.2.1 = some (profileKey oldestProfile) := by
  constructor
  · obtain ⟨v, -, hret, hv⟩ :=
      ((profilesToApply_older_profile_keeps_contested_node
          (withProfileResolver (scenarioEnv scenarioTwins)) demoNodes 0 ⟨0, []⟩ twinProfiles
          alphaProfile betaProfile rfl (SortProfiles_sorted twinProfiles)
          (fun x hx => (mem_SortProfiles twinProfiles x).mpr hx)
          (ProfileToApply_contract demoNodes 0).1
          (ProfileToApply_contract demoNodes 0).2.1
          (ProfileToApply_contract demoNodes 0).2.2
          (fun profiles perNode k v h => ApplyDefaultProfile_keeps profiles perNode demoNodes k v h)
          (by decide) (by decide) (by decide)).2 [] [] [] (by decide) "node-1").2
        (by decide) (by decide) (by decide)
    rw [hret, hv (by decide)]
  · obtain ⟨v, -, hret, hv⟩ :=
      ((profilesToApply_older_profile_keeps_contested_node
          (withWholeProfileResolver (scenarioEnv scenarioPartlyContested)) demoNodes 0 ⟨0, []⟩
          partlyContestedProfiles oldestProfile catchAllProfile rfl
          (SortProfiles_sorted partlyContestedProfiles)
          (fun x hx => (mem_SortProfiles partlyContestedProfiles x).mpr hx)
          (ProfileToApplyWhole_contract demoNodes 0).1
          (ProfileToApplyWhole_contract demoNodes 0).2.1
          (ProfileToApplyWhole_contract demoNodes 0).2.2
          (fun profiles perNode k v h => ApplyDefaultProfile_keeps profiles perNode demoNodes k v h)
          (by decide) (by decide) (by decide)).2 [] [] [] (by decide) "node-1").2
        (by decide) (by decide) (by decide)
    rw [hret, hv (by decide)]

/-! ## The int-or-string values under an overwritten `oneOf`: claim C28 -/

/-- C28, as stated, fails at a map whose `format` is `int-or-string` and whose
`oneOf` entry is a map of that format too: the inner map is reachable before
the call and has the format; line 57 overwrites the `oneOf` entry of the outer
map before the loop runs, so the inner map is never visited; after the call
no map stands at its path, where the claim has it stand without `format` and
with the `oneOf` of a string and an integer. -/
theorem replaceIntOrString_drops_map_under_oneOf :
    (∃ m, (Value.map nestedIntOrString).reach ["oneOf"] = some (.map m)
      ∧ isIntOrString m = true)
    ∧ isIntOrString nestedIntOrString = true
    ∧ (Value.map (replaceIntOrString nestedIntOrString)).reach ["oneOf"]
        = some stringOrInteger
    ∧ ¬ ∃ m', (Value.map (replaceIntOrString nestedIntOrString)).reach ["oneOf"]
        = some (.map m') := by
  have hafter : (Value.map (replaceIntOrString nestedIntOrString)).reach ["oneOf"]
      = some stringOrInteger := by
    have hget : mapGet "oneOf" (openIntOrString nestedIntOrString) = some stringOrInteger :=
      rfl
    rw [Value.reach_map_cons, mapGet_replaceIntOrString, hget]
    rfl
  refine ⟨⟨[("format", .string "int-or-string")], rfl, rfl⟩, rfl, hafter, ?_⟩
  rintro ⟨m', hm'⟩
  rw [hafter] at hm'
  cases hm'

end DatadogOperator
